import Mathlib

/-!
# FC text comparison engine (`text.h`)

A shallow embedding of the line normaliser, the hashed line comparison and the
resynchronisation search of the FC command.

Conventions of the embedding.

* A `TCHAR` is a natural number, its code unit (the `WCHAR` of the wide build,
  the 7-bit characters of the narrow one).  A C string is a `List Nat`
  read up to its first `0` code unit or up to the end of the list, whichever
  comes first; every loop below that tests `*pch` stops in both cases.
* A `DWORD` is a natural number kept below `2 ^ 32` by an explicit `%`.
* `malloc`/`calloc` are taken to succeed, so the out-of-memory exits are not
  represented.
* A `struct list *` into a line list is `Option Nat`: `none` is `NULL` and
  `some i` is the entry at index `i` of the list.  Reading through `NULL` (or
  through an index that is not in the list) is a fault, rendered as `none` in
  the result of the function that does it.
-/

namespace FC

/-! ## Characters and flags -/

/-- Code unit of the character `' '`. -/
def CH_SPACE : Nat := 32

/-- Code unit of the character `'\t'`. -/
def CH_TAB : Nat := 9

/-- The macro `IS_SPACE(ch)`: `ch` is a blank or a tab. -/
def IS_SPACE (ch : Nat) : Bool := ch == CH_SPACE || ch == CH_TAB

/-- Modelled from the spec: the header `fc.h` with the `FLAG_*` masks is not part
of the sources; the masks are distinct single bits of `dwFlags`.  `FLAG_C` is the
`ignoreCase` option. -/
def FLAG_C : Nat := 4

/-- Modelled from the spec: the `literalTabs` option (tabs are not expanded), a
single bit of `dwFlags` distinct from the others. -/
def FLAG_T : Nat := 128

/-- Modelled from the spec: the `compressWhitespace` option, a single bit of
`dwFlags` distinct from the others. -/
def FLAG_W : Nat := 512

/-- The test `(dwFlags & mask) != 0`. -/
def hasFlag (dwFlags mask : Nat) : Bool := dwFlags &&& mask != 0

/-- Modelled from the spec: the structure `FILECOMPARE` is declared in `fc.h`,
which is not part of the sources.  These are the fields that the functions below
read: the option bits `dwFlags` and the resync window `n`. -/
structure FILECOMPARE where
  dwFlags : Nat
  n : Nat
deriving Repr, DecidableEq

/-- Modelled from the spec: the result codes `FCRET` are declared in `fc.h`,
which is not part of the sources; these are the codes that the sources name. -/
inductive FCRET where
  | FCRET_INVALID
  | FCRET_IDENTICAL
  | FCRET_DIFFERENT
  | FCRET_CANT_FIND
  | FCRET_NO_MORE_DATA
deriving Repr, DecidableEq

open FCRET

/-! ## Strings -/

/-- The characters of a C string: everything before the first `0`. -/
def cstr : List Nat → List Nat
  | [] => []
  | c :: cs => if c = 0 then [] else c :: cstr cs

/-- Function `AllocLine(pch, cch)`: a fresh string holding the first `cch` characters at
`pch`. -/
def AllocLine (pch : List Nat) (cch : Nat) : List Nat := pch.take cch

/-- Function `SkipSpace`: advance over blanks and tabs. -/
def SkipSpace : List Nat → List Nat
  | [] => []
  | c :: cs => if IS_SPACE c then SkipSpace cs else c :: cs

/-- The loop of `FindLastNonSpace`: `i` is the offset of the character under
`pch`, `pchLast` the offset of the last character seen that is not a blank or a
tab (`none` is `NULL`). -/
def FindLastNonSpaceLoop : List Nat → Nat → Option Nat → Option Nat
  | [], _, pchLast => pchLast
  | c :: cs, i, pchLast =>
    if c = 0 then pchLast
    else FindLastNonSpaceLoop cs (i + 1) (if IS_SPACE c then pchLast else some i)

/-- Function `FindLastNonSpace`: offset of the last character that is not a blank or a
tab, `none` when there is none. -/
def FindLastNonSpace (pch : List Nat) : Option Nat := FindLastNonSpaceLoop pch 0 none

/-- The loop of `DeleteDuplicateSpaces`.  Every character reached by the outer
`for` is copied; after a blank or tab the inner `do ... while` moves over the
rest of the run, which is the state `inRun = true` here: the characters read in
that state are blanks and tabs that are not copied. -/
def DeleteDuplicateSpacesLoop : Bool → List Nat → List Nat
  | _, [] => []
  | inRun, c :: cs =>
    if c = 0 then []
    else if IS_SPACE c then
      (if inRun then DeleteDuplicateSpacesLoop true cs
       else c :: DeleteDuplicateSpacesLoop true cs)
    else c :: DeleteDuplicateSpacesLoop false cs

/-- Function `DeleteDuplicateSpaces`: keep the first character of every run of blanks and
tabs and drop the rest of the run. -/
def DeleteDuplicateSpaces (psz : List Nat) : List Nat := DeleteDuplicateSpacesLoop false psz

/-- Function `CompressSpace`: skip the leading blanks and tabs, cut after the last
character that is neither, and delete duplicate spaces in what is left. -/
def CompressSpace (line : List Nat) : List Nat :=
  let line1 := SkipSpace line
  match FindLastNonSpace line1 with
  | none => AllocLine [] 0
  | some pchLast => DeleteDuplicateSpaces (AllocLine line1 (pchLast + 1))

/-- The constant `TAB_WIDTH`. -/
def TAB_WIDTH : Nat := 8

/-- The loop of `ExpandTabLength`, `cch` being the length so far. -/
def ExpandTabLengthLoop : List Nat → Nat → Nat
  | [], cch => cch
  | c :: cs, cch =>
    if c = 0 then cch
    else if c = CH_TAB then ExpandTabLengthLoop cs (cch + (TAB_WIDTH - cch % TAB_WIDTH))
    else ExpandTabLengthLoop cs (cch + 1)

/-- Function `ExpandTabLength`: the length of the line once its tabs are expanded. -/
def ExpandTabLength (line : List Nat) : Nat := ExpandTabLengthLoop line 0

/-- The loop of `ExpandTab`: `ich` is the number of characters written so far;
the result is what is written from there on. -/
def ExpandTabLoop : List Nat → Nat → List Nat
  | [], _ => []
  | c :: cs, ich =>
    if c = 0 then []
    else if c = CH_TAB then
      List.replicate (TAB_WIDTH - ich % TAB_WIDTH) CH_SPACE
        ++ ExpandTabLoop cs (ich + (TAB_WIDTH - ich % TAB_WIDTH))
    else c :: ExpandTabLoop cs (ich + 1)

/-- Function `ExpandTab`: replace every tab by blanks up to the next multiple of
`TAB_WIDTH`. -/
def ExpandTab (line : List Nat) : List Nat := ExpandTabLoop line 0

/-! ## Hash -/

/-- The constant `HASH_EOF`. -/
def HASH_EOF : Nat := 0xFFFFFFFF

/-- The constant `HASH_MASK`. -/
def HASH_MASK : Nat := 0x7FFFFFFF

/-- The C library function `towupper`, modelled on the letters `a`..`z`, which it
maps to `A`..`Z`; every other code unit is left as it is. -/
def towupper (c : Nat) : Nat := if 97 ≤ c ∧ c ≤ 122 then c - 32 else c

/-- The loop of `GetHash` on the 32-bit accumulator `ret`: add the character
(folded to upper case when `bIgnoreCase`), then shift left by two bits; both
steps wrap modulo `2 ^ 32`. -/
def GetHashLoop (bIgnoreCase : Bool) : List Nat → Nat → Nat
  | [], ret => ret
  | c :: cs, ret =>
    if c = 0 then ret
    else
      GetHashLoop bIgnoreCase cs
        ((((ret + (if bIgnoreCase then towupper c else c)) % 2 ^ 32) <<< 2) % 2 ^ 32)

/-- Function `GetHash`: the accumulator starts at `0xDEADFACE` and is masked with
`HASH_MASK` at the end. -/
def GetHash (psz : List Nat) (bIgnoreCase : Bool) : Nat :=
  GetHashLoop bIgnoreCase psz 0xDEADFACE &&& HASH_MASK

/-! ## Nodes -/

/-- Modelled from the spec: the structure `NODE` is declared in `fc.h`, which is
not part of the sources.  One line of a file, with the fields that the functions
below use: the text shown, the compressed text (`none` is the `NULL` that `calloc`
leaves), the line number and the hash.  The link `entry` is the position of the
node in its list. -/
structure NODE where
  pszLine : List Nat
  pszComp : Option (List Nat)
  lineno : Nat
  hash : Nat
deriving Repr, DecidableEq

/-- Function `AllocNode`: a zeroed node (`calloc`) holding the line and its number. -/
def AllocNode (psz : List Nat) (lineno : Nat) : NODE :=
  { pszLine := psz, pszComp := none, lineno := lineno, hash := 0 }

/-- Function `AllocEOFNode`: the end-of-file marker, an empty line with number 0, hash
`HASH_EOF` and an empty compressed text. -/
def AllocEOFNode : NODE :=
  { AllocNode (AllocLine [] 0) 0 with hash := HASH_EOF, pszComp := some (AllocLine [] 0) }

/-- Function `IsEOFNode` of a node that is not `NULL`. -/
def IsEOFNode (node : NODE) : Bool := node.hash == HASH_EOF

/-- Function `ConvertNode`: expand the tabs unless `FLAG_T`, compress the white space if
`FLAG_W`, and set the hash where the code sets it. -/
def ConvertNode (pFC : FILECOMPARE) (node : NODE) : NODE :=
  let node1 :=
    if !(hasFlag pFC.dwFlags FLAG_T) then
      let tmp := ExpandTab node.pszLine
      let node := { node with pszLine := tmp }
      if !(hasFlag pFC.dwFlags FLAG_W) then
        { node with hash := GetHash node.pszLine (hasFlag pFC.dwFlags FLAG_C) }
      else node
    else node
  if hasFlag pFC.dwFlags FLAG_W then
    let comp := CompressSpace node1.pszLine
    { node1 with pszComp := some comp, hash := GetHash comp (hasFlag pFC.dwFlags FLAG_C) }
  else node1

/-- The Win32 call `CompareString(LOCALE_USER_DEFAULT, dwCmpFlags, psz0, -1, psz1, -1)`
reduced to the test `== CSTR_EQUAL` made of its result: the two strings, read up
to their terminator, have the same code units, after folding both to upper case
when `NORM_IGNORECASE` is given.  A `NULL` string makes the call fail, which is
not `CSTR_EQUAL`. -/
def CompareStringEqual (ignoreCase : Bool) : Option (List Nat) → Option (List Nat) → Bool
  | some psz0, some psz1 =>
    if ignoreCase then (cstr psz0).map towupper == (cstr psz1).map towupper
    else cstr psz0 == cstr psz1
  | _, _ => false

/-- Function `CompareNode`: different hashes are different lines; with equal hashes the
texts decide, the compressed ones under `FLAG_W`. -/
def CompareNode (pFC : FILECOMPARE) (node0 node1 : NODE) : FCRET :=
  if node0.hash != node1.hash then FCRET_DIFFERENT
  else
    let psz0 := if hasFlag pFC.dwFlags FLAG_W then node0.pszComp else some node0.pszLine
    let psz1 := if hasFlag pFC.dwFlags FLAG_W then node1.pszComp else some node1.pszLine
    if CompareStringEqual (hasFlag pFC.dwFlags FLAG_C) psz0 psz1 then FCRET_IDENTICAL
    else FCRET_DIFFERENT

/-! ## Line lists and the resynchronisation search -/

/-- Modelled from the spec: the list header is not part of the sources; a line
store is an ordered sequence.  Function `list_head`: the first entry of a list,
`NULL` when it is empty. -/
def list_head (list : List NODE) : Option Nat :=
  if list.isEmpty then none else some 0

/-- Modelled from the spec: the list header is not part of the sources.  Function
`list_next(list, elem)` for an entry `elem` that is not `NULL`: the entry after
it, `NULL` when `elem` is the last one.  It reads `elem->next`, so that a call
with `elem = NULL` is a read through `NULL`; the callers below render it. -/
def list_next (list : List NODE) (elem : Nat) : Option Nat :=
  if elem + 1 < list.length then some (elem + 1) else none

/-- The constant `MAXLONG`. -/
def MAXLONG : Int := 0x7FFFFFFF

/-- The tie-break score `i0 + 2 * i1 + 3 * abs(i1 - i0)` of `Resync`, as an
integer.  The `INT` of the code holds it without overflow as long as it is below
`2 ^ 31`, which is the case when the window or the lists are below `2 ^ 31 / 5`. -/
def penalty (i0 i1 : Nat) : Int :=
  (i0 : Int) + 2 * (i1 : Int) + 3 * (((i1 : Int) - (i0 : Int)).natAbs : Int)

/-- The variables of `Resync` that its search loops update. -/
structure ResyncSearch where
  min_penalty : Int
  save0 : Option Nat
  save1 : Option Nat
deriving Repr, DecidableEq

/-- The body of the inner loop of `Resync` up to the step of `ptr1`: compare the
two nodes and keep the pair when its score is below the least one so far. -/
def ResyncVisit (pFC : FILECOMPARE) (node0 node1 : NODE) (i0 i1 ptr0 ptr1 : Nat)
    (st : ResyncSearch) : ResyncSearch :=
  if CompareNode pFC node0 node1 = FCRET_IDENTICAL then
    if penalty i0 i1 < st.min_penalty then
      { min_penalty := penalty i0 i1, save0 := some ptr0, save1 := some ptr1 }
    else st
  else st

/-- The inner loop `for (i1 = ...; i1 < pFC->n; ++i1)` of `Resync`; `k` is the
number of values of `i1` still to come, `n - i1`.  The loop is left early when
`list_next` gives `NULL`. -/
def ResyncInner (pFC : FILECOMPARE) (list1 : List NODE) (node0 : NODE) (i0 ptr0 : Nat) :
    Nat → Nat → Nat → ResyncSearch → Option ResyncSearch
  | 0, _, _, st => some st
  | k + 1, i1, ptr1, st =>
    match list1[ptr1]? with
    | none => none
    | some node1 =>
      let st1 := ResyncVisit pFC node0 node1 i0 i1 ptr0 ptr1 st
      match list_next list1 ptr1 with
      | none => some st1
      | some next1 => ResyncInner pFC list1 node0 i0 ptr0 k (i1 + 1) next1 st1

/-- The outer loop `for (i0 = ...; i0 < pFC->n; ++i0)` of `Resync`; `k` is the
number of values of `i0` still to come and `start1` the value of `*pptr1`. -/
def ResyncOuter (pFC : FILECOMPARE) (list0 list1 : List NODE) (start1 : Nat) :
    Nat → Nat → Nat → ResyncSearch → Option ResyncSearch
  | 0, _, _, st => some st
  | k + 1, i0, ptr0, st =>
    match list0[ptr0]? with
    | none => none
    | some node0 =>
      match ResyncInner pFC list1 node0 i0 ptr0 pFC.n 0 start1 st with
      | none => none
      | some st1 =>
        match list_next list0 ptr0 with
        | none => some st1
        | some next0 => ResyncOuter pFC list0 list1 start1 k (i0 + 1) next0 st1

/-- The loops `for (i = 0; i < pFC->n; ++i) ptr = list_next(list, ptr);` at the
end of `Resync`, `k` being the number of steps still to make.  A step from
`NULL` reads through `NULL`. -/
def ResyncAdvance (list : List NODE) : Nat → Option Nat → Option (Option Nat)
  | 0, ptr => some ptr
  | k + 1, ptr =>
    match ptr with
    | none => none
    | some elem => ResyncAdvance list k (list_next list elem)

/-- Function `Resync`, called with `*pptr0` and `*pptr1` not `NULL`: the result
code with the new values of `*pptr0` and `*pptr1`, or `none` when the call reads
through `NULL`. -/
def Resync (pFC : FILECOMPARE) (list0 list1 : List NODE) (ptr0 ptr1 : Nat) :
    Option (FCRET × Option Nat × Option Nat) :=
  match ResyncOuter pFC list0 list1 ptr1 pFC.n 0 ptr0
      { min_penalty := MAXLONG, save0 := none, save1 := none } with
  | none => none
  | some st =>
    match st.save0, st.save1 with
    | some save0, some save1 => some (FCRET_IDENTICAL, some save0, some save1)
    | _, _ =>
      match ResyncAdvance list0 pFC.n (some ptr0) with
      | none => none
      | some new0 =>
        match ResyncAdvance list1 pFC.n (some ptr1) with
        | none => none
        | some new1 => some (FCRET_DIFFERENT, new0, new1)

/-- The loop of `SkipIdentical`; `k` bounds the number of turns and `ret` is the
result of the last comparison (`none` while there has been none). -/
def SkipIdenticalLoop (pFC : FILECOMPARE) (list0 list1 : List NODE) :
    Nat → Option Nat → Option Nat → Option FCRET → Option (Option FCRET × Option Nat × Option Nat)
  | 0, _, _, _ => none
  | k + 1, ptr0, ptr1, ret =>
    match ptr0, ptr1 with
    | some p0, some p1 =>
      match list0[p0]?, list1[p1]? with
      | some node0, some node1 =>
        if CompareNode pFC node0 node1 != FCRET_IDENTICAL then
          some (some (CompareNode pFC node0 node1), ptr0, ptr1)
        else
          SkipIdenticalLoop pFC list0 list1 k (list_next list0 p0) (list_next list1 p1)
            (some (CompareNode pFC node0 node1))
      | _, _ => none
    | _, _ => some (ret, ptr0, ptr1)

/-- Function `SkipIdentical`: move both positions over the lines that compare
identical.  The loop makes at most one turn per entry of `list0`, so
`list0.length + 1` turns are enough. -/
def SkipIdentical (pFC : FILECOMPARE) (list0 list1 : List NODE) (ptr0 ptr1 : Option Nat) :
    Option (Option FCRET × Option Nat × Option Nat) :=
  SkipIdenticalLoop pFC list0 list1 (list0.length + 1) ptr0 ptr1 none

/-! ## Output and binary comparison (`fc.c`) -/

/-- The constant `MAXDWORD`. -/
def MAXDWORD : Nat := 0xFFFFFFFF

/-- What the program writes, one value per call of an output function.  The two
files are named by their index `0` or `1` in `pFC->file`. -/
inductive OUT where
  /-- One mismatch line of the binary comparison: `wide` tells the 16-digit
  format from the 8-digit one, then the offset printed and the two bytes. -/
  | mismatch (wide : Bool) (offset byte0 byte1 : Nat)
  /-- The message of `NoDifference`. -/
  | noDifference
  /-- The message of `Different(file0, file1)`. -/
  | different (file0 file1 : Nat)
  /-- The message of `LongerThan(file0, file1)`: `file0` is longer than `file1`. -/
  | longerThan (file0 file1 : Nat)
  /-- The message of `ResyncFailed`. -/
  | resyncFailed
  /-- The header of `PrintCaption` for the file of the given index. -/
  | caption (file : Nat)
  /-- One line of `PrintLine`: the number when it is printed (`FLAG_N`), the text. -/
  | line (lineno : Option Nat) (psz : List Nat)
  /-- The marker of `PrintDots`. -/
  | dots
  /-- The divider of `PrintEndOfDiff`. -/
  | endOfDiff
deriving Repr, DecidableEq

/-- The inner loop `for (ibView = 0; ibView < cbView; ++ib.QuadPart, ++ibView)` of
`BinaryFileCompare` over the two views `pb0` and `pb1`; `k` is the number of turns
still to make, `cbView - ibView`.  A differing byte sets `fDifferent` and prints
`ib.QuadPart` when `cbCommon > MAXDWORD`, `ib.LowPart` otherwise. -/
def BinaryViewLoop (cbCommon : Nat) (pb0 pb1 : List Nat) :
    Nat → Nat → Nat → Bool → List OUT → Nat × Bool × List OUT
  | 0, _, ib, fDifferent, out => (ib, fDifferent, out)
  | k + 1, ibView, ib, fDifferent, out =>
    if pb0.getD ibView 0 = pb1.getD ibView 0 then
      BinaryViewLoop cbCommon pb0 pb1 k (ibView + 1) (ib + 1) fDifferent out
    else
      BinaryViewLoop cbCommon pb0 pb1 k (ibView + 1) (ib + 1) true
        (out ++ [if cbCommon > MAXDWORD then
                   OUT.mismatch true ib (pb0.getD ibView 0) (pb1.getD ibView 0)
                 else
                   OUT.mismatch false (ib % 2 ^ 32) (pb0.getD ibView 0) (pb1.getD ibView 0)])

/-- The outer loop `for (ib.QuadPart = 0; ib.QuadPart < cbCommon.QuadPart; )` of
`BinaryFileCompare` on the contents `file0` and `file1`; every turn maps a view of
`cbView = (DWORD)min(cbCommon - ib, MAX_VIEW_SIZE)` bytes of both files at the
offset `ib`.  The first argument bounds the number of turns; `none` when it is
used up. -/
def BinaryLoop (maxView : Nat) (file0 file1 : List Nat) (cbCommon : Nat) :
    Nat → Nat → Bool → List OUT → Option (Bool × List OUT)
  | 0, ib, fDifferent, out => if ib < cbCommon then none else some (fDifferent, out)
  | fuel + 1, ib, fDifferent, out =>
    if ib < cbCommon then
      let cbView := min (cbCommon - ib) maxView % 2 ^ 32
      let pb0 := (file0.drop ib).take cbView
      let pb1 := (file1.drop ib).take cbView
      match BinaryViewLoop cbCommon pb0 pb1 cbView 0 ib fDifferent out with
      | (ib1, fDifferent1, out1) => BinaryLoop maxView file0 file1 cbCommon fuel ib1 fDifferent1 out1
    else some (fDifferent, out)

/-- Function `BinaryFileCompare` on two files that can be opened and read, with
the contents `file0` and `file1`; `samePath` is the test `_wcsicmp(file[0],
file[1]) == 0` and `maxView` the constant `MAX_VIEW_SIZE`.  The result is the
code returned with what was printed.  Every turn of the outer loop moves `ib`
forward, so `cbCommon` turns are enough. -/
def BinaryFileCompare (samePath : Bool) (maxView : Nat) (file0 file1 : List Nat) :
    Option (FCRET × List OUT) :=
  if samePath then some (FCRET_IDENTICAL, [OUT.noDifference])
  else
    let cb0 := file0.length
    let cb1 := file1.length
    let cbCommon := min cb0 cb1
    match (if cbCommon > 0 then BinaryLoop maxView file0 file1 cbCommon cbCommon 0 false []
           else some (false, [])) with
    | none => none
    | some (fDifferent, out) =>
      if cb0 < cb1 then some (FCRET_DIFFERENT, out ++ [OUT.longerThan 1 0])
      else if cb0 > cb1 then some (FCRET_DIFFERENT, out ++ [OUT.longerThan 0 1])
      else if fDifferent then some (FCRET_DIFFERENT, out ++ [OUT.different 0 1])
      else some (FCRET_IDENTICAL, out ++ [OUT.noDifference])

/-- The mismatch lines for the offsets `offsets`, in that order: one line for
every offset at which the two contents differ, with the offset and the two
bytes. -/
def mismatchLines (wide : Bool) (file0 file1 : List Nat) (offsets : List Nat) : List OUT :=
  (offsets.filter fun i => file0.getD i 0 != file1.getD i 0).map
    fun i => OUT.mismatch wide i (file0.getD i 0) (file1.getD i 0)

/-! ## The line tokenizer -/

/-- Code unit of the character `'\n'`. -/
def CH_LF : Nat := 10

/-- Code unit of the character `'\r'`. -/
def CH_CR : Nat := 13

/-- The loop of `FindNextLine` on the view `pch` of `cch` characters; `k` is the
number of positions still to look at, `cch - ich`.  The result is the value
returned and the value stored in `*pich`. -/
def FindNextLineLoop (pch : List Nat) (cch : Nat) : Nat → Nat → Bool × Nat
  | 0, _ => (false, cch)
  | k + 1, ich =>
    if pch.getD ich 0 = CH_LF ∨ pch.getD ich 0 = 0 then (true, ich)
    else FindNextLineLoop pch cch k (ich + 1)

/-- Function `FindNextLine(pch, ich, cch, pich)`: the first position from `ich` on
that holds `'\n'` or `'\0'`, or `cch` with the result `FALSE` when there is none. -/
def FindNextLine (pch : List Nat) (ich cch : Nat) : Bool × Nat :=
  FindNextLineLoop pch cch (cch - ich) ich

/-- The `while` loop of `ParseLines` over the view `psz` of `cch` characters.  The
state is `ich`, `lineno`, the variable `ichNext` (`none` while nothing has been
stored in it) and the list.  `FindNextLine` is called only when `ich < cch`.  The
length `cchNode = ichNext - ich - bCR` is a `DWORD` difference.  The first
argument bounds the number of turns; the result is `none` when it is used up. -/
def ParseLinesLoop (pFC : FILECOMPARE) (psz : List Nat) (cch : Nat) (fLast : Bool) :
    Nat → Nat → Nat → Option Nat → List NODE → Option (Option Nat × List NODE)
  | 0, ich, _, ichNext, list => if ich < cch then none else some (ichNext, list)
  | fuel + 1, ich, lineno, ichNext, list =>
    if ich < cch then
      match FindNextLine psz ich cch with
      | (found, next) =>
        if found || (next == cch && (fLast || ich == 0)) then
          let bCR : Nat := if 0 < next ∧ psz.getD (next - 1) 0 = CH_CR then 1 else 0
          let cchNode := (next + 2 ^ 32 - ich - bCR) % 2 ^ 32
          let pszLine := AllocLine (psz.drop ich) cchNode
          let node := ConvertNode pFC (AllocNode pszLine lineno)
          ParseLinesLoop pFC psz cch fLast fuel (next + 1) (lineno + 1) (some next)
            (list ++ [node])
        else some (some next, list)
    else some (ichNext, list)

/-- What `ParseLines` reads and updates for one file: whether `*phMapping` is not
`NULL`, the cursor `*pib` in bytes, and the line list. -/
structure PARSE where
  hMapping : Bool
  ib : Nat
  list : List NODE
deriving Repr, DecidableEq

/-- Function `ParseLines` for a file whose contents are the `TCHAR`s `file`, so
that its size is `sizeofTCHAR * file.length` bytes; `sizeofTCHAR` is 1 in the
narrow build and 2 in the wide one, and `maxView` is the constant `MAX_VIEW_SIZE`.
The view holds the characters of the file from the byte `*pib` on (the cursor is
always even).  `MapViewOfFile` is taken to succeed.  The cursor moves by
`ichNext * sizeof(WCHAR)`, that is `ichNext * 2` in both builds; the result is
`none` when `ichNext` is read before anything was stored in it, or when the loop
bound `cch` is used up. -/
def ParseLines (pFC : FILECOMPARE) (sizeofTCHAR maxView : Nat) (file : List Nat) (st : PARSE) :
    Option (FCRET × PARSE) :=
  if !st.hMapping then some (FCRET_NO_MORE_DATA, st)
  else
    let cb := sizeofTCHAR * file.length
    if st.ib ≥ cb then some (FCRET_NO_MORE_DATA, { st with hMapping := false })
    else
      let cbView := min (cb - st.ib) maxView % 2 ^ 32
      let cch := cbView / sizeofTCHAR
      let psz := (file.drop (st.ib / sizeofTCHAR)).take cch
      let fLast : Bool := st.ib + cbView ≥ cb
      match ParseLinesLoop pFC psz cch fLast cch 0 1 none st.list with
      | none => none
      | some (none, _) => none
      | some (some ichNext, list) =>
        let ib := st.ib + ichNext * 2
        if ib < cb then some (FCRET_IDENTICAL, { st with ib := ib, list := list })
        else some (FCRET_NO_MORE_DATA, { st with ib := ib, list := list ++ [AllocEOFNode] })

/-! ## Printing a block of lines -/

/-- Modelled from the spec: the `abbreviateOutput` option, a single bit of
`dwFlags` distinct from the others (`fc.h` is not part of the sources). -/
def FLAG_A : Nat := 1

/-- Modelled from the spec: the `showLineNumbers` option, a single bit of
`dwFlags` distinct from the others (`fc.h` is not part of the sources). -/
def FLAG_N : Nat := 32

/-- Modelled from the spec: the list header is not part of the sources.  Function
`list_prev(list, elem)` for an entry `elem` that is not `NULL`: the entry before
it, `NULL` when `elem` is the first one. -/
def list_prev (_list : List NODE) (elem : Nat) : Option Nat :=
  if elem = 0 then none else some (elem - 1)

/-- Function `PrintLine` (`PrintLineA`, `PrintLineW`): the text, after the line
number under `FLAG_N`. -/
def PrintLine (pFC : FILECOMPARE) (lineno : Nat) (psz : List Nat) : OUT :=
  if hasFlag pFC.dwFlags FLAG_N then OUT.line (some lineno) psz else OUT.line none psz

/-- The variables of `ShowDiff` that its loop updates, with what was printed. -/
structure ShowDiffState where
  first : Option Nat
  last : Option Nat
  out : List OUT
deriving Repr, DecidableEq

/-- The `while (begin != end)` loop of `ShowDiff`.  For `begin = NULL` the node
computed by `LIST_ENTRY` is `NULL` (the link is the first field of a node), for
which `IsEOFNode` holds, and the loop is left.  The first argument bounds the
number of turns; the result is `none` when it is used up or when an entry that is
not in the list is read. -/
def ShowDiffLoop (pFC : FILECOMPARE) (list : List NODE) (endp : Option Nat) :
    Nat → Option Nat → ShowDiffState → Option ShowDiffState
  | 0, _, _ => none
  | fuel + 1, begin, st =>
    if begin = endp then some st
    else
      match begin with
      | none => some st
      | some b =>
        match list[b]? with
        | none => none
        | some node =>
          if IsEOFNode node then some st
          else
            ShowDiffLoop pFC list endp fuel (list_next list b)
              { first := if st.first.isSome then st.first else some b,
                last := some b,
                out := if !(hasFlag pFC.dwFlags FLAG_A) then
                         st.out ++ [PrintLine pFC node.lineno node.pszLine]
                       else st.out }

/-- Function `ShowDiff(pFC, i, begin, end)` on the list `list` of the side `i`:
what it prints, or `none` when it reads through `NULL`.  The loop makes at most
one turn per entry of the list. -/
def ShowDiff (pFC : FILECOMPARE) (i : Nat) (list : List NODE) (begin endp : Option Nat) :
    Option (List OUT) :=
  let begin1 :=
    match begin with
    | none => none
    | some b => if (list_prev list b).isSome then list_prev list b else some b
  match ShowDiffLoop pFC list endp (list.length + 1) begin1
      { first := none, last := none, out := [OUT.caption i] } with
  | none => none
  | some st =>
    if hasFlag pFC.dwFlags FLAG_A then
      match st.first, st.last with
      | some first, some last =>
        match list[first]?, list[last]? with
        | some nodeFirst, some nodeLast =>
          let out1 := st.out ++ [PrintLine pFC nodeFirst.lineno nodeFirst.pszLine]
          let first1 := list_next list first
          let out2 : Option (List OUT) :=
            if first1 ≠ some last then
              match first1 with
              | none => none
              | some f1 =>
                if list_next list f1 = some last then
                  match list[f1]? with
                  | none => none
                  | some node => some (out1 ++ [PrintLine pFC node.lineno node.pszLine])
                else some (out1 ++ [OUT.dots])
            else some out1
          match out2 with
          | none => none
          | some out => some (out ++ [PrintLine pFC nodeLast.lineno nodeLast.pszLine])
        | _, _ => none
      | _, _ => some st.out
    else some st.out

/-- The nodes that the loop of `ShowDiff` goes over from the entry `b`, `suffix`
being the list from that entry on: the entries before `endp`, before the first
end-of-file marker and before the end of the list. -/
def runFrom (endp : Option Nat) : Nat → List NODE → List NODE
  | _, [] => []
  | b, node :: rest =>
    if some b = endp then []
    else if IsEOFNode node then []
    else node :: runFrom endp (b + 1) rest

/-- The lines that `ShowDiff(pFC, i, begin, end)` renders: it starts one entry
before `begin` when there is one. -/
def renderedRun (list : List NODE) (begin endp : Option Nat) : List NODE :=
  match begin with
  | none => []
  | some b => runFrom endp (b - 1) (list.drop (b - 1))

/-- The abbreviated form of a block of printed lines: four lines or more are cut
down to the first line, the marker of `PrintDots` and the last line; up to three
lines are printed as they are. -/
def abbreviate : List OUT → List OUT
  | a :: _ :: _ :: d :: rest => [a, OUT.dots, (d :: rest).getLast (List.cons_ne_nil d rest)]
  | lines => lines

/-! ## The text comparison -/

/-- Function `Finalize(pFC, ptr0, ptr1, fDifferent)`: the code returned with what
is printed, `none` when a read goes through `NULL` or outside the lists. -/
def Finalize (pFC : FILECOMPARE) (list0 list1 : List NODE) (ptr0 ptr1 : Option Nat)
    (fDifferent : Bool) : Option (FCRET × List OUT) :=
  match ptr0, ptr1 with
  | some p0, some p1 =>
    match list0[p0]?, list1[p1]? with
    | some node0, some node1 =>
      if !(IsEOFNode node0) || !(IsEOFNode node1) then
        match ShowDiff pFC 0 list0 (some p0) none, ShowDiff pFC 1 list1 (some p1) none with
        | some out0, some out1 => some (FCRET_DIFFERENT, out0 ++ out1 ++ [OUT.endOfDiff])
        | _, _ => none
      else some (FCRET_DIFFERENT, [])
    | _, _ => none
  | _, _ => if fDifferent then some (FCRET_DIFFERENT, []) else some (FCRET_IDENTICAL, [OUT.noDifference])

/-- The loop of `DeleteNodes(list, first, last)`: while `first != last` the entry
`first` is taken out of the list and `first` moves to the entry that followed it.
Taking the entry of index `f` out moves the entries behind it one index down, so
the entry that followed it now has the index `f`, and `last` loses one when it is
behind.  A step from `NULL` reads through `NULL`.  The first argument bounds the
number of turns. -/
def DeleteNodesLoop : Nat → List NODE → Option Nat → Option Nat → Option (List NODE)
  | 0, _, _, _ => none
  | fuel + 1, list, first, last =>
    if first = last then some list
    else
      match first with
      | none => none
      | some f =>
        if f < list.length then
          DeleteNodesLoop fuel (list.eraseIdx f)
            (if f + 1 < list.length then some f else none)
            (last.map fun l => if f < l then l - 1 else l)
        else none

/-- Function `DeleteNodes(list, first, last)`: the list that is left.  Every turn
takes one entry out, so `list.length + 1` turns are enough. -/
def DeleteNodes (list : List NODE) (first last : Option Nat) : Option (List NODE) :=
  DeleteNodesLoop (list.length + 1) list first last

/-- The loop `for (;;)` of `TextCompare` on the two lists, with the flag
`fDifferent` and what was printed so far.  It is left by `goto quit`, which goes
to `Finalize`, or by `goto cleanup` after a failed `Resync`.  The first argument
bounds the number of turns; the result is `none` when it is used up or when a
read goes through `NULL`. -/
def TextCompareLoop (pFC : FILECOMPARE) :
    Nat → List NODE → List NODE → Bool → List OUT → Option (FCRET × List OUT)
  | 0, _, _, _, _ => none
  | fuel + 1, list0, list1, fDifferent, out =>
    match list_head list0, list_head list1 with
    | some h0, some h1 =>
      match SkipIdentical pFC list0 list1 (some h0) (some h1) with
      | none => none
      | some (ret, ptr0, ptr1) =>
        if ret = some FCRET_INVALID then some (FCRET_INVALID, out)
        else
          let fDifferent1 := fDifferent || (ret == some FCRET_DIFFERENT)
          match ptr0, ptr1 with
          | some save0, some save1 =>
            match Resync pFC list0 list1 save0 save1 with
            | none => none
            | some (ret1, new0, new1) =>
              if ret1 = FCRET_INVALID then some (FCRET_INVALID, out)
              else if ret1 = FCRET_DIFFERENT then
                match ShowDiff pFC 0 list0 (some save0) new0,
                    ShowDiff pFC 1 list1 (some save1) new1 with
                | some out0, some out1 =>
                  some (FCRET_DIFFERENT,
                    out ++ [OUT.resyncFailed] ++ out0 ++ out1 ++ [OUT.endOfDiff])
                | _, _ => none
              else
                match new0, new1 with
                | some q0, some q1 =>
                  let end0 := if (list_next list0 q0).isSome then list_next list0 q0 else some q0
                  let end1 := if (list_next list1 q1).isSome then list_next list1 q1 else some q1
                  match ShowDiff pFC 0 list0 (some save0) end0,
                      ShowDiff pFC 1 list1 (some save1) end1 with
                  | some out0, some out1 =>
                    match DeleteNodes list0 (list_head list0) end0,
                        DeleteNodes list1 (list_head list1) end1 with
                    | some rest0, some rest1 =>
                      TextCompareLoop pFC fuel rest0 rest1 true
                        (out ++ out0 ++ out1 ++ [OUT.endOfDiff])
                    | _, _ => none
                  | _, _ => none
                | _, _ => none
          | _, _ =>
            match Finalize pFC list0 list1 ptr0 ptr1 fDifferent1 with
            | none => none
            | some (ret2, out2) => some (ret2, out ++ out2)
    | p0, p1 =>
      match Finalize pFC list0 list1 p0 p1 fDifferent with
      | none => none
      | some (ret2, out2) => some (ret2, out ++ out2)

/-- Function `TextCompare` on two files with the contents `file0` and `file1`,
whose mappings are open.  `ParseLines` is called for each side; the loop
`for (;;)` that follows has no exit but `goto quit` and `goto cleanup`, so the
test of the enclosing `do ... while` is never reached and neither side is parsed
a second time.  Every turn of the loop that goes on has taken entries out of the
lists, so `list0.length + list1.length + 1` turns are allowed. -/
def TextCompare (pFC : FILECOMPARE) (sizeofTCHAR maxView : Nat) (file0 file1 : List Nat) :
    Option (FCRET × List OUT) :=
  match ParseLines pFC sizeofTCHAR maxView file0 { hMapping := true, ib := 0, list := [] } with
  | none => none
  | some (ret0, st0) =>
    if ret0 = FCRET_INVALID then some (FCRET_INVALID, [])
    else
      match ParseLines pFC sizeofTCHAR maxView file1 { hMapping := true, ib := 0, list := [] } with
      | none => none
      | some (ret1, st1) =>
        if ret1 = FCRET_INVALID then some (FCRET_INVALID, [])
        else
          TextCompareLoop pFC (st0.list.length + st1.list.length + 1) st0.list st1.list false []

/-- One turn of the loop `for (;;)` of `TextCompare`, from the lists, the flag
`fDifferent` and what was printed so far: `none` when a read goes through `NULL`,
the code returned with what was printed when the loop is left by `goto quit` or
`goto cleanup`, and otherwise the two lists after `DeleteNodes` with what was
printed, for the next turn, which starts with `fDifferent` set. -/
def TextCompareStep (pFC : FILECOMPARE) (list0 list1 : List NODE) (fDifferent : Bool)
    (out : List OUT) : Option ((FCRET × List OUT) ⊕ (List NODE × List NODE × List OUT)) :=
  match list_head list0, list_head list1 with
  | some h0, some h1 =>
    match SkipIdentical pFC list0 list1 (some h0) (some h1) with
    | none => none
    | some (ret, ptr0, ptr1) =>
      if ret = some FCRET_INVALID then some (Sum.inl (FCRET_INVALID, out))
      else
        let fDifferent1 := fDifferent || (ret == some FCRET_DIFFERENT)
        match ptr0, ptr1 with
        | some save0, some save1 =>
          match Resync pFC list0 list1 save0 save1 with
          | none => none
          | some (ret1, new0, new1) =>
            if ret1 = FCRET_INVALID then some (Sum.inl (FCRET_INVALID, out))
            else if ret1 = FCRET_DIFFERENT then
              match ShowDiff pFC 0 list0 (some save0) new0,
                  ShowDiff pFC 1 list1 (some save1) new1 with
              | some out0, some out1 =>
                some (Sum.inl (FCRET_DIFFERENT,
                  out ++ [OUT.resyncFailed] ++ out0 ++ out1 ++ [OUT.endOfDiff]))
              | _, _ => none
            else
              match new0, new1 with
              | some q0, some q1 =>
                let end0 := if (list_next list0 q0).isSome then list_next list0 q0 else some q0
                let end1 := if (list_next list1 q1).isSome then list_next list1 q1 else some q1
                match ShowDiff pFC 0 list0 (some save0) end0,
                    ShowDiff pFC 1 list1 (some save1) end1 with
                | some out0, some out1 =>
                  match DeleteNodes list0 (list_head list0) end0,
                      DeleteNodes list1 (list_head list1) end1 with
                  | some rest0, some rest1 =>
                    some (Sum.inr (rest0, rest1, out ++ out0 ++ out1 ++ [OUT.endOfDiff]))
                  | _, _ => none
                | _, _ => none
              | _, _ => none
        | _, _ =>
          match Finalize pFC list0 list1 ptr0 ptr1 fDifferent1 with
          | none => none
          | some (ret2, out2) => some (Sum.inl (ret2, out ++ out2))
  | p0, p1 =>
    match Finalize pFC list0 list1 p0 p1 fDifferent with
    | none => none
    | some (ret2, out2) => some (Sum.inl (ret2, out ++ out2))

/-- The turns of the loop `for (;;)` of `TextCompare` one after the other, at
most as many as the first argument says: `none` when that many turns have been
made and the loop is still not left; otherwise what the turn that ended the run
gave, a read through `NULL` (`some none`) or the code returned with what was
printed. -/
def TextCompareRun (pFC : FILECOMPARE) :
    Nat → List NODE → List NODE → Bool → List OUT → Option (Option (FCRET × List OUT))
  | 0, _, _, _, _ => none
  | fuel + 1, list0, list1, fDifferent, out =>
    match TextCompareStep pFC list0 list1 fDifferent out with
    | none => some none
    | some (Sum.inl res) => some (some res)
    | some (Sum.inr (rest0, rest1, out1)) => TextCompareRun pFC fuel rest0 rest1 true out1

/-! ## Auxiliary notions used in the statements and proofs -/

/-- A character that ends a line for `FindNextLine`: `'\n'` or `'\0'`. -/
def isLineEnd (c : Nat) : Bool := c == CH_LF || c == 0

/-- The segments of a text: the pieces ended by a character for which `isEnd`
holds, that character left out, in order, and then the piece after the last such
character when it is not empty. -/
def segments (isEnd : Nat → Bool) : List Nat → List (List Nat)
  | [] => []
  | c :: cs =>
    if isEnd c then [] :: segments isEnd cs
    else
      match segments isEnd cs with
      | [] => [[c]]
      | seg :: rest => (c :: seg) :: rest

/-- A segment without one carriage return at its end, when it ends with one. -/
def stripCR (seg : List Nat) : List Nat :=
  if seg.getLast? = some CH_CR then seg.dropLast else seg

/-- The text is empty or its last character ends a line. -/
def endsWithLineEnd (l : List Nat) : Bool :=
  match l.getLast? with
  | some c => isLineEnd c
  | none => true

/-- The segments of the view `psz` that become lines: all of them, except that
the piece after the last line end is left out when the view is not the last one
of the file and holds a line end. -/
def windowSegments (fLast : Bool) (psz : List Nat) : List (List Nat) :=
  if endsWithLineEnd psz || fLast || !(psz.any isLineEnd) then segments isLineEnd psz
  else (segments isLineEnd psz).dropLast

/-- The converted nodes of the given line texts, numbered from `lineno`. -/
def lineNodes (pFC : FILECOMPARE) : Nat → List (List Nat) → List NODE
  | _, [] => []
  | lineno, line :: rest =>
    ConvertNode pFC (AllocNode line lineno) :: lineNodes pFC (lineno + 1) rest

/-- The position of the first character that ends a line, or the length of the
text when there is none. -/
def termIdx : List Nat → Nat
  | [] => 0
  | c :: cs => if isLineEnd c then 0 else termIdx cs + 1


/-- The size `cbView` in bytes of the view that `ParseLines` maps when the cursor
is at the byte `ib`. -/
def viewSize (sizeofTCHAR maxView : Nat) (file : List Nat) (ib : Nat) : Nat :=
  min (sizeofTCHAR * file.length - ib) maxView % 2 ^ 32

/-- The characters of the view that `ParseLines` maps when the cursor is at the
byte `ib`. -/
def viewText (sizeofTCHAR maxView : Nat) (file : List Nat) (ib : Nat) : List Nat :=
  (file.drop (ib / sizeofTCHAR)).take (viewSize sizeofTCHAR maxView file ib / sizeofTCHAR)

/-- The value `fLast` of `ParseLines` when the cursor is at the byte `ib`: the
view reaches the end of the file. -/
def viewIsLast (sizeofTCHAR maxView : Nat) (file : List Nat) (ib : Nat) : Bool :=
  decide (ib + viewSize sizeofTCHAR maxView file ib ≥ sizeofTCHAR * file.length)


/-- The characters of a line that are neither blanks nor tabs, in order. -/
def nonSpaces (l : List Nat) : List Nat := l.filter fun c => !IS_SPACE c

/-- The lines at the positions `ptr0` of `list0` and `ptr1` of `list1` both exist
and `CompareNode` reports them identical. -/
def EqualAt (pFC : FILECOMPARE) (list0 list1 : List NODE) (ptr0 ptr1 : Nat) : Bool :=
  match list0[ptr0]?, list1[ptr1]? with
  | some node0, some node1 => CompareNode pFC node0 node1 == FCRET_IDENTICAL
  | _, _ => false

/-- Invariant of the search of `Resync` started at `(ptr0, ptr1)`: either nothing
is saved and the least score is still `MAXLONG`, or the saved positions are an
equal pair of the window whose score is the least score. -/
def SearchSound (pFC : FILECOMPARE) (list0 list1 : List NODE) (ptr0 ptr1 : Nat)
    (st : ResyncSearch) : Prop :=
  (st.save0 = none ∧ st.save1 = none ∧ st.min_penalty = MAXLONG) ∨
  ∃ j0 j1, j0 < pFC.n ∧ j1 < pFC.n ∧ st.save0 = some (ptr0 + j0) ∧ st.save1 = some (ptr1 + j1) ∧
    st.min_penalty = penalty j0 j1 ∧ penalty j0 j1 < MAXLONG ∧
    EqualAt pFC list0 list1 (ptr0 + j0) (ptr1 + j1) = true

/-- The line list of a file that fits one window and whose lines, all ended by a
newline, are `lines`: one converted node per line, numbered from `lineno`, then
the end-of-file marker. -/
def lineList (pFC : FILECOMPARE) : Nat → List (List Nat) → List NODE
  | _, [] => [AllocEOFNode]
  | lineno, line :: rest =>
    ConvertNode pFC (AllocNode line lineno) :: lineList pFC (lineno + 1) rest

/-! ## The hash and the comparison of two lines -/

theorem GetHash_le_mask (psz : List Nat) (b : Bool) : GetHash psz b ≤ HASH_MASK := by
  unfold GetHash
  exact Nat.and_le_right

theorem hasFlag_cases (f m : Nat) : hasFlag f m = true ∨ hasFlag f m = false := by
  cases hasFlag f m <;> simp

theorem ConvertNode_hash_ne_eof (pFC : FILECOMPARE) (line : List Nat) (lineno : Nat) :
    (ConvertNode pFC (AllocNode line lineno)).hash ≠ HASH_EOF := by
  have h1 := GetHash_le_mask (ExpandTab line) (hasFlag pFC.dwFlags FLAG_C)
  have h2 := GetHash_le_mask (CompressSpace (ExpandTab line)) (hasFlag pFC.dwFlags FLAG_C)
  have h3 := GetHash_le_mask (CompressSpace line) (hasFlag pFC.dwFlags FLAG_C)
  unfold ConvertNode AllocNode
  rcases hasFlag_cases pFC.dwFlags FLAG_T with hT | hT <;>
    rcases hasFlag_cases pFC.dwFlags FLAG_W with hW | hW <;>
    simp [hT, hW, HASH_EOF, HASH_MASK] at * <;> omega

theorem GetHashLoop_lt (b : Bool) (psz : List Nat) (ret : Nat) (h : ret < 2 ^ 32) :
    GetHashLoop b psz ret < 2 ^ 32 := by
  induction psz generalizing ret with
  | nil => simpa [GetHashLoop] using h
  | cons c cs ih =>
    unfold GetHashLoop
    split
    · exact h
    · exact ih _ (Nat.mod_lt _ (by norm_num))

/-- C6: for every string and either value of `bIgnoreCase`, the accumulator of
`GetHash` stays a 32-bit value, the result is that accumulator reduced to its low
31 bits, so it is at most `0x7FFFFFFF`, its bit 31 is clear, and it is never the
end-of-file value `HASH_EOF`. -/
theorem GetHash_range (psz : List Nat) (bIgnoreCase : Bool) :
    GetHashLoop bIgnoreCase psz 0xDEADFACE < 2 ^ 32 ∧
    GetHash psz bIgnoreCase = GetHashLoop bIgnoreCase psz 0xDEADFACE % 2 ^ 31 ∧
    GetHash psz bIgnoreCase ≤ 0x7FFFFFFF ∧
    (GetHash psz bIgnoreCase).testBit 31 = false ∧
    GetHash psz bIgnoreCase ≠ HASH_EOF := by
  have h := GetHash_le_mask psz bIgnoreCase
  simp only [HASH_MASK] at h
  refine ⟨GetHashLoop_lt _ _ _ (by norm_num), ?_, h, ?_, ?_⟩
  · have := Nat.and_pow_two_sub_one_eq_mod (GetHashLoop bIgnoreCase psz 0xDEADFACE) 31
    simpa [GetHash, HASH_MASK] using this
  · apply Nat.testBit_lt_two_pow
    omega
  · simp only [HASH_EOF]; omega

/-- C5: under every configuration two end-of-file markers compare identical, and
an end-of-file marker and a line converted by `ConvertNode` (any text, the empty
line included) compare different, in either order. -/
theorem CompareNode_eof (pFC : FILECOMPARE) (line : List Nat) (lineno : Nat) :
    CompareNode pFC AllocEOFNode AllocEOFNode = FCRET_IDENTICAL ∧
    CompareNode pFC AllocEOFNode (ConvertNode pFC (AllocNode line lineno)) = FCRET_DIFFERENT ∧
    CompareNode pFC (ConvertNode pFC (AllocNode line lineno)) AllocEOFNode = FCRET_DIFFERENT := by
  have hne := ConvertNode_hash_ne_eof pFC line lineno
  refine ⟨?_, ?_, ?_⟩
  · unfold CompareNode
    rcases hasFlag_cases pFC.dwFlags FLAG_W with hW | hW <;>
      rcases hasFlag_cases pFC.dwFlags FLAG_C with hC | hC <;>
      simp [hW, hC, AllocEOFNode, AllocNode, AllocLine, CompareStringEqual, cstr]
  · unfold CompareNode
    have : AllocEOFNode.hash = HASH_EOF := rfl
    rw [this]
    simp [Ne.symm hne]
  · unfold CompareNode
    have : AllocEOFNode.hash = HASH_EOF := rfl
    rw [this]
    simp [hne]

/-- C4: for two lines converted by `ConvertNode` under one configuration,
`CompareNode` answers identical exactly when the hashes are equal and the text
comparison (of `pszComp` under `FLAG_W`, of `pszLine` otherwise, ignoring case
under `FLAG_C`) reports equality; equal hashes with texts that do not compare
equal give different; under `FLAG_W` the compressed text is there; and such lines
exist: two texts with the same hash that are reported different. -/
theorem CompareNode_iff_hash_and_text (pFC : FILECOMPARE) (line0 line1 : List Nat)
    (lineno0 lineno1 : Nat) :
    (CompareNode pFC (ConvertNode pFC (AllocNode line0 lineno0))
        (ConvertNode pFC (AllocNode line1 lineno1)) = FCRET_IDENTICAL ↔
      ((ConvertNode pFC (AllocNode line0 lineno0)).hash
          = (ConvertNode pFC (AllocNode line1 lineno1)).hash ∧
        CompareStringEqual (hasFlag pFC.dwFlags FLAG_C)
          (if hasFlag pFC.dwFlags FLAG_W then (ConvertNode pFC (AllocNode line0 lineno0)).pszComp
           else some (ConvertNode pFC (AllocNode line0 lineno0)).pszLine)
          (if hasFlag pFC.dwFlags FLAG_W then (ConvertNode pFC (AllocNode line1 lineno1)).pszComp
           else some (ConvertNode pFC (AllocNode line1 lineno1)).pszLine) = true)) ∧
    ((ConvertNode pFC (AllocNode line0 lineno0)).hash
          = (ConvertNode pFC (AllocNode line1 lineno1)).hash →
      CompareStringEqual (hasFlag pFC.dwFlags FLAG_C)
          (if hasFlag pFC.dwFlags FLAG_W then (ConvertNode pFC (AllocNode line0 lineno0)).pszComp
           else some (ConvertNode pFC (AllocNode line0 lineno0)).pszLine)
          (if hasFlag pFC.dwFlags FLAG_W then (ConvertNode pFC (AllocNode line1 lineno1)).pszComp
           else some (ConvertNode pFC (AllocNode line1 lineno1)).pszLine) = false →
      CompareNode pFC (ConvertNode pFC (AllocNode line0 lineno0))
        (ConvertNode pFC (AllocNode line1 lineno1)) = FCRET_DIFFERENT) ∧
    (hasFlag pFC.dwFlags FLAG_W = true →
      (ConvertNode pFC (AllocNode line0 lineno0)).pszComp
        = some (CompressSpace (ConvertNode pFC (AllocNode line0 lineno0)).pszLine)) ∧
    (∃ s0 s1 : List Nat,
      GetHash s0 false = GetHash s1 false ∧ s0 ≠ s1 ∧
      (ConvertNode { dwFlags := 0, n := 100 } (AllocNode s0 1)).hash
        = (ConvertNode { dwFlags := 0, n := 100 } (AllocNode s1 1)).hash ∧
      CompareNode { dwFlags := 0, n := 100 }
        (ConvertNode { dwFlags := 0, n := 100 } (AllocNode s0 1))
        (ConvertNode { dwFlags := 0, n := 100 } (AllocNode s1 1)) = FCRET_DIFFERENT) := by
  refine ⟨?_, ?_, ?_, ?_⟩
  · unfold CompareNode
    by_cases hh : (ConvertNode pFC (AllocNode line0 lineno0)).hash
          = (ConvertNode pFC (AllocNode line1 lineno1)).hash
    · simp [hh]
    · simp [hh]
  · intro hh hc
    unfold CompareNode
    simp [hh, hc]
  · intro hW
    simp [ConvertNode, hW]
  · refine ⟨[97, 120, 120, 120, 120, 120, 120, 120, 120, 120, 120, 120, 120, 120, 120, 120],
      [98, 120, 120, 120, 120, 120, 120, 120, 120, 120, 120, 120, 120, 120, 120, 120], ?_, ?_, ?_, ?_⟩
    · decide
    · decide
    · decide
    · decide

/-- Witness of C4 at the lines `"a"` and `"b"` under `FLAG_T` alone: the hashes
are equal, the texts are not, and the lines are reported different. -/
theorem CompareNode_iff_hash_and_text_witness :
    CompareNode { dwFlags := FLAG_T, n := 100 }
      (ConvertNode { dwFlags := FLAG_T, n := 100 } (AllocNode [97] 1))
      (ConvertNode { dwFlags := FLAG_T, n := 100 } (AllocNode [98] 2)) = FCRET_DIFFERENT :=
  (CompareNode_iff_hash_and_text { dwFlags := FLAG_T, n := 100 } [97] [98] 1 2).2.1
    (by decide) (by decide)

/-- C7 at the failing configuration: under `FLAG_T` without `FLAG_W` no branch of
`ConvertNode` sets the hash, which keeps the value 0 that `calloc` gave it, for
every line; for the line `"a"` that is not `GetHash` of the raw text. -/
theorem ConvertNode_hash_literal_tabs_only (line : List Nat) (lineno n : Nat) :
    (ConvertNode { dwFlags := FLAG_T, n := n } (AllocNode line lineno)).hash = 0 ∧
    (ConvertNode { dwFlags := FLAG_T, n := n } (AllocNode line lineno)).pszLine = line ∧
    (ConvertNode { dwFlags := FLAG_T, n := n } (AllocNode [97] 1)).hash ≠ GetHash [97] false ∧
    GetHash [97] false = 2058874044 := by
  have hT : hasFlag FLAG_T FLAG_T = true := by decide
  have hW : hasFlag FLAG_T FLAG_W = false := by decide
  refine ⟨?_, ?_, ?_, ?_⟩
  · simp [ConvertNode, AllocNode, hT, hW]
  · simp [ConvertNode, AllocNode, hT, hW]
  · have h0 : (ConvertNode { dwFlags := FLAG_T, n := n } (AllocNode [97] 1)).hash = 0 := by
      simp [ConvertNode, AllocNode, hT, hW]
    rw [h0]
    decide
  · decide

/-- The other configurations of C7: when tabs are expanded or white space is
compressed, the hash is `GetHash` of the text of the last step made. -/
theorem ConvertNode_hash_of_last_step (pFC : FILECOMPARE) (line : List Nat) (lineno : Nat) :
    (hasFlag pFC.dwFlags FLAG_W = true →
      (ConvertNode pFC (AllocNode line lineno)).hash
        = GetHash (CompressSpace (if hasFlag pFC.dwFlags FLAG_T then line else ExpandTab line))
            (hasFlag pFC.dwFlags FLAG_C)) ∧
    (hasFlag pFC.dwFlags FLAG_W = false → hasFlag pFC.dwFlags FLAG_T = false →
      (ConvertNode pFC (AllocNode line lineno)).hash
        = GetHash (ExpandTab line) (hasFlag pFC.dwFlags FLAG_C)) ∧
    (hasFlag pFC.dwFlags FLAG_W = false → hasFlag pFC.dwFlags FLAG_T = true →
      (ConvertNode pFC (AllocNode line lineno)).hash = 0) := by
  refine ⟨?_, ?_, ?_⟩
  · intro hW
    rcases hasFlag_cases pFC.dwFlags FLAG_T with hT | hT <;>
      simp [ConvertNode, AllocNode, hW, hT]
  · intro hW hT
    simp [ConvertNode, AllocNode, hW, hT]
  · intro hW hT
    simp [ConvertNode, AllocNode, hW, hT]

/-! ## Case folding -/

theorem towupper_eq_zero (c : Nat) : towupper c = 0 ↔ c = 0 := by
  unfold towupper; split <;> omega

theorem towupper_eq_tab (c : Nat) : towupper c = CH_TAB ↔ c = CH_TAB := by
  unfold towupper CH_TAB; split <;> omega

theorem towupper_eq_space (c : Nat) : towupper c = CH_SPACE ↔ c = CH_SPACE := by
  unfold towupper CH_SPACE; split <;> omega

theorem towupper_idem (c : Nat) : towupper (towupper c) = towupper c := by
  unfold towupper
  by_cases h : 97 ≤ c ∧ c ≤ 122
  · have h2 : ¬ (97 ≤ c - 32 ∧ c - 32 ≤ 122) := by omega
    rw [if_pos h, if_neg h2]
  · rw [if_neg h, if_neg h]

theorem IS_SPACE_towupper (c : Nat) : IS_SPACE (towupper c) = IS_SPACE c := by
  unfold IS_SPACE
  have h1 := towupper_eq_tab c
  have h2 := towupper_eq_space c
  rw [Bool.eq_iff_iff]
  simp only [Bool.or_eq_true, beq_iff_eq, h1, h2]

theorem IS_SPACE_towupper_eq (c : Nat) (h : IS_SPACE c = true) : towupper c = c := by
  unfold IS_SPACE CH_SPACE CH_TAB at h
  unfold towupper
  simp at h
  split <;> omega

theorem cstr_map_towupper (l : List Nat) :
    cstr (l.map towupper) = (cstr l).map towupper := by
  induction l with
  | nil => rfl
  | cons c cs ih =>
    simp only [List.map_cons, cstr, towupper_eq_zero]
    split <;> simp [ih]

theorem GetHashLoop_map_towupper (l : List Nat) (ret : Nat) :
    GetHashLoop true (l.map towupper) ret = GetHashLoop true l ret := by
  induction l generalizing ret with
  | nil => rfl
  | cons c cs ih =>
    simp only [List.map_cons, GetHashLoop, towupper_eq_zero, towupper_idem]
    split
    · rfl
    · exact ih _

theorem ExpandTabLoop_map_towupper (l : List Nat) (ich : Nat) :
    ExpandTabLoop (l.map towupper) ich = (ExpandTabLoop l ich).map towupper := by
  induction l generalizing ich with
  | nil => rfl
  | cons c cs ih =>
    simp only [List.map_cons, ExpandTabLoop, towupper_eq_zero, towupper_eq_tab]
    split
    · rfl
    · split
      · simp [ih, (towupper_eq_space CH_SPACE).2 rfl]
      · simp [ih]

theorem SkipSpace_map_towupper (l : List Nat) :
    SkipSpace (l.map towupper) = (SkipSpace l).map towupper := by
  induction l with
  | nil => rfl
  | cons c cs ih =>
    simp only [List.map_cons, SkipSpace, IS_SPACE_towupper]
    split
    · exact ih
    · simp

theorem FindLastNonSpaceLoop_map_towupper (l : List Nat) (i : Nat) (last : Option Nat) :
    FindLastNonSpaceLoop (l.map towupper) i last = FindLastNonSpaceLoop l i last := by
  induction l generalizing i last with
  | nil => rfl
  | cons c cs ih =>
    simp only [List.map_cons, FindLastNonSpaceLoop, IS_SPACE_towupper, towupper_eq_zero]
    split
    · rfl
    · exact ih _ _

theorem DeleteDuplicateSpacesLoop_map_towupper (b : Bool) (l : List Nat) :
    DeleteDuplicateSpacesLoop b (l.map towupper)
      = (DeleteDuplicateSpacesLoop b l).map towupper := by
  induction l generalizing b with
  | nil => simp [DeleteDuplicateSpacesLoop]
  | cons c cs ih =>
    simp only [List.map_cons, DeleteDuplicateSpacesLoop, IS_SPACE_towupper, towupper_eq_zero]
    split
    · rfl
    · split
      · split
        · exact ih _
        · simp [ih]
      · simp [ih]

theorem CompressSpace_map_towupper (l : List Nat) :
    CompressSpace (l.map towupper) = (CompressSpace l).map towupper := by
  unfold CompressSpace
  simp only [SkipSpace_map_towupper, FindLastNonSpace, FindLastNonSpaceLoop_map_towupper]
  cases FindLastNonSpaceLoop (SkipSpace l) 0 none with
  | none => simp [AllocLine]
  | some k =>
    simp only [AllocLine, DeleteDuplicateSpaces, ← List.map_take,
      DeleteDuplicateSpacesLoop_map_towupper]

/-- The text that `CompareNode` reads in a converted node. -/
theorem ConvertNode_text (pFC : FILECOMPARE) (line : List Nat) (lineno : Nat) :
    (hasFlag pFC.dwFlags FLAG_W = true →
      (ConvertNode pFC (AllocNode line lineno)).pszComp
        = some (CompressSpace (if hasFlag pFC.dwFlags FLAG_T then line else ExpandTab line))) ∧
    (ConvertNode pFC (AllocNode line lineno)).pszLine
        = (if hasFlag pFC.dwFlags FLAG_T then line else ExpandTab line) := by
  rcases hasFlag_cases pFC.dwFlags FLAG_T with hT | hT <;>
    rcases hasFlag_cases pFC.dwFlags FLAG_W with hW | hW <;>
    simp [ConvertNode, AllocNode, hW, hT]

theorem GetHash_eq_of_map_towupper_eq (s0 s1 : List Nat)
    (h : s0.map towupper = s1.map towupper) : GetHash s0 true = GetHash s1 true := by
  unfold GetHash
  rw [← GetHashLoop_map_towupper s0, ← GetHashLoop_map_towupper s1, h]

theorem CompareStringEqual_of_map_towupper_eq (s0 s1 : List Nat)
    (h : s0.map towupper = s1.map towupper) :
    CompareStringEqual true (some s0) (some s1) = true := by
  simp only [CompareStringEqual, if_true, beq_iff_eq]
  rw [← cstr_map_towupper, ← cstr_map_towupper, h]

theorem cstr_eq_self (l : List Nat) (h : 0 ∉ l) : cstr l = l := by
  induction l with
  | nil => rfl
  | cons c cs ih =>
    simp only [List.mem_cons, not_or] at h
    have hc : c ≠ 0 := fun e => h.1 e.symm
    simp [cstr, hc, ih h.2]

theorem zero_not_mem_ExpandTabLoop (l : List Nat) (ich : Nat) : 0 ∉ ExpandTabLoop l ich := by
  induction l generalizing ich with
  | nil => simp [ExpandTabLoop]
  | cons c cs ih =>
    unfold ExpandTabLoop
    split
    · simp
    · split
      · simp [ih, CH_SPACE]
      · rename_i hc _
        simp only [List.mem_cons, not_or]
        exact ⟨fun e => hc e.symm, ih _⟩

theorem zero_not_mem_DeleteDuplicateSpacesLoop (b : Bool) (l : List Nat) :
    0 ∉ DeleteDuplicateSpacesLoop b l := by
  induction l generalizing b with
  | nil => simp [DeleteDuplicateSpacesLoop]
  | cons c cs ih =>
    unfold DeleteDuplicateSpacesLoop
    split
    · simp
    · rename_i hc
      split
      · split
        · exact ih _
        · simp only [List.mem_cons, not_or]
          exact ⟨fun e => hc e.symm, ih _⟩
      · simp only [List.mem_cons, not_or]
        exact ⟨fun e => hc e.symm, ih _⟩

theorem zero_not_mem_CompressSpace (l : List Nat) : 0 ∉ CompressSpace l := by
  simp only [CompressSpace]
  split
  · simp [AllocLine]
  · exact zero_not_mem_DeleteDuplicateSpacesLoop _ _

theorem nonSpaces_cons (c : Nat) (cs : List Nat) :
    nonSpaces (c :: cs) = if IS_SPACE c then nonSpaces cs else c :: nonSpaces cs := by
  unfold nonSpaces
  cases h : IS_SPACE c <;> simp [List.filter, h]

theorem nonSpaces_ExpandTabLoop (l : List Nat) (ich : Nat) (h : 0 ∉ l) :
    nonSpaces (ExpandTabLoop l ich) = nonSpaces l := by
  induction l generalizing ich with
  | nil => rfl
  | cons c cs ih =>
    simp only [List.mem_cons, not_or] at h
    have hc : c ≠ 0 := fun e => h.1 e.symm
    unfold ExpandTabLoop
    rw [if_neg hc]
    split
    · rename_i ht
      have hs : IS_SPACE c = true := by simp [IS_SPACE, ht]
      rw [nonSpaces_cons, if_pos hs]
      have : nonSpaces (List.replicate (TAB_WIDTH - ich % TAB_WIDTH) CH_SPACE) = [] := by
        unfold nonSpaces
        rw [List.filter_eq_nil_iff]
        intro a ha
        rw [List.eq_of_mem_replicate ha]
        decide
      unfold nonSpaces at this ⊢
      rw [List.filter_append, this, List.nil_append]
      exact ih _ h.2
    · rw [nonSpaces_cons, nonSpaces_cons, ih _ h.2]

theorem nonSpaces_SkipSpace (l : List Nat) : nonSpaces (SkipSpace l) = nonSpaces l := by
  induction l with
  | nil => rfl
  | cons c cs ih =>
    unfold SkipSpace
    split
    · rename_i hs
      rw [nonSpaces_cons, if_pos hs, ih]
    · rfl

theorem zero_not_mem_SkipSpace (l : List Nat) (h : 0 ∉ l) : 0 ∉ SkipSpace l := by
  induction l with
  | nil => simp [SkipSpace]
  | cons c cs ih =>
    simp only [List.mem_cons, not_or] at h
    unfold SkipSpace
    split
    · exact ih h.2
    · simp only [List.mem_cons, not_or]; exact h

theorem nonSpaces_DeleteDuplicateSpacesLoop (b : Bool) (l : List Nat) (h : 0 ∉ l) :
    nonSpaces (DeleteDuplicateSpacesLoop b l) = nonSpaces l := by
  induction l generalizing b with
  | nil => rfl
  | cons c cs ih =>
    simp only [List.mem_cons, not_or] at h
    have hc : c ≠ 0 := fun e => h.1 e.symm
    unfold DeleteDuplicateSpacesLoop
    rw [if_neg hc]
    split
    · rename_i hs
      split
      · simp only [nonSpaces_cons, hs, if_true, ih _ h.2]
      · simp only [nonSpaces_cons, hs, if_true, ih _ h.2]
    · simp only [nonSpaces_cons, ih _ h.2]

theorem FindLastNonSpaceLoop_spec (l : List Nat) (i : Nat) (last : Option Nat) (h : 0 ∉ l) :
    (FindLastNonSpaceLoop l i last = last ∧ nonSpaces l = []) ∨
    (∃ k, FindLastNonSpaceLoop l i last = some k ∧ i ≤ k ∧
      nonSpaces (l.take (k - i + 1)) = nonSpaces l) := by
  induction l generalizing i last with
  | nil => left; exact ⟨rfl, rfl⟩
  | cons c cs ih =>
    simp only [List.mem_cons, not_or] at h
    have hc : c ≠ 0 := fun e => h.1 e.symm
    unfold FindLastNonSpaceLoop
    rw [if_neg hc]
    by_cases hs : IS_SPACE c = true
    · rw [if_pos hs]
      rcases ih (i + 1) last h.2 with ⟨h1, h2⟩ | ⟨k, h1, h2, h3⟩
      · left
        exact ⟨h1, by rw [nonSpaces_cons, if_pos hs, h2]⟩
      · right
        refine ⟨k, h1, by omega, ?_⟩
        have e : k - i + 1 = (k - (i + 1) + 1) + 1 := by omega
        rw [e, List.take_succ_cons]
        simp only [nonSpaces_cons, hs, if_true, h3]
    · rw [if_neg hs]
      rcases ih (i + 1) (some i) h.2 with ⟨h1, h2⟩ | ⟨k, h1, h2, h3⟩
      · right
        refine ⟨i, h1, le_refl _, ?_⟩
        have e : i - i + 1 = 0 + 1 := by omega
        rw [e, List.take_succ_cons, List.take_zero]
        simp only [nonSpaces_cons, hs, if_false, h2]
        rfl
      · right
        refine ⟨k, h1, by omega, ?_⟩
        have e : k - i + 1 = (k - (i + 1) + 1) + 1 := by omega
        rw [e, List.take_succ_cons]
        simp only [nonSpaces_cons, hs, if_false, h3]

theorem nonSpaces_CompressSpace (l : List Nat) (h : 0 ∉ l) :
    nonSpaces (CompressSpace l) = nonSpaces l := by
  have h0 := zero_not_mem_SkipSpace l h
  rw [← nonSpaces_SkipSpace l]
  unfold CompressSpace FindLastNonSpace
  rcases FindLastNonSpaceLoop_spec (SkipSpace l) 0 none h0 with ⟨h1, h2⟩ | ⟨k, h1, _, h3⟩
  · simp only [h1, h2, AllocLine]
    rfl
  · simp only [h1, AllocLine, DeleteDuplicateSpaces]
    rw [nonSpaces_DeleteDuplicateSpacesLoop, ← h3]
    · rfl
    · intro hm
      exact h0 (List.mem_of_mem_take hm)

theorem eq_of_map_towupper_eq_of_nonSpaces_eq (a b : List Nat)
    (h : a.map towupper = b.map towupper) (hn : nonSpaces a = nonSpaces b) : a = b := by
  induction a generalizing b with
  | nil =>
    cases b with
    | nil => rfl
    | cons y ys => simp at h
  | cons x xs ih =>
    cases b with
    | nil => simp at h
    | cons y ys =>
      simp only [List.map_cons, List.cons.injEq] at h
      have hsp : IS_SPACE x = IS_SPACE y := by
        rw [← IS_SPACE_towupper x, ← IS_SPACE_towupper y, h.1]
      rw [nonSpaces_cons, nonSpaces_cons, ← hsp] at hn
      by_cases hs : IS_SPACE x = true
      · rw [if_pos hs, if_pos hs] at hn
        have hx := IS_SPACE_towupper_eq x hs
        have hy := IS_SPACE_towupper_eq y (hsp ▸ hs)
        have : x = y := by rw [← hx, ← hy, h.1]
        rw [this, ih ys h.2 hn]
      · rw [if_neg hs, if_neg hs] at hn
        simp only [List.cons.injEq] at hn
        rw [hn.1, ih ys h.2 hn.2]

/-- C8: for two lines whose texts are equal after folding every character to
upper case, `GetHash` with `bIgnoreCase` gives equal hashes; under `FLAG_C`,
whatever the other options, the converted nodes get equal hashes and `CompareNode`
reports them identical; without `FLAG_C`, when the two lines (free of `0`, as the
lines cut by `ParseLines` are) are not the same text, `CompareNode` reports them
different. -/
theorem CompareNode_ignoreCase (pFC : FILECOMPARE) (line0 line1 : List Nat)
    (lineno0 lineno1 : Nat) (hfold : line0.map towupper = line1.map towupper) :
    GetHash line0 true = GetHash line1 true ∧
    (hasFlag pFC.dwFlags FLAG_C = true →
      (ConvertNode pFC (AllocNode line0 lineno0)).hash
        = (ConvertNode pFC (AllocNode line1 lineno1)).hash ∧
      CompareNode pFC (ConvertNode pFC (AllocNode line0 lineno0))
        (ConvertNode pFC (AllocNode line1 lineno1)) = FCRET_IDENTICAL) ∧
    (hasFlag pFC.dwFlags FLAG_C = false → 0 ∉ line0 → 0 ∉ line1 → line0 ≠ line1 →
      CompareNode pFC (ConvertNode pFC (AllocNode line0 lineno0))
        (ConvertNode pFC (AllocNode line1 lineno1)) = FCRET_DIFFERENT) := by
  have hE : (ExpandTab line0).map towupper = (ExpandTab line1).map towupper := by
    unfold ExpandTab
    rw [← ExpandTabLoop_map_towupper, ← ExpandTabLoop_map_towupper, hfold]
  have hCE : (CompressSpace (ExpandTab line0)).map towupper
      = (CompressSpace (ExpandTab line1)).map towupper := by
    rw [← CompressSpace_map_towupper, ← CompressSpace_map_towupper, hE]
  have hCL : (CompressSpace line0).map towupper = (CompressSpace line1).map towupper := by
    rw [← CompressSpace_map_towupper, ← CompressSpace_map_towupper, hfold]
  refine ⟨GetHash_eq_of_map_towupper_eq _ _ hfold, ?_, ?_⟩
  · intro hC
    rcases hasFlag_cases pFC.dwFlags FLAG_T with hT | hT <;>
      rcases hasFlag_cases pFC.dwFlags FLAG_W with hW | hW <;>
      simp [CompareNode, ConvertNode, AllocNode, hW, hT, hC,
        GetHash_eq_of_map_towupper_eq _ _ hE, GetHash_eq_of_map_towupper_eq _ _ hCE,
        GetHash_eq_of_map_towupper_eq _ _ hCL,
        CompareStringEqual_of_map_towupper_eq _ _ hfold,
        CompareStringEqual_of_map_towupper_eq _ _ hE,
        CompareStringEqual_of_map_towupper_eq _ _ hCE,
        CompareStringEqual_of_map_towupper_eq _ _ hCL]
  · intro hC h0 h1 hne
    have hcmp : ∀ t0 t1 : List Nat, 0 ∉ t0 → 0 ∉ t1 → t0.map towupper = t1.map towupper →
        nonSpaces t0 = nonSpaces line0 → nonSpaces t1 = nonSpaces line1 →
        CompareStringEqual false (some t0) (some t1) = false := by
      intro t0 t1 z0 z1 hm n0 n1
      simp only [CompareStringEqual, cstr_eq_self _ z0, cstr_eq_self _ z1]
      simp only [Bool.false_eq_true, if_false, beq_eq_false_iff_ne, ne_eq]
      intro e
      apply hne
      apply eq_of_map_towupper_eq_of_nonSpaces_eq _ _ hfold
      rw [← n0, ← n1, e]
    have zE0 := zero_not_mem_ExpandTabLoop line0 0
    have zE1 := zero_not_mem_ExpandTabLoop line1 0
    have nE0 := nonSpaces_ExpandTabLoop line0 0 h0
    have nE1 := nonSpaces_ExpandTabLoop line1 0 h1
    have k1 := hcmp line0 line1 h0 h1 hfold rfl rfl
    have k2 := hcmp (ExpandTab line0) (ExpandTab line1) zE0 zE1 hE nE0 nE1
    have k3 := hcmp (CompressSpace line0) (CompressSpace line1)
      (zero_not_mem_CompressSpace _) (zero_not_mem_CompressSpace _) hCL
      (nonSpaces_CompressSpace _ h0) (nonSpaces_CompressSpace _ h1)
    have k4 := hcmp (CompressSpace (ExpandTab line0)) (CompressSpace (ExpandTab line1))
      (zero_not_mem_CompressSpace _) (zero_not_mem_CompressSpace _) hCE
      ((nonSpaces_CompressSpace _ zE0).trans nE0) ((nonSpaces_CompressSpace _ zE1).trans nE1)
    rcases hasFlag_cases pFC.dwFlags FLAG_T with hT | hT <;>
      rcases hasFlag_cases pFC.dwFlags FLAG_W with hW | hW <;>
      simp [CompareNode, ConvertNode, AllocNode, hW, hT, hC, k1, k2, k3, k4]

/-- Witness of C8 at the lines `"Foo"` and `"FOO"`: equal hashes and identical
under `FLAG_C`, different without it. -/
theorem CompareNode_ignoreCase_witness :
    [70, 111, 111].map towupper = [70, 79, 79].map towupper ∧
    GetHash [70, 111, 111] true = GetHash [70, 79, 79] true ∧
    CompareNode { dwFlags := FLAG_C, n := 100 }
      (ConvertNode { dwFlags := FLAG_C, n := 100 } (AllocNode [70, 111, 111] 1))
      (ConvertNode { dwFlags := FLAG_C, n := 100 } (AllocNode [70, 79, 79] 1))
        = FCRET_IDENTICAL ∧
    CompareNode { dwFlags := 0, n := 100 }
      (ConvertNode { dwFlags := 0, n := 100 } (AllocNode [70, 111, 111] 1))
      (ConvertNode { dwFlags := 0, n := 100 } (AllocNode [70, 79, 79] 1))
        = FCRET_DIFFERENT :=
  ⟨by decide,
   (CompareNode_ignoreCase { dwFlags := FLAG_C, n := 100 } _ _ 1 1 (by decide)).1,
   ((CompareNode_ignoreCase { dwFlags := FLAG_C, n := 100 } _ _ 1 1 (by decide)).2.1
      (by decide)).2,
   (CompareNode_ignoreCase { dwFlags := 0, n := 100 } [70, 111, 111] [70, 79, 79] 1 1
      (by decide)).2.2 (by decide) (by decide) (by decide) (by decide)⟩

/-! ## The resynchronisation search -/

theorem SearchSound_le (pFC : FILECOMPARE) (list0 list1 : List NODE) (ptr0 ptr1 : Nat)
    (st : ResyncSearch) (h : SearchSound pFC list0 list1 ptr0 ptr1 st) :
    st.min_penalty ≤ MAXLONG := by
  rcases h with ⟨_, _, h⟩ | ⟨j0, j1, _, _, _, _, h, h', _⟩
  · exact le_of_eq h
  · rw [h]; exact le_of_lt h'

theorem EqualAt_iff (pFC : FILECOMPARE) (list0 list1 : List NODE) (ptr0 ptr1 : Nat)
    (node0 node1 : NODE) (h0 : list0[ptr0]? = some node0) (h1 : list1[ptr1]? = some node1) :
    EqualAt pFC list0 list1 ptr0 ptr1 = true ↔ CompareNode pFC node0 node1 = FCRET_IDENTICAL := by
  simp [EqualAt, h0, h1]

theorem EqualAt_lt (pFC : FILECOMPARE) (list0 list1 : List NODE) (ptr0 ptr1 : Nat)
    (h : EqualAt pFC list0 list1 ptr0 ptr1 = true) :
    ptr0 < list0.length ∧ ptr1 < list1.length := by
  unfold EqualAt at h
  constructor
  · by_contra hc
    have e : list0[ptr0]? = none := List.getElem?_eq_none (by omega)
    rw [e] at h
    simp at h
  · by_contra hc
    have e : list1[ptr1]? = none := List.getElem?_eq_none (by omega)
    rw [e] at h
    cases list0[ptr0]? <;> simp at h

theorem ResyncVisit_spec (pFC : FILECOMPARE) (list0 list1 : List NODE) (ptr0 ptr1 i0 i1 : Nat)
    (node0 node1 : NODE) (st : ResyncSearch)
    (h0 : list0[ptr0 + i0]? = some node0) (h1 : list1[ptr1 + i1]? = some node1)
    (hi0 : i0 < pFC.n) (hi1 : i1 < pFC.n)
    (hs : SearchSound pFC list0 list1 ptr0 ptr1 st) :
    SearchSound pFC list0 list1 ptr0 ptr1
        (ResyncVisit pFC node0 node1 i0 i1 (ptr0 + i0) (ptr1 + i1) st) ∧
    (ResyncVisit pFC node0 node1 i0 i1 (ptr0 + i0) (ptr1 + i1) st).min_penalty
        ≤ st.min_penalty ∧
    (EqualAt pFC list0 list1 (ptr0 + i0) (ptr1 + i1) = true →
      (ResyncVisit pFC node0 node1 i0 i1 (ptr0 + i0) (ptr1 + i1) st).min_penalty
        ≤ penalty i0 i1) := by
  have hle := SearchSound_le _ _ _ _ _ _ hs
  have hiff := EqualAt_iff pFC list0 list1 _ _ node0 node1 h0 h1
  unfold ResyncVisit
  by_cases hc : CompareNode pFC node0 node1 = FCRET_IDENTICAL
  · rw [if_pos hc]
    by_cases hp : penalty i0 i1 < st.min_penalty
    · rw [if_pos hp]
      refine ⟨Or.inr ⟨i0, i1, hi0, hi1, rfl, rfl, rfl, lt_of_lt_of_le hp hle, hiff.2 hc⟩,
        le_of_lt hp, fun _ => le_refl _⟩
    · rw [if_neg hp]
      exact ⟨hs, le_refl _, fun _ => not_lt.1 hp⟩
  · rw [if_neg hc]
    exact ⟨hs, le_refl _, fun he => absurd (hiff.1 he) hc⟩

theorem ResyncInner_spec (pFC : FILECOMPARE) (list0 list1 : List NODE) (ptr0 ptr1 i0 : Nat)
    (node0 : NODE) (h0 : list0[ptr0 + i0]? = some node0) (hi0 : i0 < pFC.n)
    (k i1 : Nat) (st : ResyncSearch) (h1 : ptr1 + i1 < list1.length) (hk : i1 + k ≤ pFC.n)
    (hs : SearchSound pFC list0 list1 ptr0 ptr1 st) :
    ∃ st1, ResyncInner pFC list1 node0 i0 (ptr0 + i0) k i1 (ptr1 + i1) st = some st1 ∧
      SearchSound pFC list0 list1 ptr0 ptr1 st1 ∧
      st1.min_penalty ≤ st.min_penalty ∧
      ∀ j1, i1 ≤ j1 → j1 < i1 + k → EqualAt pFC list0 list1 (ptr0 + i0) (ptr1 + j1) = true →
        st1.min_penalty ≤ penalty i0 j1 := by
  induction k generalizing i1 st with
  | zero =>
    exact ⟨st, rfl, hs, le_refl _, fun j1 a b => by omega⟩
  | succ k ih =>
    obtain ⟨node1, hn1⟩ : ∃ node1, list1[ptr1 + i1]? = some node1 :=
      ⟨list1[ptr1 + i1], List.getElem?_eq_getElem h1⟩
    obtain ⟨v1, v2, v3⟩ := ResyncVisit_spec pFC list0 list1 ptr0 ptr1 i0 i1 node0 node1 st
      h0 hn1 hi0 (by omega) hs
    unfold ResyncInner
    simp only [hn1]
    by_cases hnext : ptr1 + i1 + 1 < list1.length
    · simp only [list_next, if_pos hnext]
      obtain ⟨st1, r1, r2, r3, r4⟩ := ih (i1 + 1) _ (by omega) (by omega) v1
      refine ⟨st1, ?_, r2, le_trans r3 v2, ?_⟩
      · rw [← r1]; rfl
      · intro j1 a b he
        by_cases hj : j1 = i1
        · subst hj
          exact le_trans r3 (v3 he)
        · exact r4 j1 (by omega) (by omega) he
    · simp only [list_next, if_neg hnext]
      refine ⟨_, rfl, v1, v2, ?_⟩
      intro j1 a b he
      by_cases hj : j1 = i1
      · subst hj
        exact v3 he
      · have := (EqualAt_lt _ _ _ _ _ he).2
        omega

theorem ResyncOuter_spec (pFC : FILECOMPARE) (list0 list1 : List NODE) (ptr0 ptr1 : Nat)
    (h1 : ptr1 < list1.length)
    (k i0 : Nat) (st : ResyncSearch) (h0 : ptr0 + i0 < list0.length) (hk : i0 + k ≤ pFC.n)
    (hs : SearchSound pFC list0 list1 ptr0 ptr1 st) :
    ∃ st1, ResyncOuter pFC list0 list1 ptr1 k i0 (ptr0 + i0) st = some st1 ∧
      SearchSound pFC list0 list1 ptr0 ptr1 st1 ∧
      st1.min_penalty ≤ st.min_penalty ∧
      ∀ j0 j1, i0 ≤ j0 → j0 < i0 + k → j1 < pFC.n →
        EqualAt pFC list0 list1 (ptr0 + j0) (ptr1 + j1) = true →
        st1.min_penalty ≤ penalty j0 j1 := by
  induction k generalizing i0 st with
  | zero =>
    exact ⟨st, rfl, hs, le_refl _, fun j0 j1 a b => by omega⟩
  | succ k ih =>
    obtain ⟨node0, hn0⟩ : ∃ node0, list0[ptr0 + i0]? = some node0 :=
      ⟨list0[ptr0 + i0], List.getElem?_eq_getElem h0⟩
    obtain ⟨sti, e1, e2, e3, e4⟩ := ResyncInner_spec pFC list0 list1 ptr0 ptr1 i0 node0 hn0
      (by omega) pFC.n 0 st (by simpa using h1) (by omega) hs
    rw [Nat.add_zero] at e1
    unfold ResyncOuter
    simp only [hn0, e1]
    by_cases hnext : ptr0 + i0 + 1 < list0.length
    · simp only [list_next, if_pos hnext]
      obtain ⟨st1, r1, r2, r3, r4⟩ := ih (i0 + 1) sti (by omega) (by omega) e2
      refine ⟨st1, ?_, r2, le_trans r3 e3, ?_⟩
      · rw [← r1]; rfl
      · intro j0 j1 a b c he
        by_cases hj : j0 = i0
        · subst hj
          exact le_trans r3 (e4 j1 (by omega) (by omega) he)
        · exact r4 j0 j1 (by omega) (by omega) c he
    · simp only [list_next, if_neg hnext]
      refine ⟨_, rfl, e2, e3, ?_⟩
      intro j0 j1 a b c he
      by_cases hj : j0 = i0
      · subst hj
        exact e4 j1 (by omega) (by omega) he
      · have := (EqualAt_lt _ _ _ _ _ he).1
        omega

theorem ResyncAdvance_null (list : List NODE) (k : Nat) :
    ResyncAdvance list k none = if k = 0 then some none else none := by
  cases k <;> simp [ResyncAdvance]

theorem ResyncAdvance_spec (list : List NODE) (k ptr : Nat) (h : ptr < list.length) :
    ResyncAdvance list k (some ptr) =
      if ptr + k < list.length then some (some (ptr + k))
      else if ptr + k = list.length then some none
      else none := by
  induction k generalizing ptr with
  | zero => simp [ResyncAdvance, h]
  | succ k ih =>
    simp only [ResyncAdvance, list_next]
    by_cases hn : ptr + 1 < list.length
    · rw [if_pos hn, ih (ptr + 1) hn]
      have e : ptr + 1 + k = ptr + (k + 1) := by omega
      rw [e]
    · rw [if_neg hn, ResyncAdvance_null]
      have e : ptr + 1 = list.length := by omega
      by_cases hk : k = 0
      · subst hk
        simp [e]
      · have a : ¬ (ptr + (k + 1) < list.length) := by omega
        have b : ¬ (ptr + (k + 1) = list.length) := by omega
        simp [hk, a, b]

/-- The two outcomes of `Resync` at valid positions: either it lands on an equal
pair of the window with the least score, or no equal pair of the window scores
below `MAXLONG` and the call goes on to move both positions `n` steps. -/
theorem Resync_cases (pFC : FILECOMPARE) (list0 list1 : List NODE) (ptr0 ptr1 : Nat)
    (h0 : ptr0 < list0.length) (h1 : ptr1 < list1.length) :
    (∃ j0 j1, j0 < pFC.n ∧ j1 < pFC.n ∧
      EqualAt pFC list0 list1 (ptr0 + j0) (ptr1 + j1) = true ∧
      (∀ i0 i1, i0 < pFC.n → i1 < pFC.n →
        EqualAt pFC list0 list1 (ptr0 + i0) (ptr1 + i1) = true →
        penalty j0 j1 ≤ penalty i0 i1) ∧
      Resync pFC list0 list1 ptr0 ptr1
        = some (FCRET_IDENTICAL, some (ptr0 + j0), some (ptr1 + j1))) ∨
    ((∀ i0 i1, i0 < pFC.n → i1 < pFC.n →
        EqualAt pFC list0 list1 (ptr0 + i0) (ptr1 + i1) = true →
        MAXLONG ≤ penalty i0 i1) ∧
      Resync pFC list0 list1 ptr0 ptr1 =
        match ResyncAdvance list0 pFC.n (some ptr0) with
        | none => none
        | some new0 =>
          match ResyncAdvance list1 pFC.n (some ptr1) with
          | none => none
          | some new1 => some (FCRET_DIFFERENT, new0, new1)) := by
  obtain ⟨st, r1, r2, _, r4⟩ := ResyncOuter_spec pFC list0 list1 ptr0 ptr1 h1 pFC.n 0
    { min_penalty := MAXLONG, save0 := none, save1 := none } (by simpa using h0) (by omega)
    (Or.inl ⟨rfl, rfl, rfl⟩)
  rw [Nat.add_zero] at r1
  rcases r2 with ⟨s0, s1, s2⟩ | ⟨j0, j1, a, b, s0, s1, s2, s3, s4⟩
  · right
    refine ⟨fun i0 i1 a b he => ?_, ?_⟩
    · rw [← s2]
      exact r4 i0 i1 (by omega) (by omega) b he
    · unfold Resync
      simp only [r1, s0]
  · left
    refine ⟨j0, j1, a, b, s4, fun i0 i1 c d he => ?_, ?_⟩
    · rw [← s2]
      exact r4 i0 i1 (by omega) (by omega) d he
    · unfold Resync
      simp only [r1, s0, s1]

theorem Resync_not_identical_of_advance (pFC : FILECOMPARE) (list0 list1 : List NODE)
    (ptr0 ptr1 : Nat) (q0 q1 : Option Nat) :
    (match ResyncAdvance list0 pFC.n (some ptr0) with
        | none => none
        | some new0 =>
          match ResyncAdvance list1 pFC.n (some ptr1) with
          | none => none
          | some new1 => some (FCRET_DIFFERENT, new0, new1))
      ≠ some (FCRET_IDENTICAL, q0, q1) := by
  cases ResyncAdvance list0 pFC.n (some ptr0) with
  | none => simp
  | some new0 =>
    cases ResyncAdvance list1 pFC.n (some ptr1) with
    | none => simp
    | some new1 => simp

/-- What a successful call of `Resync` at two positions inside the lists returns:
an equal pair of the window with the least `penalty`. -/
theorem Resync_identical_spec (pFC : FILECOMPARE) (list0 list1 : List NODE) (ptr0 ptr1 : Nat)
    (new0 new1 : Option Nat) (h0 : ptr0 < list0.length) (h1 : ptr1 < list1.length)
    (hres : Resync pFC list0 list1 ptr0 ptr1 = some (FCRET_IDENTICAL, new0, new1)) :
    ∃ i0 i1, i0 < pFC.n ∧ i1 < pFC.n ∧ new0 = some (ptr0 + i0) ∧ new1 = some (ptr1 + i1) ∧
      EqualAt pFC list0 list1 (ptr0 + i0) (ptr1 + i1) = true ∧
      ∀ j0 j1, j0 < pFC.n → j1 < pFC.n →
        EqualAt pFC list0 list1 (ptr0 + j0) (ptr1 + j1) = true →
        penalty i0 i1 ≤ penalty j0 j1 := by
  rcases Resync_cases pFC list0 list1 ptr0 ptr1 h0 h1 with
    ⟨j0, j1, a, b, he, hmin, hr⟩ | ⟨_, hr⟩
  · rw [hr] at hres
    simp only [Option.some.injEq, Prod.mk.injEq, true_and] at hres
    exact ⟨j0, j1, a, b, hres.1.symm, hres.2.symm, he, hmin⟩
  · rw [hr] at hres
    exact absurd hres (Resync_not_identical_of_advance _ _ _ _ _ _ _)

/-- C1: when `Resync`, called at two positions inside the lists, succeeds, the
positions it returns are `ptr0 + i0` and `ptr1 + i1` with `i0, i1 < n`, the lines
there compare identical, and every pair `(j0, j1)` of the window (`j0, j1 < n`,
inside the lists) whose lines compare identical has a score
`j0 + 2 * j1 + 3 * |j1 - j0|` at least that of `(i0, i1)`. -/
theorem Resync_minimal (pFC : FILECOMPARE) (list0 list1 : List NODE) (ptr0 ptr1 : Nat)
    (new0 new1 : Option Nat) (h0 : ptr0 < list0.length) (h1 : ptr1 < list1.length)
    (hres : Resync pFC list0 list1 ptr0 ptr1 = some (FCRET_IDENTICAL, new0, new1)) :
    ∃ i0 i1, i0 < pFC.n ∧ i1 < pFC.n ∧ new0 = some (ptr0 + i0) ∧ new1 = some (ptr1 + i1) ∧
      EqualAt pFC list0 list1 (ptr0 + i0) (ptr1 + i1) = true ∧
      ∀ j0 j1, j0 < pFC.n → j1 < pFC.n →
        EqualAt pFC list0 list1 (ptr0 + j0) (ptr1 + j1) = true →
        (i0 : Int) + 2 * (i1 : Int) + 3 * |(i1 : Int) - (i0 : Int)|
          ≤ (j0 : Int) + 2 * (j1 : Int) + 3 * |(j1 : Int) - (j0 : Int)| := by
  obtain ⟨i0, i1, a, b, e0, e1, he, hmin⟩ :=
    Resync_identical_spec pFC list0 list1 ptr0 ptr1 new0 new1 h0 h1 hres
  refine ⟨i0, i1, a, b, e0, e1, he, fun j0 j1 c d hj => ?_⟩
  have := hmin j0 j1 c d hj
  unfold penalty at this
  simpa [Int.natCast_natAbs] using this

/-- Witness of C1: the files `a b c` and `a X c` with the window 2, at the
mismatch `(1, 1)`; the search lands on the two lines `c`, `(2, 2)`. -/
theorem Resync_minimal_witness :
    ∃ i0 i1, i0 < 2 ∧ i1 < 2 ∧ some 2 = some (1 + i0) ∧ some 2 = some (1 + i1) ∧
      EqualAt { dwFlags := 0, n := 2 }
        (lineList { dwFlags := 0, n := 2 } 1 [[97], [98], [99]])
        (lineList { dwFlags := 0, n := 2 } 1 [[97], [88], [99]]) (1 + i0) (1 + i1) = true ∧
      ∀ j0 j1, j0 < 2 → j1 < 2 →
        EqualAt { dwFlags := 0, n := 2 }
          (lineList { dwFlags := 0, n := 2 } 1 [[97], [98], [99]])
          (lineList { dwFlags := 0, n := 2 } 1 [[97], [88], [99]]) (1 + j0) (1 + j1) = true →
        (i0 : Int) + 2 * (i1 : Int) + 3 * |(i1 : Int) - (i0 : Int)|
          ≤ (j0 : Int) + 2 * (j1 : Int) + 3 * |(j1 : Int) - (j0 : Int)| :=
  Resync_minimal { dwFlags := 0, n := 2 }
    (lineList { dwFlags := 0, n := 2 } 1 [[97], [98], [99]])
    (lineList { dwFlags := 0, n := 2 } 1 [[97], [88], [99]]) 1 1 (some 2) (some 2)
    (by decide) (by decide) (by decide)

/-- C2: at two positions inside the lists, the scores of the window fitting an
`INT` (the window or both lists are below `2 ^ 31 / 5`), `Resync` returns `FCRET_IDENTICAL` exactly when some pair
`(i0, i1)` with `i0, i1 < n` inside the lists has lines that compare identical;
the positions returned are then such a pair, `ptr0 + i0` and `ptr1 + i1`, at or
after the starting positions and inside the lists, so the lines skipped on each
side are the `i0` (resp. `i1`) lines from the start up to the returned one. -/
theorem Resync_succeeds_iff (pFC : FILECOMPARE) (list0 list1 : List NODE) (ptr0 ptr1 : Nat)
    (h0 : ptr0 < list0.length) (h1 : ptr1 < list1.length)
    (hfit : 5 * pFC.n < 2 ^ 31 ∨ (5 * list0.length < 2 ^ 31 ∧ 5 * list1.length < 2 ^ 31)) :
    ((∃ new0 new1, Resync pFC list0 list1 ptr0 ptr1 = some (FCRET_IDENTICAL, new0, new1)) ↔
      ∃ i0 i1, i0 < pFC.n ∧ i1 < pFC.n ∧
        EqualAt pFC list0 list1 (ptr0 + i0) (ptr1 + i1) = true) ∧
    (∀ new0 new1, Resync pFC list0 list1 ptr0 ptr1 = some (FCRET_IDENTICAL, new0, new1) →
      ∃ i0 i1, i0 < pFC.n ∧ i1 < pFC.n ∧ new0 = some (ptr0 + i0) ∧ new1 = some (ptr1 + i1) ∧
        ptr0 + i0 < list0.length ∧ ptr1 + i1 < list1.length ∧
        EqualAt pFC list0 list1 (ptr0 + i0) (ptr1 + i1) = true) := by
  constructor
  · constructor
    · rintro ⟨new0, new1, hres⟩
      obtain ⟨i0, i1, a, b, _, _, he, _⟩ :=
        Resync_identical_spec pFC list0 list1 ptr0 ptr1 new0 new1 h0 h1 hres
      exact ⟨i0, i1, a, b, he⟩
    · rintro ⟨i0, i1, a, b, he⟩
      rcases Resync_cases pFC list0 list1 ptr0 ptr1 h0 h1 with
        ⟨j0, j1, _, _, _, _, hr⟩ | ⟨hall, _⟩
      · exact ⟨_, _, hr⟩
      · exfalso
        have hm := hall i0 i1 a b he
        have hl := EqualAt_lt _ _ _ _ _ he
        unfold MAXLONG penalty at hm
        rcases hfit with hfit | ⟨hf0, hf1⟩ <;> omega
  · intro new0 new1 hres
    obtain ⟨i0, i1, a, b, e0, e1, he, _⟩ :=
      Resync_identical_spec pFC list0 list1 ptr0 ptr1 new0 new1 h0 h1 hres
    have hl := EqualAt_lt _ _ _ _ _ he
    exact ⟨i0, i1, a, b, e0, e1, hl.1, hl.2, he⟩

/-- Witness of C2: the files `a b c` and `a X c` with the window 2, at the
mismatch `(1, 1)`: an equal pair exists and `Resync` succeeds. -/
theorem Resync_succeeds_iff_witness :
    ∃ new0 new1, Resync { dwFlags := 0, n := 2 }
      (lineList { dwFlags := 0, n := 2 } 1 [[97], [98], [99]])
      (lineList { dwFlags := 0, n := 2 } 1 [[97], [88], [99]]) 1 1
        = some (FCRET_IDENTICAL, new0, new1) :=
  (Resync_succeeds_iff { dwFlags := 0, n := 2 }
    (lineList { dwFlags := 0, n := 2 } 1 [[97], [98], [99]])
    (lineList { dwFlags := 0, n := 2 } 1 [[97], [88], [99]]) 1 1
    (by decide) (by decide) (Or.inl (by decide))).1.2 ⟨1, 1, by decide, by decide, by decide⟩

/-- The failing branch of `Resync` in general: when no pair of the window compares
identical, the call returns `FCRET_DIFFERENT` with both positions moved `n` steps
(to `NULL` when exactly `n` entries were left) if both lists hold at least `n`
entries from the starting position, and reads through `NULL` if one of them holds
fewer. -/
theorem Resync_no_equal_pair (pFC : FILECOMPARE) (list0 list1 : List NODE) (ptr0 ptr1 : Nat)
    (h0 : ptr0 < list0.length) (h1 : ptr1 < list1.length)
    (hno : ∀ i0 i1, i0 < pFC.n → i1 < pFC.n →
      EqualAt pFC list0 list1 (ptr0 + i0) (ptr1 + i1) = false) :
    (ptr0 + pFC.n ≤ list0.length → ptr1 + pFC.n ≤ list1.length →
      Resync pFC list0 list1 ptr0 ptr1 = some (FCRET_DIFFERENT,
        (if ptr0 + pFC.n < list0.length then some (ptr0 + pFC.n) else none),
        (if ptr1 + pFC.n < list1.length then some (ptr1 + pFC.n) else none))) ∧
    (list0.length < ptr0 + pFC.n ∨ list1.length < ptr1 + pFC.n →
      Resync pFC list0 list1 ptr0 ptr1 = none) := by
  have hr : Resync pFC list0 list1 ptr0 ptr1 =
        match ResyncAdvance list0 pFC.n (some ptr0) with
        | none => none
        | some new0 =>
          match ResyncAdvance list1 pFC.n (some ptr1) with
          | none => none
          | some new1 => some (FCRET_DIFFERENT, new0, new1) := by
    rcases Resync_cases pFC list0 list1 ptr0 ptr1 h0 h1 with
      ⟨j0, j1, a, b, he, _, _⟩ | ⟨_, hr⟩
    · rw [hno j0 j1 a b] at he
      exact absurd he (by simp)
    · exact hr
  rw [hr, ResyncAdvance_spec list0 pFC.n ptr0 h0, ResyncAdvance_spec list1 pFC.n ptr1 h1]
  constructor
  · intro a b
    by_cases c0 : ptr0 + pFC.n < list0.length <;> by_cases c1 : ptr1 + pFC.n < list1.length
    · simp [c0, c1]
    · have : ptr1 + pFC.n = list1.length := by omega
      simp [c0, c1, this]
    · have : ptr0 + pFC.n = list0.length := by omega
      simp [c0, c1, this]
    · have e0 : ptr0 + pFC.n = list0.length := by omega
      have e1 : ptr1 + pFC.n = list1.length := by omega
      simp [e0, e1]
  · intro a
    rcases a with a | a
    · have c0 : ¬ptr0 + pFC.n < list0.length := by omega
      have d0 : ¬ptr0 + pFC.n = list0.length := by omega
      simp [c0, d0]
    · have c1 : ¬ptr1 + pFC.n < list1.length := by omega
      have d1 : ¬ptr1 + pFC.n = list1.length := by omega
      simp only [if_neg c1, if_neg d1]
      split <;> rfl

/-- C3 at a failing input: the files `a` and `a b c d`, window 2.  `SkipIdentical`
stops at the end-of-file marker of the first file and the line `b` of the second;
no pair of the window compares identical, and `Resync`, moving the first position
two steps with one entry left, calls `list_next` on `NULL`: the call does not
return `FCRET_DIFFERENT`, it reads through `NULL`. -/
theorem Resync_reads_through_null :
    SkipIdentical { dwFlags := 0, n := 2 }
      (lineList { dwFlags := 0, n := 2 } 1 [[97]])
      (lineList { dwFlags := 0, n := 2 } 1 [[97], [98], [99], [100]]) (some 0) (some 0)
        = some (some FCRET_DIFFERENT, some 1, some 1) ∧
    (∀ i0, i0 < 2 → ∀ i1, i1 < 2 →
      EqualAt { dwFlags := 0, n := 2 }
        (lineList { dwFlags := 0, n := 2 } 1 [[97]])
        (lineList { dwFlags := 0, n := 2 } 1 [[97], [98], [99], [100]]) (1 + i0) (1 + i1)
          = false) ∧
    ResyncAdvance (lineList { dwFlags := 0, n := 2 } 1 [[97]]) 2 (some 1) = none ∧
    Resync { dwFlags := 0, n := 2 }
      (lineList { dwFlags := 0, n := 2 } 1 [[97]])
      (lineList { dwFlags := 0, n := 2 } 1 [[97], [98], [99], [100]]) 1 1 = none := by
  refine ⟨by decide, by decide, by decide, by decide⟩

/-! ## White space compression -/

/-- C10 at a failing input: `CompressSpace` keeps the first character of a run of
blanks and tabs, so the run `\t` of the line `a\tb` stays a tab (the result is
not `a b`), and the run `\t ` of `a\t b` becomes a tab as well; runs that begin
with a blank do become one blank, the ends are trimmed, and a line of blanks and
tabs gives the empty string. -/
theorem CompressSpace_keeps_leading_tab :
    CompressSpace [97, 9, 98] = [97, 9, 98] ∧
    CompressSpace [97, 9, 98] ≠ [97, 32, 98] ∧
    CompressSpace [97, 9, 32, 98] = [97, 9, 98] ∧
    CompressSpace [97, 32, 9, 98] = [97, 32, 98] ∧
    CompressSpace [9, 32, 97, 32, 32, 32, 98, 32, 9] = [97, 32, 98] ∧
    CompressSpace [32, 9, 32] = [] := by
  refine ⟨by decide, by decide, by decide, by decide, by decide, by decide⟩

/-- C9 at a failing input: under `FLAG_T` and `FLAG_W` the lines `a \tb` and
`a\tb`, which differ only in the length of the run between `a` and `b`, get the
compressed texts `a b` and `a\tb` and are reported different.  The lines `a   b`
and `a b` are reported identical under `FLAG_W` (with or without `FLAG_T`) and
different without it. -/
theorem CompareNode_compress_tab_run :
    (ConvertNode { dwFlags := FLAG_T ||| FLAG_W, n := 100 } (AllocNode [97, 32, 9, 98] 1)).pszComp
      = some [97, 32, 98] ∧
    (ConvertNode { dwFlags := FLAG_T ||| FLAG_W, n := 100 } (AllocNode [97, 9, 98] 1)).pszComp
      = some [97, 9, 98] ∧
    CompareNode { dwFlags := FLAG_T ||| FLAG_W, n := 100 }
      (ConvertNode { dwFlags := FLAG_T ||| FLAG_W, n := 100 } (AllocNode [97, 32, 9, 98] 1))
      (ConvertNode { dwFlags := FLAG_T ||| FLAG_W, n := 100 } (AllocNode [97, 9, 98] 1))
        = FCRET_DIFFERENT ∧
    CompareNode { dwFlags := FLAG_W, n := 100 }
      (ConvertNode { dwFlags := FLAG_W, n := 100 } (AllocNode [97, 32, 32, 32, 98] 1))
      (ConvertNode { dwFlags := FLAG_W, n := 100 } (AllocNode [97, 32, 98] 1))
        = FCRET_IDENTICAL ∧
    CompareNode { dwFlags := FLAG_T ||| FLAG_W, n := 100 }
      (ConvertNode { dwFlags := FLAG_T ||| FLAG_W, n := 100 } (AllocNode [97, 32, 32, 32, 98] 1))
      (ConvertNode { dwFlags := FLAG_T ||| FLAG_W, n := 100 } (AllocNode [97, 32, 98] 1))
        = FCRET_IDENTICAL ∧
    CompareNode { dwFlags := 0, n := 100 }
      (ConvertNode { dwFlags := 0, n := 100 } (AllocNode [97, 32, 32, 32, 98] 1))
      (ConvertNode { dwFlags := 0, n := 100 } (AllocNode [97, 32, 98] 1))
        = FCRET_DIFFERENT := by
  refine ⟨by decide, by decide, by decide, by decide, by decide, by decide⟩

/-! ## Tab expansion and binary comparison -/

theorem ExpandTabLoop_length (l : List Nat) (ich : Nat) :
    ich + (ExpandTabLoop l ich).length = ExpandTabLengthLoop l ich := by
  induction l generalizing ich with
  | nil => simp [ExpandTabLoop, ExpandTabLengthLoop]
  | cons c cs ih =>
    unfold ExpandTabLoop ExpandTabLengthLoop
    split
    · simp
    · split
      · rw [List.length_append, List.length_replicate, ← ih]
        omega
      · rw [List.length_cons, ← ih]
        omega

theorem tab_not_mem_ExpandTabLoop (l : List Nat) (ich : Nat) : CH_TAB ∉ ExpandTabLoop l ich := by
  induction l generalizing ich with
  | nil => simp [ExpandTabLoop]
  | cons c cs ih =>
    unfold ExpandTabLoop
    split
    · simp
    · split
      · intro hm
        rcases List.mem_append.1 hm with h1 | h1
        · have := List.eq_of_mem_replicate h1
          exact absurd this (by decide)
        · exact ih _ h1
      · rename_i _ hc
        simp only [List.mem_cons, not_or]
        exact ⟨fun e => hc e.symm, ih _⟩

theorem ExpandTabLoop_append (pre post : List Nat) (ich : Nat) (h : 0 ∉ pre) :
    ExpandTabLoop (pre ++ post) ich
      = ExpandTabLoop pre ich ++ ExpandTabLoop post (ich + (ExpandTabLoop pre ich).length) := by
  induction pre generalizing ich with
  | nil => simp [ExpandTabLoop]
  | cons c cs ih =>
    simp only [List.mem_cons, not_or] at h
    have hc : c ≠ 0 := fun e => h.1 e.symm
    rw [List.cons_append]
    rw [ExpandTabLoop, ExpandTabLoop, if_neg hc, if_neg hc]
    split
    · rw [ih _ h.2, List.length_append, List.length_replicate, List.append_assoc, Nat.add_assoc]
    · rw [ih _ h.2, List.length_cons, List.cons_append]
      have e : ich + 1 + (ExpandTabLoop cs (ich + 1)).length
          = ich + ((ExpandTabLoop cs (ich + 1)).length + 1) := by omega
      rw [e]

theorem ExpandTabLoop_cstr (l : List Nat) (ich : Nat) :
    ExpandTabLoop (cstr l) ich = ExpandTabLoop l ich := by
  induction l generalizing ich with
  | nil => rfl
  | cons c cs ih =>
    unfold cstr
    split
    · rename_i hc
      simp [ExpandTabLoop, hc]
    · rename_i hc
      simp only [ExpandTabLoop, if_neg hc, ih]

theorem filter_ne_tab_sublist_ExpandTabLoop (l : List Nat) (ich : Nat) :
    List.Sublist ((cstr l).filter fun c => c != CH_TAB) (ExpandTabLoop l ich) := by
  induction l generalizing ich with
  | nil => simp [cstr, ExpandTabLoop]
  | cons c cs ih =>
    unfold cstr ExpandTabLoop
    split
    · simp
    · split
      · rename_i _ ht
        simp only [ht, List.filter_cons, bne_self_eq_false, Bool.false_eq_true, if_false]
        exact List.Sublist.trans (ih _) (List.sublist_append_right _ _)
      · rename_i _ ht
        have : (c != CH_TAB) = true := by simpa using ht
        simp only [List.filter_cons, this, if_true]
        exact List.Sublist.cons₂ _ (ih _)

/-- C11: for every line, the text written by `ExpandTab` holds no tab, its length
is `ExpandTabLength` of the line, and the characters of the line other than tabs
are kept in their order; character by character, what is written for a character
that follows the text `pre` is the character itself, or, for a tab, `8 - c mod 8`
blanks where `c` is the length of what `pre` expanded to, so that the text after a
tab starts at a multiple of 8. -/
theorem ExpandTab_spec (line pre post : List Nat) (c : Nat) :
    CH_TAB ∉ ExpandTab line ∧
    (ExpandTab line).length = ExpandTabLength line ∧
    List.Sublist ((cstr line).filter fun ch => ch != CH_TAB) (ExpandTab line) ∧
    (0 ∉ pre → c ≠ 0 →
      ExpandTab (pre ++ c :: post) =
        ExpandTab pre
          ++ (if c = CH_TAB then
                List.replicate (TAB_WIDTH - (ExpandTab pre).length % TAB_WIDTH) CH_SPACE
              else [c])
          ++ ExpandTabLoop post (ExpandTab (pre ++ [c])).length) ∧
    (0 ∉ pre → (ExpandTab (pre ++ [CH_TAB])).length % TAB_WIDTH = 0) := by
  have hone : ∀ (x : Nat) (i : Nat), x ≠ 0 → ExpandTabLoop [x] i =
      (if x = CH_TAB then List.replicate (TAB_WIDTH - i % TAB_WIDTH) CH_SPACE else [x]) := by
    intro x i hx
    simp only [ExpandTabLoop, if_neg hx]
    split <;> simp
  refine ⟨tab_not_mem_ExpandTabLoop _ _, ?_, filter_ne_tab_sublist_ExpandTabLoop _ _, ?_, ?_⟩
  · have := ExpandTabLoop_length line 0
    unfold ExpandTab ExpandTabLength
    omega
  · intro hp hc
    have h1 : pre ++ c :: post = (pre ++ [c]) ++ post := by simp
    have hpc : 0 ∉ pre ++ [c] := by
      simp only [List.mem_append, List.mem_singleton, not_or]
      exact ⟨hp, fun e => hc e.symm⟩
    unfold ExpandTab
    rw [h1, ExpandTabLoop_append _ _ _ hpc, ExpandTabLoop_append _ _ _ hp, Nat.zero_add,
      Nat.zero_add, hone c _ hc]
  · intro hp
    unfold ExpandTab
    rw [ExpandTabLoop_append _ _ _ hp, Nat.zero_add, hone CH_TAB _ (by decide), if_pos rfl,
      List.length_append, List.length_replicate]
    unfold TAB_WIDTH
    omega

theorem getD_take_drop (l : List Nat) (start cbView j : Nat) (hj : j < cbView) :
    ((l.drop start).take cbView).getD j 0 = l.getD (start + j) 0 := by
  simp only [List.getD_eq_getElem?_getD]
  rw [List.getElem?_take_of_lt hj, List.getElem?_drop]

theorem mismatchLines_append (wide : Bool) (file0 file1 a b : List Nat) :
    mismatchLines wide file0 file1 (a ++ b)
      = mismatchLines wide file0 file1 a ++ mismatchLines wide file0 file1 b := by
  simp [mismatchLines]

theorem mismatchLines_cons (wide : Bool) (file0 file1 : List Nat) (i : Nat) (rest : List Nat) :
    mismatchLines wide file0 file1 (i :: rest)
      = if file0.getD i 0 = file1.getD i 0 then mismatchLines wide file0 file1 rest
        else OUT.mismatch wide i (file0.getD i 0) (file1.getD i 0)
          :: mismatchLines wide file0 file1 rest := by
  unfold mismatchLines
  by_cases h : file0.getD i 0 = file1.getD i 0
  · have hb : (file0.getD i 0 != file1.getD i 0) = false := by simpa using h
    rw [List.filter_cons, if_pos h]
    simp only [hb, Bool.false_eq_true, if_false]
  · have hb : (file0.getD i 0 != file1.getD i 0) = true := by simpa using h
    rw [List.filter_cons, if_neg h]
    simp only [hb, if_true, List.map_cons]

theorem BinaryViewLoop_spec (cbCommon : Nat) (file0 file1 : List Nat) (start cbView : Nat)
    (hc : start + cbView ≤ cbCommon)
    (k ibView : Nat) (fDifferent : Bool) (out : List OUT) (hk : ibView + k ≤ cbView) :
    BinaryViewLoop cbCommon ((file0.drop start).take cbView) ((file1.drop start).take cbView)
        k ibView (start + ibView) fDifferent out
      = (start + ibView + k,
         fDifferent || (List.range' (start + ibView) k).any
            (fun i => file0.getD i 0 != file1.getD i 0),
         out ++ mismatchLines (decide (cbCommon > MAXDWORD)) file0 file1
            (List.range' (start + ibView) k)) := by
  induction k generalizing ibView fDifferent out with
  | zero => simp [BinaryViewLoop, mismatchLines]
  | succ k ih =>
    have hj : ibView < cbView := by omega
    unfold BinaryViewLoop
    rw [getD_take_drop _ _ _ _ hj, getD_take_drop _ _ _ _ hj]
    have e1 : start + ibView + 1 = start + (ibView + 1) := by omega
    have e2 : start + ibView + (k + 1) = start + (ibView + 1) + k := by omega
    by_cases heq : file0.getD (start + ibView) 0 = file1.getD (start + ibView) 0
    · have hb : (file0.getD (start + ibView) 0 != file1.getD (start + ibView) 0) = false := by
        simpa using heq
      rw [if_pos heq, e1, ih (ibView + 1) _ _ (by omega), e2, List.range'_succ,
        mismatchLines_cons, if_pos heq, List.any_cons, hb, Bool.false_or, e1]
    · have hb : (file0.getD (start + ibView) 0 != file1.getD (start + ibView) 0) = true := by
        simpa using heq
      have hw : (if cbCommon > MAXDWORD then
            OUT.mismatch true (start + ibView) (file0.getD (start + ibView) 0)
              (file1.getD (start + ibView) 0)
          else OUT.mismatch false ((start + ibView) % 2 ^ 32) (file0.getD (start + ibView) 0)
              (file1.getD (start + ibView) 0))
          = OUT.mismatch (decide (cbCommon > MAXDWORD)) (start + ibView)
              (file0.getD (start + ibView) 0) (file1.getD (start + ibView) 0) := by
        by_cases hwide : cbCommon > MAXDWORD
        · rw [if_pos hwide, decide_eq_true hwide]
        · have hlt : start + ibView < 2 ^ 32 := by
            have : cbCommon ≤ 0xFFFFFFFF := not_lt.1 hwide
            omega
          rw [if_neg hwide, decide_eq_false hwide, Nat.mod_eq_of_lt hlt]
      rw [if_neg heq, hw, e1, ih (ibView + 1) _ _ (by omega), e2, List.range'_succ,
        mismatchLines_cons, if_neg heq, List.any_cons, hb, Bool.true_or, Bool.true_or,
        Bool.or_true, e1, List.append_assoc, List.singleton_append]

theorem BinaryLoop_spec (maxView : Nat) (file0 file1 : List Nat) (cbCommon : Nat)
    (hpos : 0 < maxView) (hdw : maxView < 2 ^ 32)
    (fuel ib : Nat) (fDifferent : Bool) (out : List OUT)
    (hib : ib ≤ cbCommon) (hfuel : cbCommon - ib ≤ fuel) :
    BinaryLoop maxView file0 file1 cbCommon fuel ib fDifferent out
      = some (fDifferent || (List.range' ib (cbCommon - ib)).any
            (fun i => file0.getD i 0 != file1.getD i 0),
         out ++ mismatchLines (decide (cbCommon > MAXDWORD)) file0 file1
            (List.range' ib (cbCommon - ib))) := by
  induction fuel generalizing ib fDifferent out with
  | zero =>
    have : cbCommon - ib = 0 := by omega
    have h2 : ¬ ib < cbCommon := by omega
    simp [BinaryLoop, h2, this, mismatchLines]
  | succ fuel ih =>
    unfold BinaryLoop
    by_cases hlt : ib < cbCommon
    · rw [if_pos hlt]
      have hv : min (cbCommon - ib) maxView % 2 ^ 32 = min (cbCommon - ib) maxView :=
        Nat.mod_eq_of_lt (lt_of_le_of_lt (Nat.min_le_right _ _) hdw)
      simp only [hv]
      have hvpos : 0 < min (cbCommon - ib) maxView := by
        rw [Nat.lt_min]; exact ⟨by omega, hpos⟩
      have hvle : min (cbCommon - ib) maxView ≤ cbCommon - ib := Nat.min_le_left _ _
      have hs := BinaryViewLoop_spec cbCommon file0 file1 ib (min (cbCommon - ib) maxView)
        (by omega) (min (cbCommon - ib) maxView) 0 fDifferent out (by omega)
      rw [Nat.add_zero] at hs
      rw [hs]
      simp only []
      rw [ih _ _ _ (by omega) (by omega)]
      have hsplit : cbCommon - ib
          = (cbCommon - (ib + min (cbCommon - ib) maxView)) + min (cbCommon - ib) maxView := by
        omega
      have hr : List.range' ib (cbCommon - ib)
          = List.range' ib (min (cbCommon - ib) maxView)
            ++ List.range' (ib + min (cbCommon - ib) maxView)
                (cbCommon - (ib + min (cbCommon - ib) maxView)) := by
        rw [List.range'_append_1, ← hsplit]
      rw [hr, mismatchLines_append, List.any_append, List.append_assoc, Bool.or_assoc]
    · rw [if_neg hlt]
      have : cbCommon - ib = 0 := by omega
      simp [this, mismatchLines]

theorem BinaryFileCompare_eq (maxView : Nat) (file0 file1 : List Nat)
    (hpos : 0 < maxView) (hdw : maxView < 2 ^ 32) :
    BinaryFileCompare false maxView file0 file1 =
      if file0.length < file1.length then
        some (FCRET_DIFFERENT,
          mismatchLines (decide (min file0.length file1.length > MAXDWORD)) file0 file1
            (List.range (min file0.length file1.length)) ++ [OUT.longerThan 1 0])
      else if file0.length > file1.length then
        some (FCRET_DIFFERENT,
          mismatchLines (decide (min file0.length file1.length > MAXDWORD)) file0 file1
            (List.range (min file0.length file1.length)) ++ [OUT.longerThan 0 1])
      else if (List.range (min file0.length file1.length)).any
          (fun i => file0.getD i 0 != file1.getD i 0) then
        some (FCRET_DIFFERENT,
          mismatchLines (decide (min file0.length file1.length > MAXDWORD)) file0 file1
            (List.range (min file0.length file1.length)) ++ [OUT.different 0 1])
      else
        some (FCRET_IDENTICAL,
          mismatchLines (decide (min file0.length file1.length > MAXDWORD)) file0 file1
            (List.range (min file0.length file1.length)) ++ [OUT.noDifference]) := by
  have hloop : (if min file0.length file1.length > 0 then
        BinaryLoop maxView file0 file1 (min file0.length file1.length)
          (min file0.length file1.length) 0 false []
      else some (false, []))
      = some ((List.range (min file0.length file1.length)).any
            (fun i => file0.getD i 0 != file1.getD i 0),
          mismatchLines (decide (min file0.length file1.length > MAXDWORD)) file0 file1
            (List.range (min file0.length file1.length))) := by
    by_cases h : min file0.length file1.length > 0
    · rw [if_pos h, BinaryLoop_spec maxView file0 file1 _ hpos hdw _ 0 false [] (by omega)
        (by omega)]
      simp [List.range_eq_range']
    · have h0 : min file0.length file1.length = 0 := by omega
      rw [if_neg h, h0]
      simp [mismatchLines]
  unfold BinaryFileCompare
  simp only [Bool.false_eq_true, if_false, hloop]

theorem any_diff_iff (file0 file1 : List Nat) (h : file0.length = file1.length) :
    (List.range (min file0.length file1.length)).any
        (fun i => file0.getD i 0 != file1.getD i 0) = true ↔ file0 ≠ file1 := by
  constructor
  · intro ha hEq
    subst hEq
    simp at ha
  · intro hne
    by_contra hc
    apply hne
    apply List.ext_getElem h
    intro i h0 h1
    have hi : i ∈ List.range (min file0.length file1.length) := by
      simp only [List.mem_range]; omega
    have := fun hd => hc (List.any_eq_true.2 ⟨i, hi, hd⟩)
    simp only [List.getD_eq_getElem?_getD, List.getElem?_eq_getElem h0,
      List.getElem?_eq_getElem h1, Option.getD_some, bne_iff_ne, ne_eq, not_not] at this
    exact not_not.1 this

/-- C12: for two files of different paths that can be read, with a view size that
is a positive `DWORD`, `BinaryFileCompare` ends on the size test: a shorter first
file gives the longer-than message naming the second file as the longer one, a
longer first file the same message naming the first, even when no byte of the
common part differs; equal sizes with a differing byte give the different
message, and equal contents the no-difference message and `FCRET_IDENTICAL`. -/
theorem BinaryFileCompare_outcome (maxView : Nat) (file0 file1 : List Nat)
    (hpos : 0 < maxView) (hdw : maxView < 2 ^ 32) :
    (file0.length < file1.length →
      ∃ out, BinaryFileCompare false maxView file0 file1
        = some (FCRET_DIFFERENT, out ++ [OUT.longerThan 1 0])) ∧
    (file1.length < file0.length →
      ∃ out, BinaryFileCompare false maxView file0 file1
        = some (FCRET_DIFFERENT, out ++ [OUT.longerThan 0 1])) ∧
    (file0.length = file1.length → file0 ≠ file1 →
      ∃ out, BinaryFileCompare false maxView file0 file1
        = some (FCRET_DIFFERENT, out ++ [OUT.different 0 1])) ∧
    (file0 = file1 →
      BinaryFileCompare false maxView file0 file1
        = some (FCRET_IDENTICAL, [OUT.noDifference])) := by
  have he := BinaryFileCompare_eq maxView file0 file1 hpos hdw
  refine ⟨fun h => ?_, fun h => ?_, fun h hne => ?_, fun h => ?_⟩
  · rw [he, if_pos h]
    exact ⟨_, rfl⟩
  · rw [he, if_neg (by omega), if_pos h]
    exact ⟨_, rfl⟩
  · rw [he, if_neg (by omega), if_neg (by omega), if_pos ((any_diff_iff _ _ h).2 hne)]
    exact ⟨_, rfl⟩
  · subst h
    have hn : ¬ ((List.range (min file0.length file0.length)).any
        (fun i => file0.getD i 0 != file0.getD i 0) = true) := by
      rw [any_diff_iff _ _ rfl]; simp
    rw [he, if_neg (by omega), if_neg (by omega), if_neg hn]
    simp [mismatchLines]

/-- C13: what `BinaryFileCompare` prints before its final message is one mismatch
line for every index below the common length at which the two bytes differ, in
increasing order of the index, with that index as the offset and the two bytes;
the 8-digit form is used exactly when the common length is at most `MAXDWORD`; the
lines do not depend on the view size. -/
theorem BinaryFileCompare_records (maxView : Nat) (file0 file1 : List Nat)
    (hpos : 0 < maxView) (hdw : maxView < 2 ^ 32) :
    ∃ ret msg, (msg = OUT.noDifference ∨ msg = OUT.different 0 1 ∨ msg = OUT.longerThan 0 1 ∨
        msg = OUT.longerThan 1 0) ∧
      BinaryFileCompare false maxView file0 file1 = some (ret,
        ((List.range (min file0.length file1.length)).filter
            fun i => file0.getD i 0 != file1.getD i 0).map
          (fun i => OUT.mismatch (decide (min file0.length file1.length > MAXDWORD)) i
            (file0.getD i 0) (file1.getD i 0))
        ++ [msg]) := by
  have he := BinaryFileCompare_eq maxView file0 file1 hpos hdw
  unfold mismatchLines at he
  rw [he]
  split
  · exact ⟨_, _, Or.inr (Or.inr (Or.inr rfl)), rfl⟩
  · split
    · exact ⟨_, _, Or.inr (Or.inr (Or.inl rfl)), rfl⟩
    · split
      · exact ⟨_, _, Or.inr (Or.inl rfl), rfl⟩
      · exact ⟨_, _, Or.inl rfl, rfl⟩

/-- Witness of C11 at the line `a\tb`: the characters before the tab expand to
`a`, the tab to seven blanks, and the text after a tab starts at column 8. -/
theorem ExpandTab_spec_witness :
    ExpandTab ([97] ++ 9 :: [98]) =
        ExpandTab [97]
          ++ (if 9 = CH_TAB then
                List.replicate (TAB_WIDTH - (ExpandTab [97]).length % TAB_WIDTH) CH_SPACE
              else [9])
          ++ ExpandTabLoop [98] (ExpandTab ([97] ++ [9])).length ∧
    (ExpandTab ([97] ++ [CH_TAB])).length % TAB_WIDTH = 0 :=
  ⟨(ExpandTab_spec [97, 9, 98] [97] [98] 9).2.2.2.1 (by decide) (by decide),
   (ExpandTab_spec [97, 9, 98] [97] [98] 9).2.2.2.2 (by decide)⟩

/-- Witness of C12 with views of two bytes: a file that is a strict beginning of
the other gives the longer-than outcome naming the second file, and two equal
files give the no-difference outcome. -/
theorem BinaryFileCompare_outcome_witness :
    (∃ out, BinaryFileCompare false 2 [1, 2, 3] [1, 2, 3, 4]
        = some (FCRET_DIFFERENT, out ++ [OUT.longerThan 1 0])) ∧
    (∃ out, BinaryFileCompare false 2 [1, 2, 3] [1, 9, 3]
        = some (FCRET_DIFFERENT, out ++ [OUT.different 0 1])) ∧
    BinaryFileCompare false 2 [1, 2, 3] [1, 2, 3] = some (FCRET_IDENTICAL, [OUT.noDifference]) :=
  ⟨(BinaryFileCompare_outcome 2 [1, 2, 3] [1, 2, 3, 4] (by decide) (by decide)).1 (by decide),
   (BinaryFileCompare_outcome 2 [1, 2, 3] [1, 9, 3] (by decide) (by decide)).2.2.1
      (by decide) (by decide),
   (BinaryFileCompare_outcome 2 [1, 2, 3] [1, 2, 3] (by decide) (by decide)).2.2.2 rfl⟩

/-- Witness of C13 with views of two bytes on five-byte files that differ at the
offsets 1 and 3. -/
theorem BinaryFileCompare_records_witness :
    ∃ ret msg, (msg = OUT.noDifference ∨ msg = OUT.different 0 1 ∨ msg = OUT.longerThan 0 1 ∨
        msg = OUT.longerThan 1 0) ∧
      BinaryFileCompare false 2 [1, 2, 3, 4, 5] [1, 9, 3, 8, 5] = some (ret,
        ((List.range (min [1, 2, 3, 4, 5].length [1, 9, 3, 8, 5].length)).filter
            fun i => [1, 2, 3, 4, 5].getD i 0 != [1, 9, 3, 8, 5].getD i 0).map
          (fun i => OUT.mismatch
            (decide (min [1, 2, 3, 4, 5].length [1, 9, 3, 8, 5].length > MAXDWORD)) i
            ([1, 2, 3, 4, 5].getD i 0) ([1, 9, 3, 8, 5].getD i 0))
        ++ [msg]) :=
  BinaryFileCompare_records 2 [1, 2, 3, 4, 5] [1, 9, 3, 8, 5] (by decide) (by decide)

/-! ## The line tokenizer in closed form -/

theorem termIdx_le (l : List Nat) : termIdx l ≤ l.length := by
  induction l with
  | nil => simp [termIdx]
  | cons c cs ih =>
    unfold termIdx
    split
    · simp
    · simp only [List.length_cons]; omega

theorem isLineEnd_iff (c : Nat) : isLineEnd c = true ↔ (c = CH_LF ∨ c = 0) := by
  simp [isLineEnd]

theorem FindNextLineLoop_eq (psz : List Nat) (cch : Nat) (hlen : psz.length = cch)
    (k ich : Nat) (hk : ich + k = cch) :
    FindNextLineLoop psz cch k ich
      = (decide (termIdx (psz.drop ich) < k), ich + termIdx (psz.drop ich)) := by
  induction k generalizing ich with
  | zero =>
    have : psz.drop ich = [] := List.drop_eq_nil_of_le (by omega)
    simp [FindNextLineLoop, this, termIdx]
    omega
  | succ k ih =>
    have hlt : ich < psz.length := by omega
    have hd : psz.drop ich = psz[ich] :: psz.drop (ich + 1) := List.drop_eq_getElem_cons hlt
    have hg : psz.getD ich 0 = psz[ich] := by
      simp [List.getD_eq_getElem?_getD, List.getElem?_eq_getElem hlt]
    unfold FindNextLineLoop
    rw [hg, hd]
    by_cases he : psz[ich] = CH_LF ∨ psz[ich] = 0
    · rw [if_pos he]
      have : isLineEnd psz[ich] = true := (isLineEnd_iff _).2 he
      simp [termIdx, this]
    · rw [if_neg he]
      have : ¬ isLineEnd psz[ich] = true := fun h => he ((isLineEnd_iff _).1 h)
      rw [ih (ich + 1) (by omega)]
      simp only [termIdx, this, if_false, Bool.false_eq_true]
      have e : ich + 1 + termIdx (psz.drop (ich + 1)) = ich + (termIdx (psz.drop (ich + 1)) + 1) := by
        omega
      rw [e]
      congr 1
      simp

theorem FindNextLine_eq (psz : List Nat) (ich : Nat) (h : ich ≤ psz.length) :
    FindNextLine psz ich psz.length
      = (decide (termIdx (psz.drop ich) < psz.length - ich), ich + termIdx (psz.drop ich)) := by
  unfold FindNextLine
  exact FindNextLineLoop_eq psz _ rfl _ _ (by omega)

theorem segments_eq (r : List Nat) (hr : r ≠ []) :
    (termIdx r < r.length →
      segments isLineEnd r = r.take (termIdx r) :: segments isLineEnd (r.drop (termIdx r + 1))) ∧
    (termIdx r = r.length → segments isLineEnd r = [r]) := by
  induction r with
  | nil => exact absurd rfl hr
  | cons c cs ih =>
    by_cases hc : isLineEnd c = true
    · simp [termIdx, segments, hc]
    · simp only [termIdx, segments, hc, if_false, Bool.false_eq_true, List.length_cons]
      by_cases hcs : cs = []
      · subst hcs
        simp [termIdx, segments]
      · obtain ⟨i1, i2⟩ := ih hcs
        constructor
        · intro hlt
          rw [i1 (by omega)]
          simp
        · intro heq
          rw [i2 (by omega)]

theorem termIdx_getElem (r : List Nat) (h : termIdx r < r.length) :
    isLineEnd (r[termIdx r]) = true := by
  induction r with
  | nil => simp at h
  | cons c cs ih =>
    by_cases hc : isLineEnd c = true
    · simp [termIdx, hc]
    · have h2 : termIdx cs < cs.length := by
        simp only [termIdx, hc, if_false, Bool.false_eq_true, List.length_cons] at h
        omega
      simp only [termIdx, hc, if_false, Bool.false_eq_true, List.getElem_cons_succ]
      exact ih h2

theorem any_isLineEnd_eq (r : List Nat) :
    r.any isLineEnd = decide (termIdx r < r.length) := by
  induction r with
  | nil => simp [termIdx]
  | cons c cs ih =>
    by_cases hc : isLineEnd c = true
    · simp [termIdx, hc]
    · simp only [List.any_cons, termIdx, hc, if_false, Bool.false_eq_true, List.length_cons, ih]
      simp

theorem getLast?_cons_of_ne_nil (c : Nat) (cs : List Nat) (h : cs ≠ []) :
    (c :: cs).getLast? = cs.getLast? := by
  cases cs with
  | nil => exact absurd rfl h
  | cons d ds => simp [List.getLast?_cons_cons]

theorem endsWithLineEnd_of_no_end (r : List Nat) (hr : r ≠ []) (h : termIdx r = r.length) :
    endsWithLineEnd r = false := by
  induction r with
  | nil => exact absurd rfl hr
  | cons c cs ih =>
    by_cases hc : isLineEnd c = true
    · simp [termIdx, hc] at h
    · have h2 : termIdx cs = cs.length := by
        simp only [termIdx, hc, if_false, Bool.false_eq_true, List.length_cons] at h
        omega
      by_cases hcs : cs = []
      · subst hcs
        simpa [endsWithLineEnd] using hc
      · have := ih hcs h2
        unfold endsWithLineEnd at this ⊢
        rw [getLast?_cons_of_ne_nil c cs hcs]
        exact this

theorem endsWithLineEnd_drop (r : List Nat) (h : termIdx r < r.length) :
    endsWithLineEnd r = endsWithLineEnd (r.drop (termIdx r + 1)) := by
  induction r with
  | nil => simp at h
  | cons c cs ih =>
    by_cases hc : isLineEnd c = true
    · simp only [termIdx, hc, if_true, Nat.zero_add, List.drop_succ_cons, List.drop_zero]
      by_cases hcs : cs = []
      · subst hcs
        simp [endsWithLineEnd, hc]
      · unfold endsWithLineEnd
        rw [getLast?_cons_of_ne_nil c cs hcs]
    · have h2 : termIdx cs < cs.length := by
        simp only [termIdx, hc, if_false, Bool.false_eq_true, List.length_cons] at h
        omega
      have hcs : cs ≠ [] := by
        intro e; subst e; simp at h2
      simp only [termIdx, hc, if_false, Bool.false_eq_true, List.drop_succ_cons]
      rw [← ih h2]
      unfold endsWithLineEnd
      rw [getLast?_cons_of_ne_nil c cs hcs]

theorem segments_ne_nil (r : List Nat) (hr : r ≠ []) : segments isLineEnd r ≠ [] := by
  cases r with
  | nil => exact absurd rfl hr
  | cons c cs =>
    unfold segments
    split
    · simp
    · split <;> simp

theorem ParseLinesLoop_done (pFC : FILECOMPARE) (psz : List Nat) (cch : Nat) (fLast : Bool)
    (fuel ich lineno : Nat) (ichNext : Option Nat) (list : List NODE) (h : cch ≤ ich) :
    ParseLinesLoop pFC psz cch fLast fuel ich lineno ichNext list = some (ichNext, list) := by
  have : ¬ ich < cch := by omega
  cases fuel <;> simp [ParseLinesLoop, this]

theorem cchNode_eq (pre r : List Nat) (hdw : (pre ++ r).length < 2 ^ 32)
    (hpre : pre = [] ∨ ∃ c, pre.getLast? = some c ∧ isLineEnd c = true) :
    AllocLine r
        ((pre.length + termIdx r + 2 ^ 32 - pre.length
            - (if 0 < pre.length + termIdx r ∧
                  (pre ++ r).getD (pre.length + termIdx r - 1) 0 = CH_CR then 1 else 0))
          % 2 ^ 32)
      = stripCR (r.take (termIdx r)) ∧
    pre.length + (if 0 < pre.length + termIdx r ∧
                  (pre ++ r).getD (pre.length + termIdx r - 1) 0 = CH_CR then 1 else 0)
      ≤ pre.length + termIdx r := by
  have hle := termIdx_le r
  rw [List.length_append] at hdw
  by_cases hj : termIdx r = 0
  · have hb : ¬ (0 < pre.length + termIdx r ∧
        (pre ++ r).getD (pre.length + termIdx r - 1) 0 = CH_CR) := by
      rintro ⟨hp, hcr⟩
      rcases hpre with hnil | ⟨c, hc1, hc2⟩
      · subst hnil; simp [hj] at hp
      · have hne : pre ≠ [] := by intro e; subst e; simp at hc1
        have hlen : 0 < pre.length := List.length_pos.2 hne
        rw [hj, Nat.add_zero] at hcr
        have hg : (pre ++ r).getD (pre.length - 1) 0 = c := by
          rw [List.getLast?_eq_getElem?] at hc1
          simp only [List.getD_eq_getElem?_getD]
          rw [List.getElem?_append_left (by omega), hc1]
          rfl
        rw [hg] at hcr
        subst hcr
        exact absurd hc2 (by decide)
    rw [if_neg hb, hj]
    simp [AllocLine, stripCR]
  · have hjpos : 0 < termIdx r := Nat.pos_of_ne_zero hj
    have hg : (pre ++ r).getD (pre.length + termIdx r - 1) 0 = r[termIdx r - 1] := by
      simp only [List.getD_eq_getElem?_getD]
      have e : pre.length + termIdx r - 1 = pre.length + (termIdx r - 1) := by omega
      rw [e, List.getElem?_append_right (by omega)]
      have e2 : pre.length + (termIdx r - 1) - pre.length = termIdx r - 1 := by omega
      rw [e2, List.getElem?_eq_getElem (by omega)]
      rfl
    have hlast : (r.take (termIdx r)).getLast? = some r[termIdx r - 1] := by
      rw [List.getLast?_eq_getElem?, List.length_take, Nat.min_eq_left hle,
        List.getElem?_take_of_lt (by omega), List.getElem?_eq_getElem (by omega)]
    rw [hg]
    by_cases hcr : r[termIdx r - 1] = CH_CR
    · have hc : 0 < pre.length + termIdx r ∧ r[termIdx r - 1] = CH_CR := ⟨by omega, hcr⟩
      rw [if_pos hc]
      have e : (pre.length + termIdx r + 2 ^ 32 - pre.length - 1) % 2 ^ 32 = termIdx r - 1 := by
        omega
      refine ⟨?_, by omega⟩
      rw [e]
      unfold stripCR AllocLine
      rw [hlast, hcr, if_pos rfl, List.dropLast_eq_take, List.length_take, Nat.min_eq_left hle,
        List.take_take, Nat.min_eq_left (by omega)]
    · have hc : ¬ (0 < pre.length + termIdx r ∧ r[termIdx r - 1] = CH_CR) := fun h => hcr h.2
      rw [if_neg hc]
      have e : (pre.length + termIdx r + 2 ^ 32 - pre.length - 0) % 2 ^ 32 = termIdx r := by
        omega
      refine ⟨?_, by omega⟩
      rw [e]
      unfold stripCR AllocLine
      rw [hlast, if_neg (by simpa using hcr)]

theorem ParseLinesLoop_eq (pFC : FILECOMPARE) (psz : List Nat) (fLast : Bool)
    (hdw : psz.length < 2 ^ 32) (fuel : Nat) :
    ∀ (pre r : List Nat) (lineno : Nat) (ichNext : Option Nat) (list : List NODE),
      psz = pre ++ r → r.length ≤ fuel →
      (pre = [] ∨ ∃ c, pre.getLast? = some c ∧ isLineEnd c = true) →
      ParseLinesLoop pFC psz psz.length fLast fuel pre.length lineno ichNext list
        = some (if r = [] then ichNext
                else some (if endsWithLineEnd r then psz.length - 1 else psz.length),
            list ++ lineNodes pFC lineno
              ((if endsWithLineEnd r || fLast || (pre.isEmpty && !(r.any isLineEnd)) then
                  segments isLineEnd r
                else (segments isLineEnd r).dropLast).map stripCR)) := by
  induction fuel with
  | zero =>
    intro pre r lineno ichNext list hp hr _
    have : r = [] := List.length_eq_zero.1 (by omega)
    subst this
    rw [ParseLinesLoop_done _ _ _ _ _ _ _ _ _ (by simp [hp])]
    simp [segments, endsWithLineEnd, lineNodes]
  | succ fuel ih =>
    intro pre r lineno ichNext list hp hr hpre
    by_cases hnil : r = []
    · subst hnil
      rw [ParseLinesLoop_done _ _ _ _ _ _ _ _ _ (by simp [hp])]
      simp [segments, endsWithLineEnd, lineNodes]
    · have hrpos : 0 < r.length := List.length_pos.2 hnil
      have hlen : psz.length = pre.length + r.length := by rw [hp, List.length_append]
      have hlt : pre.length < psz.length := by omega
      have hdrop : psz.drop pre.length = r := by rw [hp]; simp
      have hfind := FindNextLine_eq psz pre.length (by omega)
      rw [hdrop] at hfind
      have hsub : psz.length - pre.length = r.length := by omega
      rw [hsub] at hfind
      have hcn := cchNode_eq pre r (by rw [← hp]; exact hdw) hpre
      rw [← hp] at hcn
      have hjle := termIdx_le r
      unfold ParseLinesLoop
      rw [if_pos hlt, hfind]
      simp only [hdrop, if_neg hnil]
      by_cases hj : termIdx r < r.length
      · -- a line end was found
        have hany : r.any isLineEnd = true := by rw [any_isLineEnd_eq]; simpa using hj
        simp only [decide_eq_true hj, Bool.true_or, if_true]
        rw [hcn.1]
        have hp2 : psz = (pre ++ r.take (termIdx r + 1)) ++ r.drop (termIdx r + 1) := by
          rw [List.append_assoc, List.take_append_drop]; exact hp
        have hl2 : (pre ++ r.take (termIdx r + 1)).length = pre.length + termIdx r + 1 := by
          rw [List.length_append, List.length_take, Nat.min_eq_left (by omega)]; omega
        have hlast : (pre ++ r.take (termIdx r + 1)).getLast? = some r[termIdx r] := by
          rw [List.getLast?_eq_getElem?, hl2, List.getElem?_append_right (by omega)]
          have e : pre.length + termIdx r + 1 - 1 - pre.length = termIdx r := by omega
          rw [e, List.getElem?_take_of_lt (by omega), List.getElem?_eq_getElem hj]
        have hne2 : (pre ++ r.take (termIdx r + 1)).isEmpty = false := by
          cases hx : pre ++ r.take (termIdx r + 1) with
          | nil => rw [hx] at hl2; simp at hl2
          | cons a b => rfl
        have hrec := ih (pre ++ r.take (termIdx r + 1)) (r.drop (termIdx r + 1)) (lineno + 1)
          (some (pre.length + termIdx r))
          (list ++ [ConvertNode pFC (AllocNode (stripCR (r.take (termIdx r))) lineno)])
          hp2 (by rw [List.length_drop]; omega)
          (Or.inr ⟨_, hlast, termIdx_getElem r hj⟩)
        rw [hl2] at hrec
        rw [hrec, (segments_eq r hnil).1 hj, ← endsWithLineEnd_drop r hj, hany, hne2]
        simp only [Bool.not_true, Bool.and_false, Bool.or_false, Bool.false_and]
        apply congrArg
        apply Prod.ext
        · show (if r.drop (termIdx r + 1) = [] then some (pre.length + termIdx r)
              else some (if endsWithLineEnd r then psz.length - 1 else psz.length))
            = (some (if endsWithLineEnd r then psz.length - 1 else psz.length) : Option Nat)
          by_cases hd : r.drop (termIdx r + 1) = []
          · rw [if_pos hd]
            have hl : r.length = termIdx r + 1 := by
              have := congrArg List.length hd
              rw [List.length_drop, List.length_nil] at this
              omega
            have he : endsWithLineEnd r = true := by
              rw [endsWithLineEnd_drop r hj, hd]; rfl
            rw [he, if_pos rfl]
            congr 1
            omega
          · rw [if_neg hd]
        · simp only []
          by_cases hcond : (endsWithLineEnd r || fLast) = true
          · rw [if_pos hcond, if_pos hcond]
            simp [lineNodes]
          · rw [if_neg hcond, if_neg hcond]
            have hd : r.drop (termIdx r + 1) ≠ [] := by
              intro hd
              apply hcond
              rw [endsWithLineEnd_drop r hj, hd]; rfl
            rw [List.dropLast_cons_of_ne_nil (segments_ne_nil _ hd)]
            simp [lineNodes]
      · -- no line end up to the end of the view
        have hjeq : termIdx r = r.length := by omega
        have hany : r.any isLineEnd = false := by rw [any_isLineEnd_eq]; simpa using hj
        have hends := endsWithLineEnd_of_no_end r hnil hjeq
        have hnext : pre.length + termIdx r = psz.length := by omega
        simp only [decide_eq_false hj, Bool.false_or, hnext, beq_self_eq_true, Bool.true_and]
        rw [(segments_eq r hnil).2 hjeq, hends, hany]
        simp only [Bool.false_or, Bool.not_false, Bool.and_true, Bool.false_eq_true, if_false]
        have hempty : (pre.length == 0) = pre.isEmpty := by
          cases pre <;> simp
        rw [hempty]
        by_cases hcond : (fLast || pre.isEmpty) = true
        · rw [if_pos hcond, if_pos hcond]
          rw [hnext] at hcn
          rw [hcn.1, hjeq, List.take_length,
            ParseLinesLoop_done _ _ _ _ _ _ _ _ _ (by omega)]
          simp [lineNodes]
        · rw [if_neg hcond, if_neg hcond]
          simp [lineNodes]

theorem div_sub_le (sz len ib : Nat) (hsz : 0 < sz) :
    (sz * len - ib) / sz ≤ len - ib / sz := by
  have h1 : ib / sz * sz ≤ ib := Nat.div_mul_le_self ib sz
  have h2 : sz * len - ib ≤ sz * (len - ib / sz) := by
    rw [Nat.mul_sub, Nat.mul_comm sz (ib / sz)]
    omega
  calc (sz * len - ib) / sz ≤ sz * (len - ib / sz) / sz := Nat.div_le_div_right h2
    _ = len - ib / sz := Nat.mul_div_cancel_left _ hsz

theorem viewText_length (sizeofTCHAR maxView : Nat) (file : List Nat) (ib : Nat)
    (hsz : 0 < sizeofTCHAR) :
    (viewText sizeofTCHAR maxView file ib).length
      = viewSize sizeofTCHAR maxView file ib / sizeofTCHAR := by
  unfold viewText
  rw [List.length_take, List.length_drop]
  apply Nat.min_eq_left
  have h1 : viewSize sizeofTCHAR maxView file ib ≤ sizeofTCHAR * file.length - ib := by
    unfold viewSize
    exact le_trans (Nat.mod_le _ _) (Nat.min_le_left _ _)
  exact le_trans (Nat.div_le_div_right h1) (div_sub_le _ _ _ hsz)

theorem viewText_ne_nil (sizeofTCHAR maxView : Nat) (file : List Nat) (ib : Nat)
    (hsz : 0 < sizeofTCHAR) (hib : sizeofTCHAR ∣ ib) (hlt : ib < sizeofTCHAR * file.length)
    (hmv : sizeofTCHAR ≤ maxView) (hdw : maxView < 2 ^ 32) :
    viewText sizeofTCHAR maxView file ib ≠ [] := by
  intro he
  have hl := viewText_length sizeofTCHAR maxView file ib hsz
  rw [he, List.length_nil] at hl
  have hge : sizeofTCHAR ≤ viewSize sizeofTCHAR maxView file ib := by
    unfold viewSize
    rw [Nat.mod_eq_of_lt (lt_of_le_of_lt (Nat.min_le_right _ _) hdw)]
    apply Nat.le_min.2
    refine ⟨?_, hmv⟩
    obtain ⟨q, hq⟩ := hib
    subst hq
    have : q < file.length := Nat.lt_of_mul_lt_mul_left hlt
    rw [← Nat.mul_sub]
    exact Nat.le_mul_of_pos_right _ (by omega)
  have := Nat.div_pos hge hsz
  omega

/-- The result of `ParseLines` in closed form, for an open mapping with the cursor
inside the file on a character boundary: the lines of the view are appended,
numbered from 1, the cursor moves by twice the index of the last line end of the
view (or twice the length of the view when it does not end with one), and the
end-of-file marker is appended when the cursor is then at or past the size. -/
theorem ParseLines_eq (pFC : FILECOMPARE) (sizeofTCHAR maxView : Nat) (file : List Nat)
    (ib : Nat) (list : List NODE)
    (hsz : 0 < sizeofTCHAR) (hib : sizeofTCHAR ∣ ib) (hlt : ib < sizeofTCHAR * file.length)
    (hmv : sizeofTCHAR ≤ maxView) (hdw : maxView < 2 ^ 32) :
    ParseLines pFC sizeofTCHAR maxView file { hMapping := true, ib := ib, list := list } =
      if ib + (if endsWithLineEnd (viewText sizeofTCHAR maxView file ib) then
                  (viewText sizeofTCHAR maxView file ib).length - 1
                else (viewText sizeofTCHAR maxView file ib).length) * 2
            < sizeofTCHAR * file.length then
        some (FCRET_IDENTICAL,
          { hMapping := true,
            ib := ib + (if endsWithLineEnd (viewText sizeofTCHAR maxView file ib) then
                  (viewText sizeofTCHAR maxView file ib).length - 1
                else (viewText sizeofTCHAR maxView file ib).length) * 2,
            list := list ++ lineNodes pFC 1
              ((windowSegments (viewIsLast sizeofTCHAR maxView file ib)
                (viewText sizeofTCHAR maxView file ib)).map stripCR) })
      else
        some (FCRET_NO_MORE_DATA,
          { hMapping := true,
            ib := ib + (if endsWithLineEnd (viewText sizeofTCHAR maxView file ib) then
                  (viewText sizeofTCHAR maxView file ib).length - 1
                else (viewText sizeofTCHAR maxView file ib).length) * 2,
            list := list ++ lineNodes pFC 1
              ((windowSegments (viewIsLast sizeofTCHAR maxView file ib)
                (viewText sizeofTCHAR maxView file ib)).map stripCR) ++ [AllocEOFNode] }) := by
  have hne := viewText_ne_nil sizeofTCHAR maxView file ib hsz hib hlt hmv hdw
  have hl := viewText_length sizeofTCHAR maxView file ib hsz
  have hvs : viewSize sizeofTCHAR maxView file ib < 2 ^ 32 := by
    unfold viewSize; exact Nat.mod_lt _ (by norm_num)
  have hlen32 : (viewText sizeofTCHAR maxView file ib).length < 2 ^ 32 := by
    rw [hl]; exact lt_of_le_of_lt (Nat.div_le_self _ _) hvs
  have hloop := ParseLinesLoop_eq pFC (viewText sizeofTCHAR maxView file ib)
    (viewIsLast sizeofTCHAR maxView file ib) hlen32
    (viewText sizeofTCHAR maxView file ib).length [] (viewText sizeofTCHAR maxView file ib)
    1 none list rfl (le_refl _) (Or.inl rfl)
  rw [if_neg hne] at hloop
  simp only [List.length_nil, List.isEmpty_nil, Bool.true_and] at hloop
  have hge : ¬ ib ≥ sizeofTCHAR * file.length := by omega
  unfold ParseLines
  simp only [Bool.not_true, Bool.false_eq_true, if_false, hge]
  have e1 : min (sizeofTCHAR * file.length - ib) maxView % 2 ^ 32
      = viewSize sizeofTCHAR maxView file ib := rfl
  rw [e1]
  have e2 : (file.drop (ib / sizeofTCHAR)).take (viewSize sizeofTCHAR maxView file ib / sizeofTCHAR)
      = viewText sizeofTCHAR maxView file ib := rfl
  rw [e2, ← hl]
  have e3 : decide (ib + viewSize sizeofTCHAR maxView file ib ≥ sizeofTCHAR * file.length)
      = viewIsLast sizeofTCHAR maxView file ib := rfl
  rw [e3, hloop]
  simp only [windowSegments]

/-! ## The lines that ParseLines appends -/

theorem no_lineEnd_of_termIdx (r : List Nat) (h : termIdx r = r.length) :
    ∀ c ∈ r, isLineEnd c = false := by
  have ha : r.any isLineEnd = false := by
    rw [any_isLineEnd_eq]; simp [h]
  intro c hc
  have := List.any_eq_false.1 ha c hc
  simpa using this

theorem segments_tail (n : Nat) :
    ∀ r : List Nat, r.length ≤ n → endsWithLineEnd r = false →
      ∃ init tail, segments isLineEnd r = init ++ [tail] ∧ tail ≠ [] ∧
        (∀ c ∈ tail, isLineEnd c = false) ∧ tail <:+ r := by
  induction n with
  | zero =>
    intro r hr hend
    have : r = [] := List.length_eq_zero.1 (by omega)
    subst this
    simp [endsWithLineEnd] at hend
  | succ n ih =>
    intro r hr hend
    have hnil : r ≠ [] := by
      intro e; subst e; simp [endsWithLineEnd] at hend
    by_cases hj : termIdx r < r.length
    · have hend2 : endsWithLineEnd (r.drop (termIdx r + 1)) = false := by
        rw [← endsWithLineEnd_drop r hj]; exact hend
      obtain ⟨init, tail, h1, h2, h3, h4⟩ := ih (r.drop (termIdx r + 1))
        (by rw [List.length_drop]; omega) hend2
      refine ⟨r.take (termIdx r) :: init, tail, ?_, h2, h3, ?_⟩
      · rw [(segments_eq r hnil).1 hj, h1, List.cons_append]
      · exact List.IsSuffix.trans h4 (List.drop_suffix _ _)
    · have hjeq : termIdx r = r.length := by
        have := termIdx_le r
        omega
      exact ⟨[], r, by rw [(segments_eq r hnil).2 hjeq]; rfl, hnil,
        no_lineEnd_of_termIdx r hjeq, List.suffix_refl r⟩

/-- C18 at a failing input: the wide file `a\n` (four bytes), with views of 64 MB.
The first call of `ParseLines` cuts the line `a`, moves the cursor to twice the
index of the line end, byte 2 of 4, and returns `FCRET_IDENTICAL` without an
end-of-file marker; every further call maps the view `\n` at byte 2, appends an
empty line and leaves the cursor at byte 2.  No call appends the end-of-file
marker.  The narrow file `\n` behaves the same way from byte 0. -/
theorem ParseLines_never_reaches_eof (pFC : FILECOMPARE) (list : List NODE) :
    ParseLines pFC 2 67108864 [97, 10] { hMapping := true, ib := 0, list := list }
      = some (FCRET_IDENTICAL,
          { hMapping := true, ib := 2,
            list := list ++ [ConvertNode pFC (AllocNode [97] 1)] }) ∧
    ParseLines pFC 2 67108864 [97, 10] { hMapping := true, ib := 2, list := list }
      = some (FCRET_IDENTICAL,
          { hMapping := true, ib := 2,
            list := list ++ [ConvertNode pFC (AllocNode [] 1)] }) ∧
    ParseLines pFC 1 67108864 [10] { hMapping := true, ib := 0, list := list }
      = some (FCRET_IDENTICAL,
          { hMapping := true, ib := 0,
            list := list ++ [ConvertNode pFC (AllocNode [] 1)] }) := by
  refine ⟨?_, ?_, ?_⟩
  · rw [ParseLines_eq pFC 2 67108864 [97, 10] 0 list (by decide) (by decide) (by decide)
      (by decide) (by decide)]
    have hv : viewText 2 67108864 [97, 10] 0 = [97, 10] := by decide
    have hl : viewIsLast 2 67108864 [97, 10] 0 = true := by decide
    rw [hv, hl]
    have hs : (windowSegments true [97, 10]).map stripCR = [[97]] := by decide
    rw [hs]
    simp [endsWithLineEnd, isLineEnd, CH_LF, lineNodes]
  · rw [ParseLines_eq pFC 2 67108864 [97, 10] 2 list (by decide) (by decide) (by decide)
      (by decide) (by decide)]
    have hv : viewText 2 67108864 [97, 10] 2 = [10] := by decide
    have hl : viewIsLast 2 67108864 [97, 10] 2 = true := by decide
    rw [hv, hl]
    have hs : (windowSegments true [10]).map stripCR = [[]] := by decide
    rw [hs]
    simp [endsWithLineEnd, isLineEnd, CH_LF, lineNodes]
  · rw [ParseLines_eq pFC 1 67108864 [10] 0 list (by decide) (by decide) (by decide)
      (by decide) (by decide)]
    have hv : viewText 1 67108864 [10] 0 = [10] := by decide
    have hl : viewIsLast 1 67108864 [10] 0 = true := by decide
    rw [hv, hl]
    have hs : (windowSegments true [10]).map stripCR = [[]] := by decide
    rw [hs]
    simp [endsWithLineEnd, isLineEnd, CH_LF, lineNodes]

theorem viewText_single (sizeofTCHAR maxView : Nat) (file : List Nat) (hsz : 0 < sizeofTCHAR)
    (hfit : sizeofTCHAR * file.length ≤ maxView) (hdw : maxView < 2 ^ 32) :
    viewText sizeofTCHAR maxView file 0 = file ∧
    viewIsLast sizeofTCHAR maxView file 0 = true := by
  have hv : viewSize sizeofTCHAR maxView file 0 = sizeofTCHAR * file.length := by
    unfold viewSize
    rw [Nat.sub_zero, Nat.min_eq_left hfit, Nat.mod_eq_of_lt (by omega)]
  constructor
  · unfold viewText
    rw [hv, Nat.zero_div, List.drop_zero, Nat.mul_div_cancel_left _ hsz, List.take_length]
  · unfold viewIsLast
    rw [hv]
    simp

/-- C16 as stated fails on a text that holds the character `'\0'`: the narrow file
`a\0b\n` has one segment ended by a newline, and `ParseLines` cuts two lines, `a`
and `b`. -/
theorem ParseLines_cuts_at_nul :
    segments (fun c => c == CH_LF) [97, 0, 98, 10] = [[97, 0, 98]] ∧
    ParseLines { dwFlags := 0, n := 100 } 1 67108864 [97, 0, 98, 10]
        { hMapping := true, ib := 0, list := [] }
      = some (FCRET_NO_MORE_DATA,
          { hMapping := true, ib := 6,
            list := lineNodes { dwFlags := 0, n := 100 } 1 [[97], [98]] ++ [AllocEOFNode] }) ∧
    ¬ ∃ ret st eof, ParseLines { dwFlags := 0, n := 100 } 1 67108864 [97, 0, 98, 10]
          { hMapping := true, ib := 0, list := [] } = some (ret, st) ∧
        (eof = [] ∨ eof = [AllocEOFNode]) ∧
        st.list = lineNodes { dwFlags := 0, n := 100 } 1
          ((segments (fun c => c == CH_LF) [97, 0, 98, 10]).map stripCR) ++ eof := by
  have h2 : ParseLines { dwFlags := 0, n := 100 } 1 67108864 [97, 0, 98, 10]
        { hMapping := true, ib := 0, list := [] }
      = some (FCRET_NO_MORE_DATA,
          { hMapping := true, ib := 6,
            list := lineNodes { dwFlags := 0, n := 100 } 1 [[97], [98]] ++ [AllocEOFNode] }) := by
    decide
  refine ⟨by decide, h2, ?_⟩
  rintro ⟨ret, st, eof, hr, heof, hl⟩
  rw [h2] at hr
  simp only [Option.some.injEq, Prod.mk.injEq] at hr
  rw [← hr.2] at hl
  have hlen := congrArg List.length hl
  rcases heof with e | e <;> subst e <;> revert hlen <;> decide

/-- C16, amended: for a file that fits one view, `ParseLines` appends one line per
segment of the contents ended by `'\n'` or by `'\0'` (and one for what follows
the last of them, when it is not empty), in order, numbered 1, 2, 3, ..., the text
of a line being the segment without one carriage return at its end; the
end-of-file marker may follow.  At every position `ich` at which a line starts
(the start of the view or the position after a line end) the length computed,
`ichNext - ich - bCR`, does not go below zero. -/
theorem ParseLines_single_view (pFC : FILECOMPARE) (sizeofTCHAR maxView : Nat)
    (file : List Nat) (list : List NODE)
    (hsz : 0 < sizeofTCHAR) (hne : file ≠ [])
    (hfit : sizeofTCHAR * file.length ≤ maxView) (hdw : maxView < 2 ^ 32) :
    (∃ ret st eof, ParseLines pFC sizeofTCHAR maxView file
          { hMapping := true, ib := 0, list := list } = some (ret, st) ∧
        (eof = [] ∨ eof = [AllocEOFNode]) ∧
        st.list = list ++ lineNodes pFC 1 ((segments isLineEnd file).map stripCR) ++ eof) ∧
    (∀ ich, ich ≤ file.length → (ich = 0 ∨ isLineEnd (file.getD (ich - 1) 0) = true) →
      ich + (if 0 < (FindNextLine file ich file.length).2 ∧
                file.getD ((FindNextLine file ich file.length).2 - 1) 0 = CH_CR then 1 else 0)
        ≤ (FindNextLine file ich file.length).2) := by
  have hpos : 0 < file.length := List.length_pos.2 hne
  have hmv : sizeofTCHAR ≤ maxView :=
    le_trans (Nat.le_mul_of_pos_right _ hpos) hfit
  have hlt : 0 < sizeofTCHAR * file.length := Nat.mul_pos hsz hpos
  obtain ⟨hv, hl⟩ := viewText_single sizeofTCHAR maxView file hsz hfit hdw
  constructor
  · rw [ParseLines_eq pFC sizeofTCHAR maxView file 0 list hsz (dvd_zero _) hlt hmv hdw, hv, hl]
    have hw : windowSegments true file = segments isLineEnd file := by
      simp [windowSegments]
    rw [hw]
    generalize (if endsWithLineEnd file = true then file.length - 1 else file.length) = k
    by_cases hk : 0 + k * 2 < sizeofTCHAR * file.length
    · rw [if_pos hk]
      exact ⟨_, _, [], rfl, Or.inl rfl, by simp⟩
    · rw [if_neg hk]
      exact ⟨_, _, [AllocEOFNode], rfl, Or.inr rfl, rfl⟩
  · intro ich hich hstart
    have hsplit : file = file.take ich ++ file.drop ich := (List.take_append_drop _ _).symm
    have hlen : (file.take ich).length = ich := by
      rw [List.length_take, Nat.min_eq_left hich]
    have hpre : file.take ich = [] ∨
        ∃ c, (file.take ich).getLast? = some c ∧ isLineEnd c = true := by
      rcases hstart with h0 | hle
      · left; subst h0; rfl
      · by_cases h0 : ich = 0
        · left; subst h0; rfl
        · right
          refine ⟨file.getD (ich - 1) 0, ?_, hle⟩
          rw [List.getLast?_eq_getElem?, hlen, List.getElem?_take_of_lt (by omega)]
          simp only [List.getD_eq_getElem?_getD]
          rw [List.getElem?_eq_getElem (by omega)]
          rfl
    have hflen : file.length < 2 ^ 32 :=
      lt_of_le_of_lt (le_trans (Nat.le_mul_of_pos_left _ hsz) hfit) hdw
    have hcn := (cchNode_eq (file.take ich) (file.drop ich)
      (by rw [← hsplit]; exact hflen) hpre).2
    rw [← hsplit, hlen] at hcn
    rw [FindNextLine_eq file ich hich]
    exact hcn

/-- Witness of C16 (amended) at the narrow file `x\r\na\rb\n`: two lines, `x` and
`a\rb`. -/
theorem ParseLines_single_view_witness :
    (segments isLineEnd [120, 13, 10, 97, 13, 98, 10]).map stripCR = [[120], [97, 13, 98]] ∧
    ∃ ret st eof, ParseLines { dwFlags := 0, n := 100 } 1 67108864 [120, 13, 10, 97, 13, 98, 10]
          { hMapping := true, ib := 0, list := [] } = some (ret, st) ∧
        (eof = [] ∨ eof = [AllocEOFNode]) ∧
        st.list = [] ++ lineNodes { dwFlags := 0, n := 100 } 1
          ((segments isLineEnd [120, 13, 10, 97, 13, 98, 10]).map stripCR) ++ eof :=
  ⟨by decide,
   (ParseLines_single_view { dwFlags := 0, n := 100 } 1 67108864 [120, 13, 10, 97, 13, 98, 10] []
      (by decide) (by decide) (by decide) (by decide)).1⟩

/-- C17 as stated fails.  Narrow file `abcdef\n` with views of three bytes: the
first view `abc` is not the last one and ends without a line end, yet its tail
`abc` is appended as a line (it is the whole view).  Wide file `a\ncdef\n` with
views of eight bytes: the first view `a\ncd` is not the last one, its tail `cd`
is not appended, and the cursor is left at byte 8, the end of the view, not at
byte 4 where the tail starts. -/
theorem ParseLines_tail_of_view :
    viewText 1 3 [97, 98, 99, 100, 101, 102, 10] 0 = [97, 98, 99] ∧
    viewIsLast 1 3 [97, 98, 99, 100, 101, 102, 10] 0 = false ∧
    ParseLines { dwFlags := 0, n := 100 } 1 3 [97, 98, 99, 100, 101, 102, 10]
        { hMapping := true, ib := 0, list := [] }
      = some (FCRET_IDENTICAL,
          { hMapping := true, ib := 6,
            list := lineNodes { dwFlags := 0, n := 100 } 1 [[97, 98, 99]] }) ∧
    viewText 2 8 [97, 10, 99, 100, 101, 102, 10] 0 = [97, 10, 99, 100] ∧
    viewIsLast 2 8 [97, 10, 99, 100, 101, 102, 10] 0 = false ∧
    ParseLines { dwFlags := 0, n := 100 } 2 8 [97, 10, 99, 100, 101, 102, 10]
        { hMapping := true, ib := 0, list := [] }
      = some (FCRET_IDENTICAL,
          { hMapping := true, ib := 8,
            list := lineNodes { dwFlags := 0, n := 100 } 1 [[97]] }) := by
  refine ⟨by decide, by decide, by decide, by decide, by decide, by decide⟩

/-- C17, amended: when `ParseLines` processes a view that ends without a line end,
the segments of the view are the segments ended by a line end, `init`, and the
tail after the last line end, `tail`; the lines appended are those of `init`, and
the tail as one more line exactly when the view is the last one of the file or
holds no line end at all. -/
theorem ParseLines_tail (pFC : FILECOMPARE) (sizeofTCHAR maxView : Nat) (file : List Nat)
    (ib : Nat) (list : List NODE)
    (hsz : 0 < sizeofTCHAR) (hib : sizeofTCHAR ∣ ib) (hlt : ib < sizeofTCHAR * file.length)
    (hmv : sizeofTCHAR ≤ maxView) (hdw : maxView < 2 ^ 32)
    (hend : endsWithLineEnd (viewText sizeofTCHAR maxView file ib) = false) :
    ∃ ret st init tail eof,
      ParseLines pFC sizeofTCHAR maxView file { hMapping := true, ib := ib, list := list }
        = some (ret, st) ∧
      segments isLineEnd (viewText sizeofTCHAR maxView file ib) = init ++ [tail] ∧
      tail ≠ [] ∧ (∀ c ∈ tail, isLineEnd c = false) ∧
      tail <:+ viewText sizeofTCHAR maxView file ib ∧
      (eof = [] ∨ eof = [AllocEOFNode]) ∧
      st.list = list ++ lineNodes pFC 1
        ((if viewIsLast sizeofTCHAR maxView file ib = true ∨
              (viewText sizeofTCHAR maxView file ib).any isLineEnd = false then
            init ++ [tail]
          else init).map stripCR) ++ eof := by
  obtain ⟨init, tail, h1, h2, h3, h4⟩ :=
    segments_tail _ (viewText sizeofTCHAR maxView file ib) (le_refl _) hend
  have hw : windowSegments (viewIsLast sizeofTCHAR maxView file ib)
        (viewText sizeofTCHAR maxView file ib)
      = if viewIsLast sizeofTCHAR maxView file ib = true ∨
              (viewText sizeofTCHAR maxView file ib).any isLineEnd = false then
            init ++ [tail]
          else init := by
    unfold windowSegments
    rw [hend, h1]
    by_cases hc : viewIsLast sizeofTCHAR maxView file ib = true ∨
        (viewText sizeofTCHAR maxView file ib).any isLineEnd = false
    · rw [if_pos hc]
      rcases hc with hc | hc <;> simp [hc]
    · rw [if_neg hc]
      simp only [not_or, Bool.not_eq_true, Bool.not_eq_false] at hc
      simp [hc.1, hc.2]
  rw [ParseLines_eq pFC sizeofTCHAR maxView file ib list hsz hib hlt hmv hdw, hw]
  generalize (if endsWithLineEnd (viewText sizeofTCHAR maxView file ib) = true then
      (viewText sizeofTCHAR maxView file ib).length - 1
    else (viewText sizeofTCHAR maxView file ib).length) = k
  by_cases hk : ib + k * 2 < sizeofTCHAR * file.length
  · rw [if_pos hk]
    exact ⟨_, _, init, tail, [], rfl, h1, h2, h3, h4, Or.inl rfl, by simp⟩
  · rw [if_neg hk]
    exact ⟨_, _, init, tail, [AllocEOFNode], rfl, h1, h2, h3, h4, Or.inr rfl, rfl⟩

/-- Witness of C17 (amended) at the wide file `a\ncdef\n` with views of eight
bytes: the first view is `a\ncd`, not the last one, and ends without a line end. -/
theorem ParseLines_tail_witness :
    ∃ ret st init tail eof,
      ParseLines { dwFlags := 0, n := 100 } 2 8 [97, 10, 99, 100, 101, 102, 10]
          { hMapping := true, ib := 0, list := [] } = some (ret, st) ∧
      segments isLineEnd (viewText 2 8 [97, 10, 99, 100, 101, 102, 10] 0) = init ++ [tail] ∧
      tail ≠ [] ∧ (∀ c ∈ tail, isLineEnd c = false) ∧
      tail <:+ viewText 2 8 [97, 10, 99, 100, 101, 102, 10] 0 ∧
      (eof = [] ∨ eof = [AllocEOFNode]) ∧
      st.list = [] ++ lineNodes { dwFlags := 0, n := 100 } 1
        ((if viewIsLast 2 8 [97, 10, 99, 100, 101, 102, 10] 0 = true ∨
              (viewText 2 8 [97, 10, 99, 100, 101, 102, 10] 0).any isLineEnd = false then
            init ++ [tail]
          else init).map stripCR) ++ eof :=
  ParseLines_tail { dwFlags := 0, n := 100 } 2 8 [97, 10, 99, 100, 101, 102, 10] 0 []
    (by decide) (by decide) (by decide) (by decide) (by decide) (by decide)

/-! ## Printing a block of lines -/

theorem runFrom_prefix (endp : Option Nat) (b : Nat) (suffix : List NODE) :
    runFrom endp b suffix <+: suffix := by
  induction suffix generalizing b with
  | nil => simp [runFrom]
  | cons node rest ih =>
    unfold runFrom
    split
    · exact List.nil_prefix
    · split
      · exact List.nil_prefix
      · exact (List.prefix_cons_inj node).2 (ih _)

theorem ShowDiffLoop_eq (pFC : FILECOMPARE) (list : List NODE) (endp : Option Nat) (fuel : Nat) :
    ∀ (b : Nat) (st : ShowDiffState), b ≤ list.length → list.length - b < fuel →
      ShowDiffLoop pFC list endp fuel (if b < list.length then some b else none) st
        = some
            { first := if st.first.isSome then st.first
                       else if runFrom endp b (list.drop b) = [] then none else some b,
              last := if runFrom endp b (list.drop b) = [] then st.last
                      else some (b + (runFrom endp b (list.drop b)).length - 1),
              out := if !(hasFlag pFC.dwFlags FLAG_A) then
                       st.out ++ (runFrom endp b (list.drop b)).map
                          (fun node => PrintLine pFC node.lineno node.pszLine)
                     else st.out } := by
  induction fuel with
  | zero => intro b st _ h; omega
  | succ fuel ih =>
    intro b st hb hfuel
    unfold ShowDiffLoop
    by_cases hlt : b < list.length
    · have hd : list.drop b = list[b] :: list.drop (b + 1) := List.drop_eq_getElem_cons hlt
      rw [if_pos hlt, hd]
      by_cases hend : some b = endp
      · rw [if_pos hend]
        cases st with
        | mk first last out => cases first <;> simp [runFrom, hend]
      · rw [if_neg hend]
        simp only [List.getElem?_eq_getElem hlt]
        by_cases heof : IsEOFNode list[b] = true
        · rw [if_pos heof]
          cases st with
          | mk first last out => cases first <;> simp [runFrom, hend, heof]
        · rw [if_neg heof]
          have hn : list_next list b = (if b + 1 < list.length then some (b + 1) else none) := rfl
          rw [hn, ih (b + 1) _ (by omega) (by omega)]
          simp only [runFrom, if_neg hend, heof, if_false, Bool.false_eq_true]
          congr 1
          cases st with
          | mk first last out =>
            cases hA : hasFlag pFC.dwFlags FLAG_A <;> cases first <;>
              by_cases hr : runFrom endp (b + 1) (list.drop (b + 1)) = [] <;>
              simp [hr]
    · have hbe : b = list.length := by omega
      have hd : list.drop b = [] := List.drop_eq_nil_of_le (by omega)
      rw [if_neg hlt, hd]
      cases st with
      | mk first last out =>
        cases first <;> by_cases hend : (none : Option Nat) = endp <;> simp [runFrom, hend]

theorem getElem?_of_drop_eq (list run t : List NODE) (b : Nat) (h : run ++ t = list.drop b)
    (j : Nat) : list[b + j]? = (run ++ t)[j]? := by
  rw [h, List.getElem?_drop]

theorem length_of_drop_eq (list run t : List NODE) (b : Nat) (hb : b ≤ list.length)
    (h : run ++ t = list.drop b) : list.length = b + run.length + t.length := by
  have := congrArg List.length h
  rw [List.length_append, List.length_drop] at this
  omega

/-- C20, amended: `ShowDiff` prints the header of the side, then, for the lines it
renders (from one entry before `begin` when there is one, up to `end`, the first
end-of-file marker or the end of the list): in full mode every line in order, each
through `PrintLine`, which puts the line number first under `FLAG_N`; in
abbreviated mode, for a run that is not of exactly one line, the lines themselves
when there are at most three of them, and the first line, the marker of
`PrintDots` and the last line when there are four or more. -/
theorem ShowDiff_spec (pFC : FILECOMPARE) (i : Nat) (list : List NODE) (begin endp : Option Nat)
    (hb : ∀ b, begin = some b → b < list.length)
    (hk : hasFlag pFC.dwFlags FLAG_A = true → (renderedRun list begin endp).length ≠ 1) :
    ShowDiff pFC i list begin endp = some (OUT.caption i ::
      (if hasFlag pFC.dwFlags FLAG_A then
        abbreviate ((renderedRun list begin endp).map
          fun node => PrintLine pFC node.lineno node.pszLine)
      else
        (renderedRun list begin endp).map
          fun node => PrintLine pFC node.lineno node.pszLine)) := by
  cases begin with
  | none =>
    have hl : ShowDiffLoop pFC list endp (list.length + 1) none
        { first := none, last := none, out := [OUT.caption i] }
        = some { first := none, last := none, out := [OUT.caption i] } := by
      unfold ShowDiffLoop
      by_cases he : (none : Option Nat) = endp <;> simp [he]
    unfold ShowDiff
    simp only [hl, renderedRun]
    cases hasFlag pFC.dwFlags FLAG_A <;> simp [abbreviate]
  | some b =>
    have hblt := hb b rfl
    have hb1 : (if (list_prev list b).isSome then list_prev list b else some b) = some (b - 1) := by
      unfold list_prev
      by_cases h0 : b = 0
      · subst h0; simp
      · simp [h0]
    have hlt1 : b - 1 < list.length := by omega
    have hloop := ShowDiffLoop_eq pFC list endp (list.length + 1) (b - 1)
      { first := none, last := none, out := [OUT.caption i] } (by omega) (by omega)
    rw [if_pos hlt1] at hloop
    unfold ShowDiff
    simp only [hb1, hloop, renderedRun]
    simp only [renderedRun] at hk
    obtain ⟨t, ht⟩ := runFrom_prefix endp (b - 1) (list.drop (b - 1))
    have hg := getElem?_of_drop_eq list _ t (b - 1) ht
    have hlen := length_of_drop_eq list _ t (b - 1) (by omega) ht
    cases hA : hasFlag pFC.dwFlags FLAG_A with
    | false => simp
    | true =>
      have hk1 := hk hA
      rcases hrun : runFrom endp (b - 1) (list.drop (b - 1)) with
        _ | ⟨n1, _ | ⟨n2, _ | ⟨n3, _ | ⟨n4, rest⟩⟩⟩⟩
      · simp [abbreviate]
      · rw [hrun] at hk1; simp at hk1
      · rw [hrun] at hg hlen
        have g0 := hg 0
        have g1 := hg 1
        simp only [Nat.add_zero, List.cons_append, List.getElem?_cons_zero,
          List.getElem?_cons_succ, List.length_cons, List.length_nil] at g0 g1 hlen
        have hn : list_next list (b - 1) = some (b - 1 + 1) := by
          unfold list_next; rw [if_pos (by omega)]
        simp [abbreviate, g0, g1, hn]
      · rw [hrun] at hg hlen
        have g0 := hg 0
        have g1 := hg 1
        have g2 := hg 2
        simp only [Nat.add_zero, List.cons_append, List.getElem?_cons_zero,
          List.getElem?_cons_succ, List.length_cons, List.length_nil] at g0 g1 g2 hlen
        have hn : list_next list (b - 1) = some (b - 1 + 1) := by
          unfold list_next; rw [if_pos (by omega)]
        have hn2 : list_next list (b - 1 + 1) = some (b - 1 + 2) := by
          unfold list_next; rw [if_pos (by omega)]
        simp [abbreviate, g0, g1, g2, hn, hn2]
      · rw [hrun] at hg hlen
        have g0 := hg 0
        have g3 := hg (rest.length + 3)
        simp only [Nat.add_zero, List.cons_append, List.getElem?_cons_zero,
          List.getElem?_cons_succ, List.length_cons, List.length_nil] at g0 g3 hlen
        have hn : list_next list (b - 1) = some (b - 1 + 1) := by
          unfold list_next; rw [if_pos (by omega)]
        have hn2 : list_next list (b - 1 + 1) = some (b - 1 + 2) := by
          unfold list_next; rw [if_pos (by omega)]
        have hlast : (n4 :: (rest ++ t))[rest.length]? = some ((n4 :: rest).getLast
            (List.cons_ne_nil n4 rest)) := by
          rw [List.getLast_eq_getElem]
          have e : (n4 :: (rest ++ t)) = (n4 :: rest) ++ t := rfl
          rw [e, List.getElem?_append_left (by simp), List.getElem?_eq_getElem (by simp)]
          simp
        have e3 : b - 1 + (rest.length + 1 + 1 + 1 + 1) - 1 = b - 1 + (rest.length + 3) := by omega
        have hmap : ∀ (h : PrintLine pFC n4.lineno n4.pszLine ::
              List.map (fun node => PrintLine pFC node.lineno node.pszLine) rest ≠ []),
            (PrintLine pFC n4.lineno n4.pszLine ::
              List.map (fun node => PrintLine pFC node.lineno node.pszLine) rest).getLast h
            = PrintLine pFC ((n4 :: rest).getLast (List.cons_ne_nil n4 rest)).lineno
                ((n4 :: rest).getLast (List.cons_ne_nil n4 rest)).pszLine := by
          intro h
          have hm := List.getLast_map (fun node : NODE => PrintLine pFC node.lineno node.pszLine)
            (n4 :: rest) h
          exact hm
        simp [abbreviate, g0, hn, hn2, e3, g3, hlast, hmap]

/-- C20 as stated fails in abbreviated mode.  A run of exactly three lines (`a`,
`b`, `c`, the entries 0 to 2 of a list of four lines) is printed whole, with no
marker of `PrintDots`, where the claim has first line, ellipsis, last line.  A run
of exactly one line (the only line of a list) is printed as that line, the
marker, and the line again, where the claim has the line once. -/
theorem ShowDiff_abbreviated_short_runs :
    (renderedRun (lineList { dwFlags := FLAG_A, n := 100 } 1 [[97], [98], [99], [100]])
        (some 1) (some 3)).length = 3 ∧
    ShowDiff { dwFlags := FLAG_A, n := 100 } 0
        (lineList { dwFlags := FLAG_A, n := 100 } 1 [[97], [98], [99], [100]]) (some 1) (some 3)
      = some [OUT.caption 0, OUT.line none [97], OUT.line none [98], OUT.line none [99]] ∧
    ShowDiff { dwFlags := FLAG_A, n := 100 } 0
        (lineList { dwFlags := FLAG_A, n := 100 } 1 [[97], [98], [99], [100]]) (some 1) (some 3)
      ≠ some [OUT.caption 0, OUT.line none [97], OUT.dots, OUT.line none [99]] ∧
    (renderedRun (lineList { dwFlags := FLAG_A, n := 100 } 1 [[97]]) (some 0) none).length = 1 ∧
    ShowDiff { dwFlags := FLAG_A, n := 100 } 0
        (lineList { dwFlags := FLAG_A, n := 100 } 1 [[97]]) (some 0) none
      = some [OUT.caption 0, OUT.line none [97], OUT.dots, OUT.line none [97]] := by
  refine ⟨by decide, by decide, by decide, by decide, by decide⟩

/-- Witness of C20 (amended): the run of three lines `a`, `b`, `c` in abbreviated
mode. -/
theorem ShowDiff_spec_witness :
    ShowDiff { dwFlags := FLAG_A, n := 100 } 0
        (lineList { dwFlags := FLAG_A, n := 100 } 1 [[97], [98], [99], [100]]) (some 1) (some 3)
      = some (OUT.caption 0 ::
        (if hasFlag (FILECOMPARE.mk FLAG_A 100).dwFlags FLAG_A then
          abbreviate ((renderedRun
              (lineList { dwFlags := FLAG_A, n := 100 } 1 [[97], [98], [99], [100]])
              (some 1) (some 3)).map
            fun node => PrintLine { dwFlags := FLAG_A, n := 100 } node.lineno node.pszLine)
        else
          (renderedRun (lineList { dwFlags := FLAG_A, n := 100 } 1 [[97], [98], [99], [100]])
              (some 1) (some 3)).map
            fun node => PrintLine { dwFlags := FLAG_A, n := 100 } node.lineno node.pszLine)) :=
  ShowDiff_spec { dwFlags := FLAG_A, n := 100 } 0
    (lineList { dwFlags := FLAG_A, n := 100 } 1 [[97], [98], [99], [100]]) (some 1) (some 3)
    (fun b h => by cases h; decide) (fun _ => by decide)

/-! ## The text comparison of identical files -/

theorem CompareStringEqual_self (ig : Bool) (psz : List Nat) :
    CompareStringEqual ig (some psz) (some psz) = true := by
  cases ig <;> simp [CompareStringEqual]

theorem CompareNode_self_converted (pFC : FILECOMPARE) (line : List Nat) (lineno : Nat) :
    CompareNode pFC (ConvertNode pFC (AllocNode line lineno))
      (ConvertNode pFC (AllocNode line lineno)) = FCRET_IDENTICAL := by
  rcases hasFlag_cases pFC.dwFlags FLAG_T with hT | hT <;>
    rcases hasFlag_cases pFC.dwFlags FLAG_W with hW | hW <;>
    simp [CompareNode, ConvertNode, AllocNode, hT, hW, CompareStringEqual_self]

theorem CompareNode_self_eof (pFC : FILECOMPARE) :
    CompareNode pFC AllocEOFNode AllocEOFNode = FCRET_IDENTICAL := by
  rcases hasFlag_cases pFC.dwFlags FLAG_W with hW | hW <;>
    simp [CompareNode, AllocEOFNode, AllocNode, hW, CompareStringEqual_self]

theorem CompareNode_self_lineNodes (pFC : FILECOMPARE) (lines : List (List Nat)) (lineno : Nat) :
    ∀ node ∈ lineNodes pFC lineno lines, CompareNode pFC node node = FCRET_IDENTICAL := by
  induction lines generalizing lineno with
  | nil => simp [lineNodes]
  | cons l rest ih =>
    intro node hn
    simp only [lineNodes, List.mem_cons] at hn
    rcases hn with h | h
    · subst h; exact CompareNode_self_converted pFC l lineno
    · exact ih _ node h

theorem SkipIdenticalLoop_same (pFC : FILECOMPARE) (list : List NODE)
    (hself : ∀ node ∈ list, CompareNode pFC node node = FCRET_IDENTICAL) (fuel : Nat) :
    ∀ (p : Nat) (ret : Option FCRET), p < list.length → list.length - p < fuel →
      SkipIdenticalLoop pFC list list fuel (some p) (some p) ret
        = some (some FCRET_IDENTICAL, none, none) := by
  induction fuel with
  | zero => intro p ret _ h; omega
  | succ fuel ih =>
    intro p ret hp hfuel
    have hg : list[p]? = some list[p] := List.getElem?_eq_getElem hp
    have hs := hself list[p] (List.getElem_mem hp)
    unfold SkipIdenticalLoop
    simp only [hg, hs, bne_self_eq_false, Bool.false_eq_true, if_false]
    by_cases hn : p + 1 < list.length
    · simp only [list_next, if_pos hn]
      exact ih (p + 1) _ hn (by omega)
    · simp only [list_next, if_neg hn]
      have : fuel ≠ 0 := by omega
      obtain ⟨k, hk⟩ := Nat.exists_eq_succ_of_ne_zero this
      subst hk
      simp [SkipIdenticalLoop]

theorem TextCompareLoop_same (pFC : FILECOMPARE) (list : List NODE)
    (hself : ∀ node ∈ list, CompareNode pFC node node = FCRET_IDENTICAL) (fuel : Nat) :
    TextCompareLoop pFC (fuel + 1) list list false []
      = some (FCRET_IDENTICAL, [OUT.noDifference]) := by
  unfold TextCompareLoop
  cases hl : list with
  | nil => simp [list_head, Finalize]
  | cons a rest =>
    have hs := SkipIdenticalLoop_same pFC list hself (list.length + 1) 0 none
      (by rw [hl]; simp) (by omega)
    rw [hl, List.length_cons] at hs
    simp [list_head, SkipIdentical, hs, Finalize]

/-- C14: for every configuration `pFC`, every width of a character, every size of
a view that holds at least one character and fits a `DWORD`, and every file
content, `TextCompare` on two files with that same content returns
`FCRET_IDENTICAL` after printing that no difference was met, and prints no
caption of a block of lines: `ShowDiff` is never called. -/
theorem TextCompare_identical_files (pFC : FILECOMPARE) (sizeofTCHAR maxView : Nat)
    (file : List Nat) (hsz : 0 < sizeofTCHAR) (hmv : sizeofTCHAR ≤ maxView)
    (hdw : maxView < 2 ^ 32) :
    TextCompare pFC sizeofTCHAR maxView file file = some (FCRET_IDENTICAL, [OUT.noDifference]) ∧
    ∀ ret out, TextCompare pFC sizeofTCHAR maxView file file = some (ret, out) →
      ret = FCRET_IDENTICAL ∧ ∀ i, OUT.caption i ∉ out := by
  have main : TextCompare pFC sizeofTCHAR maxView file file
      = some (FCRET_IDENTICAL, [OUT.noDifference]) := by
    unfold TextCompare
    by_cases hnil : file = []
    · subst hnil
      simp [ParseLines, TextCompareLoop, list_head, Finalize]
    · have hpos : 0 < file.length := List.length_pos.2 hnil
      have hlt : 0 < sizeofTCHAR * file.length := Nat.mul_pos hsz hpos
      rw [ParseLines_eq pFC sizeofTCHAR maxView file 0 [] hsz (dvd_zero _) hlt hmv hdw]
      have hln := CompareNode_self_lineNodes pFC
        ((windowSegments (viewIsLast sizeofTCHAR maxView file 0)
          (viewText sizeofTCHAR maxView file 0)).map stripCR) 1
      generalize (if endsWithLineEnd (viewText sizeofTCHAR maxView file 0) = true then
          (viewText sizeofTCHAR maxView file 0).length - 1
        else (viewText sizeofTCHAR maxView file 0).length) = k
      by_cases hk : 0 + k * 2 < sizeofTCHAR * file.length
      · rw [if_pos hk]
        simp only [List.nil_append]
        rw [if_neg (by decide), if_neg (by decide)]
        exact TextCompareLoop_same pFC _ hln _
      · rw [if_neg hk]
        simp only [List.nil_append]
        rw [if_neg (by decide), if_neg (by decide)]
        apply TextCompareLoop_same
        intro node hn
        rcases List.mem_append.1 hn with h | h
        · exact hln node h
        · rw [List.mem_singleton] at h
          subst h
          exact CompareNode_self_eof pFC
  refine ⟨main, fun ret out h => ?_⟩
  rw [main] at h
  simp only [Option.some.injEq, Prod.mk.injEq] at h
  obtain ⟨h1, h2⟩ := h
  subst h1 h2
  exact ⟨rfl, fun i => by simp⟩

theorem TextCompare_identical_files_witness :
    TextCompare { dwFlags := 0, n := 100 } 1 67108864 [97, 10, 98, 10] [97, 10, 98, 10]
      = some (FCRET_IDENTICAL, [OUT.noDifference]) :=
  (TextCompare_identical_files { dwFlags := 0, n := 100 } 1 67108864 [97, 10, 98, 10]
    (by decide) (by decide) (by decide)).1

/-! ## The text comparison of the lines a, b, c with a, X, c -/

theorem Resync_abc (pFC : FILECOMPARE) (list0 list1 : List NODE) (hn : 2 ≤ pFC.n)
    (h00 : EqualAt pFC list0 list1 1 1 = false) (h11 : EqualAt pFC list0 list1 2 2 = true) :
    Resync pFC list0 list1 1 1 = some (FCRET_IDENTICAL, some 2, some 2) := by
  have hlt := EqualAt_lt pFC list0 list1 2 2 h11
  rcases Resync_cases pFC list0 list1 1 1 (by omega) (by omega) with
    ⟨j0, j1, hj0, hj1, he, hmin, hr⟩ | ⟨hall, _⟩
  · have hp := hmin 1 1 (by omega) (by omega) h11
    unfold penalty at hp
    have hcases : (j0 = 0 ∧ j1 = 0) ∨ (j0 = 1 ∧ j1 = 1) := by omega
    rcases hcases with ⟨e0, e1⟩ | ⟨e0, e1⟩
    · subst e0 e1
      rw [h00] at he
      exact absurd he (by simp)
    · subst e0 e1
      exact hr
  · have hp := hall 1 1 (by omega) (by omega) h11
    unfold penalty MAXLONG at hp
    omega

theorem DeleteNodes_head (a b c d : NODE) :
    DeleteNodes [a, b, c, d] (some 0) (some 3) = some [d] := by
  simp [DeleteNodes, DeleteNodesLoop]

theorem ShowDiff_three (pFC : FILECOMPARE) (i : Nat) (a b c e : NODE)
    (ha : IsEOFNode a = false) (hb : IsEOFNode b = false) (hc : IsEOFNode c = false) :
    ShowDiff pFC i [a, b, c, e] (some 1) (some 3)
      = some [OUT.caption i, PrintLine pFC a.lineno a.pszLine,
          PrintLine pFC b.lineno b.pszLine, PrintLine pFC c.lineno c.pszLine] := by
  cases hA : hasFlag pFC.dwFlags FLAG_A <;>
    simp [ShowDiff, ShowDiffLoop, list_prev, list_next, ha, hb, hc, hA]

/-- The loop of `TextCompare` on two lists of three lines and the end-of-file
marker, where the first and the third lines compare identical and no other pair
of the window does. -/
theorem TextCompareLoop_abc (pFC : FILECOMPARE) (a0 b0 c0 a1 x1 c1 e : NODE) (hn : 2 ≤ pFC.n)
    (haa : CompareNode pFC a0 a1 = FCRET_IDENTICAL)
    (hbx : CompareNode pFC b0 x1 = FCRET_DIFFERENT)
    (hcc : CompareNode pFC c0 c1 = FCRET_IDENTICAL)
    (hee : CompareNode pFC e e = FCRET_IDENTICAL)
    (ha0 : IsEOFNode a0 = false) (hb0 : IsEOFNode b0 = false) (hc0 : IsEOFNode c0 = false)
    (ha1 : IsEOFNode a1 = false) (hx1 : IsEOFNode x1 = false) (hc1 : IsEOFNode c1 = false)
    (fuel : Nat) :
    TextCompareLoop pFC (fuel + 2) [a0, b0, c0, e] [a1, x1, c1, e] false []
      = some (FCRET_DIFFERENT,
          [OUT.caption 0, PrintLine pFC a0.lineno a0.pszLine, PrintLine pFC b0.lineno b0.pszLine,
            PrintLine pFC c0.lineno c0.pszLine,
           OUT.caption 1, PrintLine pFC a1.lineno a1.pszLine, PrintLine pFC x1.lineno x1.pszLine,
            PrintLine pFC c1.lineno c1.pszLine,
           OUT.endOfDiff]) := by
  have hskip : SkipIdentical pFC [a0, b0, c0, e] [a1, x1, c1, e] (some 0) (some 0)
      = some (some FCRET_DIFFERENT, some 1, some 1) := by
    simp [SkipIdentical, SkipIdenticalLoop, haa, hbx, list_next]
  have hres : Resync pFC [a0, b0, c0, e] [a1, x1, c1, e] 1 1
      = some (FCRET_IDENTICAL, some 2, some 2) := by
    apply Resync_abc pFC _ _ hn
    · simp [EqualAt, hbx]
    · simp [EqualAt, hcc]
  have hshow0 := ShowDiff_three pFC 0 a0 b0 c0 e ha0 hb0 hc0
  have hshow1 := ShowDiff_three pFC 1 a1 x1 c1 e ha1 hx1 hc1
  have hskip2 : SkipIdentical pFC [e] [e] (some 0) (some 0)
      = some (some FCRET_IDENTICAL, none, none) := by
    simp [SkipIdentical, SkipIdenticalLoop, hee, list_next]
  have hloop2 : TextCompareLoop pFC (fuel + 1) [e] [e] true
      [OUT.caption 0, PrintLine pFC a0.lineno a0.pszLine, PrintLine pFC b0.lineno b0.pszLine,
            PrintLine pFC c0.lineno c0.pszLine,
           OUT.caption 1, PrintLine pFC a1.lineno a1.pszLine, PrintLine pFC x1.lineno x1.pszLine,
            PrintLine pFC c1.lineno c1.pszLine,
           OUT.endOfDiff]
      = some (FCRET_DIFFERENT,
          [OUT.caption 0, PrintLine pFC a0.lineno a0.pszLine, PrintLine pFC b0.lineno b0.pszLine,
            PrintLine pFC c0.lineno c0.pszLine,
           OUT.caption 1, PrintLine pFC a1.lineno a1.pszLine, PrintLine pFC x1.lineno x1.pszLine,
            PrintLine pFC c1.lineno c1.pszLine,
           OUT.endOfDiff]) := by
    unfold TextCompareLoop
    simp [list_head, hskip2, Finalize]
  unfold TextCompareLoop
  simp only [list_head, List.isEmpty_cons, Bool.false_eq_true, if_false, hskip, hres]
  simp [list_next, hshow0, hshow1, DeleteNodes_head, hloop2]

theorem ParseLines_three_lines (pFC : FILECOMPARE) (x : Nat) (hx : x = 98 ∨ x = 88) :
    ParseLines pFC 1 67108864 [97, 10, x, 10, 99, 10] { hMapping := true, ib := 0, list := [] }
      = some (FCRET_NO_MORE_DATA,
          { hMapping := true, ib := 10, list := lineList pFC 1 [[97], [x], [99]] }) := by
  rw [ParseLines_eq pFC 1 67108864 [97, 10, x, 10, 99, 10] 0 [] (by decide) (by decide)
    (by simp) (by decide) (by decide)]
  rcases hx with rfl | rfl
  · have hv : viewText 1 67108864 [97, 10, 98, 10, 99, 10] 0 = [97, 10, 98, 10, 99, 10] := by
      decide
    have hl : viewIsLast 1 67108864 [97, 10, 98, 10, 99, 10] 0 = true := by decide
    rw [hv, hl]
    have hs : (windowSegments true [97, 10, 98, 10, 99, 10]).map stripCR
        = [[97], [98], [99]] := by decide
    rw [hs]
    simp [endsWithLineEnd, isLineEnd, CH_LF, lineNodes, lineList]
  · have hv : viewText 1 67108864 [97, 10, 88, 10, 99, 10] 0 = [97, 10, 88, 10, 99, 10] := by
      decide
    have hl : viewIsLast 1 67108864 [97, 10, 88, 10, 99, 10] 0 = true := by decide
    rw [hv, hl]
    have hs : (windowSegments true [97, 10, 88, 10, 99, 10]).map stripCR
        = [[97], [88], [99]] := by decide
    rw [hs]
    simp [endsWithLineEnd, isLineEnd, CH_LF, lineNodes, lineList]

theorem CompareNode_b_X (pFC : FILECOMPARE) :
    CompareNode pFC (ConvertNode pFC (AllocNode [98] 2)) (ConvertNode pFC (AllocNode [88] 2))
      = FCRET_DIFFERENT := by
  rcases hasFlag_cases pFC.dwFlags FLAG_T with hT | hT <;>
    rcases hasFlag_cases pFC.dwFlags FLAG_W with hW | hW <;>
    rcases hasFlag_cases pFC.dwFlags FLAG_C with hC | hC <;>
    simp only [CompareNode, ConvertNode, hT, hW, hC] <;> decide

theorem IsEOFNode_converted (pFC : FILECOMPARE) (line : List Nat) (lineno : Nat) :
    IsEOFNode (ConvertNode pFC (AllocNode line lineno)) = false := by
  have h := ConvertNode_hash_ne_eof pFC line lineno
  unfold IsEOFNode
  simp [h]

/-- C15 as stated fails for the resync window `n = 1`: on the narrow files
`a\nb\nc\n` and `a\nX\nc\n` the window of `Resync` then holds the pair of lines
`b`, `X` only, `Resync` fails and leaves its pointers on the lines `c`, and
`TextCompare` reports that the resynchronisation failed, prints the lines `a`, `b`
of the first side and `a`, `X` of the second and returns `FCRET_DIFFERENT` without
comparing the remainder. -/
theorem TextCompare_window_one :
    Resync { dwFlags := 0, n := 1 } (lineList { dwFlags := 0, n := 1 } 1 [[97], [98], [99]])
      (lineList { dwFlags := 0, n := 1 } 1 [[97], [88], [99]]) 1 1
      = some (FCRET_DIFFERENT, some 2, some 2) ∧
    TextCompare { dwFlags := 0, n := 1 } 1 67108864 [97, 10, 98, 10, 99, 10]
      [97, 10, 88, 10, 99, 10]
      = some (FCRET_DIFFERENT,
          [OUT.resyncFailed,
           OUT.caption 0, OUT.line none [97], OUT.line none [98],
           OUT.caption 1, OUT.line none [97], OUT.line none [88],
           OUT.endOfDiff]) := by
  refine ⟨by decide, ?_⟩
  unfold TextCompare
  rw [ParseLines_three_lines _ 98 (Or.inl rfl), ParseLines_three_lines _ 88 (Or.inr rfl)]
  decide

/-- C15, amended: for every configuration with a resync window `n ≥ 2`, on the
narrow files `a\nb\nc\n` and `a\nX\nc\n` (lines `a, b, c` and `a, X, c`, each list
closed by the end-of-file marker): `SkipIdentical` stops on the pair of second
lines, reported different; `Resync` from there succeeds and lands on the pair of
lines `c` (`i0 = i1 = 1`), so the run it delimits is the line `b` on the first
side and the line `X` on the second; after the removal of the lines up to and
including `c` the remainders compare identical up to their ends; and
`TextCompare` returns `FCRET_DIFFERENT` after printing one block per side, which
holds the line before the run, the run and the line `c`. -/
theorem TextCompare_one_run (pFC : FILECOMPARE) (hn : 2 ≤ pFC.n) :
    SkipIdentical pFC (lineList pFC 1 [[97], [98], [99]]) (lineList pFC 1 [[97], [88], [99]])
      (some 0) (some 0) = some (some FCRET_DIFFERENT, some 1, some 1) ∧
    Resync pFC (lineList pFC 1 [[97], [98], [99]]) (lineList pFC 1 [[97], [88], [99]]) 1 1
      = some (FCRET_IDENTICAL, some (1 + 1), some (1 + 1)) ∧
    (((lineList pFC 1 [[97], [98], [99]]).take (1 + 1)).drop 1).map NODE.pszLine = [[98]] ∧
    (((lineList pFC 1 [[97], [88], [99]]).take (1 + 1)).drop 1).map NODE.pszLine = [[88]] ∧
    DeleteNodes (lineList pFC 1 [[97], [98], [99]]) (some 0) (some 3) = some [AllocEOFNode] ∧
    DeleteNodes (lineList pFC 1 [[97], [88], [99]]) (some 0) (some 3) = some [AllocEOFNode] ∧
    SkipIdentical pFC [AllocEOFNode] [AllocEOFNode] (some 0) (some 0)
      = some (some FCRET_IDENTICAL, none, none) ∧
    TextCompare pFC 1 67108864 [97, 10, 98, 10, 99, 10] [97, 10, 88, 10, 99, 10]
      = some (FCRET_DIFFERENT,
          [OUT.caption 0, PrintLine pFC 1 [97], PrintLine pFC 2 [98], PrintLine pFC 3 [99],
           OUT.caption 1, PrintLine pFC 1 [97], PrintLine pFC 2 [88], PrintLine pFC 3 [99],
           OUT.endOfDiff]) := by
  have haa := CompareNode_self_converted pFC [97] 1
  have hcc := CompareNode_self_converted pFC [99] 3
  have hbx := CompareNode_b_X pFC
  have hee := CompareNode_self_eof pFC
  have hl0 : lineList pFC 1 [[97], [98], [99]]
      = [ConvertNode pFC (AllocNode [97] 1), ConvertNode pFC (AllocNode [98] 2),
          ConvertNode pFC (AllocNode [99] 3), AllocEOFNode] := rfl
  have hl1 : lineList pFC 1 [[97], [88], [99]]
      = [ConvertNode pFC (AllocNode [97] 1), ConvertNode pFC (AllocNode [88] 2),
          ConvertNode pFC (AllocNode [99] 3), AllocEOFNode] := rfl
  have hline : ∀ (line : List Nat) (k : Nat), ExpandTab line = line →
      (ConvertNode pFC (AllocNode line k)).pszLine = line ∧
      (ConvertNode pFC (AllocNode line k)).lineno = k := by
    intro line k he
    rcases hasFlag_cases pFC.dwFlags FLAG_T with hT | hT <;>
      rcases hasFlag_cases pFC.dwFlags FLAG_W with hW | hW <;>
      simp [ConvertNode, AllocNode, hT, hW, he]
  have ha := hline [97] 1 (by decide)
  have hb := hline [98] 2 (by decide)
  have hx := hline [88] 2 (by decide)
  have hc := hline [99] 3 (by decide)
  refine ⟨?_, ?_, ?_, ?_, ?_, ?_, ?_, ?_⟩
  · rw [hl0, hl1]
    simp [SkipIdentical, SkipIdenticalLoop, haa, hbx, list_next]
  · rw [hl0, hl1]
    apply Resync_abc pFC _ _ hn
    · simp [EqualAt, hbx]
    · simp [EqualAt, hcc]
  · rw [hl0]
    simp [hb.1]
  · rw [hl1]
    simp [hx.1]
  · rw [hl0]
    exact DeleteNodes_head _ _ _ _
  · rw [hl1]
    exact DeleteNodes_head _ _ _ _
  · simp [SkipIdentical, SkipIdenticalLoop, hee, list_next]
  · unfold TextCompare
    rw [ParseLines_three_lines pFC 98 (Or.inl rfl), ParseLines_three_lines pFC 88 (Or.inr rfl)]
    simp only [reduceCtorEq, if_false]
    rw [hl0, hl1]
    have h := TextCompareLoop_abc pFC (ConvertNode pFC (AllocNode [97] 1))
      (ConvertNode pFC (AllocNode [98] 2)) (ConvertNode pFC (AllocNode [99] 3))
      (ConvertNode pFC (AllocNode [97] 1)) (ConvertNode pFC (AllocNode [88] 2))
      (ConvertNode pFC (AllocNode [99] 3)) AllocEOFNode hn haa hbx hcc hee
      (IsEOFNode_converted pFC _ _) (IsEOFNode_converted pFC _ _) (IsEOFNode_converted pFC _ _)
      (IsEOFNode_converted pFC _ _) (IsEOFNode_converted pFC _ _) (IsEOFNode_converted pFC _ _) 7
    simp only [ha.1, ha.2, hb.1, hb.2, hx.1, hx.2, hc.1, hc.2] at h
    exact h

theorem TextCompare_one_run_witness :
    2 ≤ (FILECOMPARE.mk 0 100).n ∧
    TextCompare { dwFlags := 0, n := 100 } 1 67108864 [97, 10, 98, 10, 99, 10]
        [97, 10, 88, 10, 99, 10]
      = some (FCRET_DIFFERENT,
          [OUT.caption 0, PrintLine { dwFlags := 0, n := 100 } 1 [97],
           PrintLine { dwFlags := 0, n := 100 } 2 [98],
           PrintLine { dwFlags := 0, n := 100 } 3 [99],
           OUT.caption 1, PrintLine { dwFlags := 0, n := 100 } 1 [97],
           PrintLine { dwFlags := 0, n := 100 } 2 [88],
           PrintLine { dwFlags := 0, n := 100 } 3 [99],
           OUT.endOfDiff]) :=
  ⟨by decide, (TextCompare_one_run { dwFlags := 0, n := 100 } (by decide)).2.2.2.2.2.2.2⟩

/-! ## The characters that the hash depends on -/

theorem GetHashLoop_append (b : Bool) (pre suf : List Nat) (ret : Nat) (h0 : 0 ∉ pre) :
    GetHashLoop b (pre ++ suf) ret = GetHashLoop b suf (GetHashLoop b pre ret) := by
  induction pre generalizing ret with
  | nil => simp [GetHashLoop]
  | cons c cs ih =>
    have hc : c ≠ 0 := fun h => h0 (by simp [h])
    have hcs : 0 ∉ cs := fun h => h0 (List.mem_cons_of_mem _ h)
    rw [List.cons_append, GetHashLoop, GetHashLoop, if_neg hc, if_neg hc]
    exact ih _ hcs

/-- One turn of the loop of `GetHash` brings two accumulators that agree on their
`e` low bits to accumulators that agree on their `e + 2` low bits. -/
theorem GetHash_step_congr (x y c e : Nat) (he : e + 2 ≤ 32) (h : x % 2 ^ e = y % 2 ^ e) :
    ((((x + c) % 2 ^ 32) <<< 2) % 2 ^ 32) % 2 ^ (e + 2)
      = ((((y + c) % 2 ^ 32) <<< 2) % 2 ^ 32) % 2 ^ (e + 2) := by
  have hd : 2 ^ (e + 2) ∣ 2 ^ 32 := Nat.pow_dvd_pow 2 he
  have hd2 : 2 ^ e ∣ 2 ^ 32 := Nat.pow_dvd_pow 2 (by omega)
  rw [Nat.mod_mod_of_dvd _ hd, Nat.mod_mod_of_dvd _ hd]
  rw [Nat.shiftLeft_eq, Nat.shiftLeft_eq]
  have e4 : 2 ^ (e + 2) = 2 ^ e * 2 ^ 2 := Nat.pow_add 2 e 2
  rw [e4, Nat.mul_mod_mul_right, Nat.mul_mod_mul_right]
  rw [Nat.mod_mod_of_dvd _ hd2, Nat.mod_mod_of_dvd _ hd2]
  rw [Nat.add_mod x, Nat.add_mod y, h]

/-- The loop of `GetHash` over `suf` forgets the bits of the accumulator above
`32 - 2 * suf.length`. -/
theorem GetHashLoop_congr (b : Bool) (suf : List Nat) (h0 : 0 ∉ suf) (x y : Nat)
    (hx : x < 2 ^ 32) (hy : y < 2 ^ 32)
    (h : x % 2 ^ (32 - 2 * suf.length) = y % 2 ^ (32 - 2 * suf.length)) :
    GetHashLoop b suf x = GetHashLoop b suf y := by
  induction suf generalizing x y with
  | nil =>
    simp only [List.length_nil, Nat.mul_zero, Nat.sub_zero] at h
    rw [Nat.mod_eq_of_lt hx, Nat.mod_eq_of_lt hy] at h
    simp [GetHashLoop, h]
  | cons c cs ih =>
    have hc : c ≠ 0 := fun h => h0 (by simp [h])
    have hcs : 0 ∉ cs := fun h => h0 (List.mem_cons_of_mem _ h)
    rw [GetHashLoop, GetHashLoop, if_neg hc, if_neg hc]
    apply ih hcs _ _ (Nat.mod_lt _ (by norm_num)) (Nat.mod_lt _ (by norm_num))
    by_cases hl : 16 ≤ cs.length
    · have e0 : 32 - 2 * cs.length = 0 := by omega
      rw [e0]
      simp [Nat.mod_one]
    · have e1 : 32 - 2 * cs.length = (32 - 2 * (c :: cs).length) + 2 := by
        simp only [List.length_cons]; omega
      rw [e1]
      exact GetHash_step_congr _ _ _ _ (by simp only [List.length_cons]; omega) h

theorem GetHashLoop_mod_four (b : Bool) (pre : List Nat) (hne : pre ≠ []) (h0 : 0 ∉ pre)
    (ret : Nat) : GetHashLoop b pre ret % 2 ^ 2 = 0 := by
  induction pre generalizing ret with
  | nil => exact absurd rfl hne
  | cons c cs ih =>
    have hc : c ≠ 0 := fun h => h0 (by simp [h])
    have hcs : 0 ∉ cs := fun h => h0 (List.mem_cons_of_mem _ h)
    rw [GetHashLoop, if_neg hc]
    cases cs with
    | nil =>
      rw [GetHashLoop, Nat.shiftLeft_eq]
      have hd : 2 ^ 2 ∣ 2 ^ 32 := Nat.pow_dvd_pow 2 (by norm_num)
      rw [Nat.mod_mod_of_dvd _ hd]
      exact Nat.mul_mod_left _ _
    | cons d ds => exact ih (by simp) hcs _

theorem GetHash_eq_of_last_15 (b : Bool) (s t : List Nat) (hs0 : 0 ∉ s) (ht0 : 0 ∉ t)
    (hs : 16 ≤ s.length) (ht : 16 ≤ t.length)
    (hlast : s.drop (s.length - 15) = t.drop (t.length - 15)) :
    GetHash s b = GetHash t b := by
  have es : s = s.take (s.length - 15) ++ s.drop (s.length - 15) :=
    (List.take_append_drop _ _).symm
  have et : t = t.take (t.length - 15) ++ t.drop (t.length - 15) :=
    (List.take_append_drop _ _).symm
  have hs1 : 0 ∉ s.take (s.length - 15) := fun h => hs0 (List.mem_of_mem_take h)
  have ht1 : 0 ∉ t.take (t.length - 15) := fun h => ht0 (List.mem_of_mem_take h)
  have hs2 : 0 ∉ s.drop (s.length - 15) := fun h => hs0 (List.mem_of_mem_drop h)
  have hns : s.take (s.length - 15) ≠ [] := by
    intro h
    have := congrArg List.length h
    rw [List.length_take] at this
    simp only [List.length_nil] at this
    omega
  have hnt : t.take (t.length - 15) ≠ [] := by
    intro h
    have := congrArg List.length h
    rw [List.length_take] at this
    simp only [List.length_nil] at this
    omega
  have hlen : (s.drop (s.length - 15)).length = 15 := by
    rw [List.length_drop]; omega
  unfold GetHash
  rw [es, et, GetHashLoop_append b _ _ _ hs1, GetHashLoop_append b _ _ _ ht1, ← hlast]
  congr 1
  apply GetHashLoop_congr b _ hs2 _ _
    (GetHashLoop_lt b _ _ (by norm_num)) (GetHashLoop_lt b _ _ (by norm_num))
  rw [hlen]
  have e2 : 32 - 2 * 15 = 2 := by norm_num
  rw [e2, GetHashLoop_mod_four b _ hns hs1, GetHashLoop_mod_four b _ hnt ht1]

theorem ExpandTabLoop_no_tab (l : List Nat) (ich : Nat) (h0 : 0 ∉ l) (h9 : CH_TAB ∉ l) :
    ExpandTabLoop l ich = l := by
  induction l generalizing ich with
  | nil => rfl
  | cons c cs ih =>
    simp only [List.mem_cons, not_or] at h0 h9
    have hc : c ≠ 0 := fun e => h0.1 e.symm
    have ht : c ≠ CH_TAB := fun e => h9.1 e.symm
    rw [ExpandTabLoop, if_neg hc, if_neg ht, ih _ h0.2 h9.2]

/-- C25: the hash of a line of 16 characters or more depends only on its last 15
characters.  Two lines `s` and `t` without the character `'\0'`, both of length
16 at least and with the same last 15 characters, have the same `GetHash`, with
or without folding of the case.  Such lines collide: when they are different and
hold no tab, their nodes under the default flags carry the same hash, and
`CompareNode` reports them different by the comparison of the texts. -/
theorem GetHash_last_15 (b : Bool) (s t : List Nat) (hs0 : 0 ∉ s) (ht0 : 0 ∉ t)
    (hs : 16 ≤ s.length) (ht : 16 ≤ t.length)
    (hlast : s.drop (s.length - 15) = t.drop (t.length - 15)) :
    GetHash s b = GetHash t b ∧
    (s ≠ t → CH_TAB ∉ s → CH_TAB ∉ t → ∀ n k0 k1 : Nat,
      (ConvertNode { dwFlags := 0, n := n } (AllocNode s k0)).hash
        = (ConvertNode { dwFlags := 0, n := n } (AllocNode t k1)).hash ∧
      CompareNode { dwFlags := 0, n := n } (ConvertNode { dwFlags := 0, n := n } (AllocNode s k0))
        (ConvertNode { dwFlags := 0, n := n } (AllocNode t k1)) = FCRET_DIFFERENT) := by
  refine ⟨GetHash_eq_of_last_15 b s t hs0 ht0 hs ht hlast, fun hne hs9 ht9 n k0 k1 => ?_⟩
  have hT : hasFlag 0 FLAG_T = false := by decide
  have hW : hasFlag 0 FLAG_W = false := by decide
  have hC : hasFlag 0 FLAG_C = false := by decide
  have hh := GetHash_eq_of_last_15 false s t hs0 ht0 hs ht hlast
  have es : ExpandTab s = s := ExpandTabLoop_no_tab s 0 hs0 hs9
  have et : ExpandTab t = t := ExpandTabLoop_no_tab t 0 ht0 ht9
  have h1 : ConvertNode { dwFlags := 0, n := n } (AllocNode s k0)
      = { pszLine := s, pszComp := none, lineno := k0, hash := GetHash s false } := by
    simp [ConvertNode, AllocNode, hT, hW, hC, es]
  have h2 : ConvertNode { dwFlags := 0, n := n } (AllocNode t k1)
      = { pszLine := t, pszComp := none, lineno := k1, hash := GetHash t false } := by
    simp [ConvertNode, AllocNode, hT, hW, hC, et]
  rw [h1, h2]
  refine ⟨hh, ?_⟩
  simp [CompareNode, hW, hC, hh, CompareStringEqual, cstr_eq_self s hs0, cstr_eq_self t ht0, hne]

theorem GetHash_last_15_witness :
    GetHash (98 :: List.replicate 15 97) true = GetHash (99 :: List.replicate 15 97) true ∧
    CompareNode { dwFlags := 0, n := 100 }
      (ConvertNode { dwFlags := 0, n := 100 } (AllocNode (98 :: List.replicate 15 97) 1))
      (ConvertNode { dwFlags := 0, n := 100 } (AllocNode (99 :: List.replicate 15 97) 1))
        = FCRET_DIFFERENT :=
  have h := GetHash_last_15 true (98 :: List.replicate 15 97) (99 :: List.replicate 15 97)
    (by decide) (by decide) (by decide) (by decide) (by decide)
  ⟨h.1, (h.2 (by decide) (by decide) (by decide) 100 1 1).2⟩

/-! ## The walk of SkipIdentical over equal lines -/

theorem CompareNode_cases (pFC : FILECOMPARE) (node0 node1 : NODE) :
    CompareNode pFC node0 node1 = FCRET_IDENTICAL ∨
    CompareNode pFC node0 node1 = FCRET_DIFFERENT := by
  unfold CompareNode
  by_cases h : (node0.hash != node1.hash) = true
  · rw [if_pos h]
    exact Or.inr rfl
  · rw [if_neg h]
    dsimp only
    by_cases h2 : CompareStringEqual (hasFlag pFC.dwFlags FLAG_C)
        (if hasFlag pFC.dwFlags FLAG_W = true then node0.pszComp else some node0.pszLine)
        (if hasFlag pFC.dwFlags FLAG_W = true then node1.pszComp else some node1.pszLine) = true
    · rw [if_pos h2]
      exact Or.inl rfl
    · rw [if_neg h2]
      exact Or.inr rfl

/-- The loop of `SkipIdentical` from two entries of the lists, with enough turns
left: it goes over `k` pairs of equal lines and stops either on a pair of lines
that are not equal, with the result `FCRET_DIFFERENT`, or, after one pair at
least, where one of the lists ends, with the result `FCRET_IDENTICAL`. -/
theorem SkipIdenticalLoop_spec (pFC : FILECOMPARE) (list0 list1 : List NODE) (fuel : Nat) :
    ∀ (p0 p1 : Nat) (ret : Option FCRET), p0 < list0.length → p1 < list1.length →
      list0.length - p0 < fuel →
      ∃ k, (∀ j, j < k → EqualAt pFC list0 list1 (p0 + j) (p1 + j) = true) ∧
        ((p0 + k < list0.length ∧ p1 + k < list1.length ∧
            EqualAt pFC list0 list1 (p0 + k) (p1 + k) = false ∧
            SkipIdenticalLoop pFC list0 list1 fuel (some p0) (some p1) ret
              = some (some FCRET_DIFFERENT, some (p0 + k), some (p1 + k))) ∨
         (0 < k ∧ p0 + k ≤ list0.length ∧ p1 + k ≤ list1.length ∧
            (p0 + k = list0.length ∨ p1 + k = list1.length) ∧
            SkipIdenticalLoop pFC list0 list1 fuel (some p0) (some p1) ret
              = some (some FCRET_IDENTICAL,
                  (if p0 + k < list0.length then some (p0 + k) else none),
                  (if p1 + k < list1.length then some (p1 + k) else none)))) := by
  induction fuel with
  | zero => intro p0 p1 ret _ _ h; omega
  | succ fuel ih =>
    intro p0 p1 ret h0 h1 hfuel
    have hg0 : list0[p0]? = some list0[p0] := List.getElem?_eq_getElem h0
    have hg1 : list1[p1]? = some list1[p1] := List.getElem?_eq_getElem h1
    have heq := EqualAt_iff pFC list0 list1 p0 p1 _ _ hg0 hg1
    rcases CompareNode_cases pFC list0[p0] list1[p1] with hc | hc
    · have he : EqualAt pFC list0 list1 p0 p1 = true := heq.2 hc
      have hstep : SkipIdenticalLoop pFC list0 list1 (fuel + 1) (some p0) (some p1) ret
          = SkipIdenticalLoop pFC list0 list1 fuel (list_next list0 p0) (list_next list1 p1)
              (some FCRET_IDENTICAL) := by
        rw [SkipIdenticalLoop]
        simp only [hg0, hg1, hc, bne_self_eq_false, Bool.false_eq_true, if_false]
      by_cases hn : p0 + 1 < list0.length ∧ p1 + 1 < list1.length
      · obtain ⟨k, hk, hres⟩ := ih (p0 + 1) (p1 + 1) (some FCRET_IDENTICAL) hn.1 hn.2 (by omega)
        have hn0 : list_next list0 p0 = some (p0 + 1) := by simp [list_next, hn.1]
        have hn1 : list_next list1 p1 = some (p1 + 1) := by simp [list_next, hn.2]
        have e0 : p0 + 1 + k = p0 + (k + 1) := by omega
        have e1 : p1 + 1 + k = p1 + (k + 1) := by omega
        rw [e0, e1] at hres
        rw [← hn0, ← hn1, ← hstep] at hres
        refine ⟨k + 1, ?_, ?_⟩
        · intro j hj
          cases j with
          | zero => exact he
          | succ j =>
            have := hk j (by omega)
            have f0 : p0 + 1 + j = p0 + (j + 1) := by omega
            have f1 : p1 + 1 + j = p1 + (j + 1) := by omega
            rw [f0, f1] at this
            exact this
        · rcases hres with ⟨a, b, c, d⟩ | ⟨a, b, c, d, e⟩
          · exact Or.inl ⟨a, b, c, d⟩
          · exact Or.inr ⟨by omega, b, c, d, e⟩
      · have hfuel1 : fuel ≠ 0 := by omega
        obtain ⟨f, hf⟩ := Nat.exists_eq_succ_of_ne_zero hfuel1
        refine ⟨1, ?_, Or.inr ⟨by omega, by omega, by omega, by omega, ?_⟩⟩
        · intro j hj
          have : j = 0 := by omega
          subst this
          exact he
        · rw [hstep, hf]
          by_cases a : p0 + 1 < list0.length
          · have b : ¬ p1 + 1 < list1.length := fun b => hn ⟨a, b⟩
            simp [list_next, a, b, SkipIdenticalLoop]
          · by_cases b : p1 + 1 < list1.length <;> simp [list_next, a, b, SkipIdenticalLoop]
    · have he : EqualAt pFC list0 list1 p0 p1 = false := by
        cases hx : EqualAt pFC list0 list1 p0 p1 with
        | false => rfl
        | true =>
          have := heq.1 hx
          rw [hc] at this
          exact absurd this (by decide)
      refine ⟨0, fun j hj => by omega, Or.inl ⟨h0, h1, he, ?_⟩⟩
      rw [SkipIdenticalLoop]
      simp [hg0, hg1, hc]

/-- C22: from two entries of the lists, `SkipIdentical` returns; it has moved both
positions by the same number `k` of entries, the `k` pairs of lines gone over are
equal under `CompareNode`, and either it stopped on a pair of lines that are not
equal and returns `FCRET_DIFFERENT`, the result of that last comparison, or one
of the lists ended after `k ≥ 1` equal pairs, the position of an ended list is
`NULL`, and it returns `FCRET_IDENTICAL`, the result of the last comparison. -/
theorem SkipIdentical_spec (pFC : FILECOMPARE) (list0 list1 : List NODE) (p0 p1 : Nat)
    (h0 : p0 < list0.length) (h1 : p1 < list1.length) :
    ∃ k, (∀ j, j < k → EqualAt pFC list0 list1 (p0 + j) (p1 + j) = true) ∧
      ((p0 + k < list0.length ∧ p1 + k < list1.length ∧
          EqualAt pFC list0 list1 (p0 + k) (p1 + k) = false ∧
          SkipIdentical pFC list0 list1 (some p0) (some p1)
            = some (some FCRET_DIFFERENT, some (p0 + k), some (p1 + k))) ∨
       (0 < k ∧ p0 + k ≤ list0.length ∧ p1 + k ≤ list1.length ∧
          (p0 + k = list0.length ∨ p1 + k = list1.length) ∧
          SkipIdentical pFC list0 list1 (some p0) (some p1)
            = some (some FCRET_IDENTICAL,
                (if p0 + k < list0.length then some (p0 + k) else none),
                (if p1 + k < list1.length then some (p1 + k) else none)))) := by
  unfold SkipIdentical
  exact SkipIdenticalLoop_spec pFC list0 list1 (list0.length + 1) p0 p1 none h0 h1 (by omega)

theorem SkipIdentical_spec_witness :
    0 < (lineList { dwFlags := 0, n := 100 } 1 [[97], [98], [99]]).length ∧
    0 < (lineList { dwFlags := 0, n := 100 } 1 [[97], [88], [99]]).length ∧
    ∃ k, (∀ j, j < k → EqualAt { dwFlags := 0, n := 100 }
          (lineList { dwFlags := 0, n := 100 } 1 [[97], [98], [99]])
          (lineList { dwFlags := 0, n := 100 } 1 [[97], [88], [99]]) (0 + j) (0 + j) = true) ∧
      ((0 + k < (lineList { dwFlags := 0, n := 100 } 1 [[97], [98], [99]]).length ∧
          0 + k < (lineList { dwFlags := 0, n := 100 } 1 [[97], [88], [99]]).length ∧
          EqualAt { dwFlags := 0, n := 100 }
            (lineList { dwFlags := 0, n := 100 } 1 [[97], [98], [99]])
            (lineList { dwFlags := 0, n := 100 } 1 [[97], [88], [99]]) (0 + k) (0 + k) = false ∧
          SkipIdentical { dwFlags := 0, n := 100 }
            (lineList { dwFlags := 0, n := 100 } 1 [[97], [98], [99]])
            (lineList { dwFlags := 0, n := 100 } 1 [[97], [88], [99]]) (some 0) (some 0)
            = some (some FCRET_DIFFERENT, some (0 + k), some (0 + k))) ∨
       (0 < k ∧ 0 + k ≤ (lineList { dwFlags := 0, n := 100 } 1 [[97], [98], [99]]).length ∧
          0 + k ≤ (lineList { dwFlags := 0, n := 100 } 1 [[97], [88], [99]]).length ∧
          (0 + k = (lineList { dwFlags := 0, n := 100 } 1 [[97], [98], [99]]).length ∨
            0 + k = (lineList { dwFlags := 0, n := 100 } 1 [[97], [88], [99]]).length) ∧
          SkipIdentical { dwFlags := 0, n := 100 }
            (lineList { dwFlags := 0, n := 100 } 1 [[97], [98], [99]])
            (lineList { dwFlags := 0, n := 100 } 1 [[97], [88], [99]]) (some 0) (some 0)
            = some (some FCRET_IDENTICAL,
                (if 0 + k < (lineList { dwFlags := 0, n := 100 } 1 [[97], [98], [99]]).length
                  then some (0 + k) else none),
                (if 0 + k < (lineList { dwFlags := 0, n := 100 } 1 [[97], [88], [99]]).length
                  then some (0 + k) else none)))) :=
  ⟨by decide, by decide,
    SkipIdentical_spec { dwFlags := 0, n := 100 }
      (lineList { dwFlags := 0, n := 100 } 1 [[97], [98], [99]])
      (lineList { dwFlags := 0, n := 100 } 1 [[97], [88], [99]]) 0 0 (by decide) (by decide)⟩

/-! ## Files larger than one view -/

/-- When the first list is a beginning of the second one, made of lines that
compare identical with themselves, `SkipIdentical` runs to the end of the first
list, and `TextCompare` goes to `Finalize` with a `NULL` position and no
difference met. -/
theorem TextCompareLoop_prefix_left (pFC : FILECOMPARE) (list s : List NODE)
    (hself : ∀ node ∈ list, CompareNode pFC node node = FCRET_IDENTICAL) (fuel : Nat) :
    TextCompareLoop pFC (fuel + 1) list (list ++ s) false []
      = some (FCRET_IDENTICAL, [OUT.noDifference]) := by
  unfold TextCompareLoop
  cases hl : list with
  | nil => simp [list_head, Finalize]
  | cons a rest =>
    have hpos : 0 < list.length := by rw [hl]; simp
    obtain ⟨k, hk, hres⟩ := SkipIdenticalLoop_spec pFC list (list ++ s) (list.length + 1) 0 0 none
      hpos (by rw [List.length_append]; omega) (by omega)
    simp only [Nat.zero_add] at hk hres
    have hskip : ∃ q, SkipIdentical pFC list (list ++ s) (some 0) (some 0)
        = some (some FCRET_IDENTICAL, none, q) := by
      refine ⟨(if k < (list ++ s).length then some k else none), ?_⟩
      rcases hres with ⟨a0, _, c0, _⟩ | ⟨_, b0, _, d0, e0⟩
      · have hg0 : list[k]? = some list[k] := List.getElem?_eq_getElem a0
        have hg1 : (list ++ s)[k]? = some list[k] := by
          rw [List.getElem?_append_left a0]; exact hg0
        have ht := (EqualAt_iff pFC list (list ++ s) k k _ _ hg0 hg1).2
          (hself _ (List.getElem_mem a0))
        rw [ht] at c0
        exact absurd c0 (by simp)
      · have hkl : k = list.length := by
          rcases d0 with d | d
          · exact d
          · rw [List.length_append] at d; omega
        unfold SkipIdentical
        rw [e0, if_neg (by omega)]
    obtain ⟨q, hq⟩ := hskip
    rw [hl, List.cons_append] at hq
    cases q <;> simp [list_head, hq, Finalize]

theorem TextCompareLoop_prefix_right (pFC : FILECOMPARE) (list s : List NODE)
    (hself : ∀ node ∈ list, CompareNode pFC node node = FCRET_IDENTICAL) (fuel : Nat) :
    TextCompareLoop pFC (fuel + 1) (list ++ s) list false []
      = some (FCRET_IDENTICAL, [OUT.noDifference]) := by
  unfold TextCompareLoop
  cases hl : list with
  | nil => cases s <;> simp [list_head, Finalize]
  | cons a rest =>
    have hpos : 0 < list.length := by rw [hl]; simp
    obtain ⟨k, hk, hres⟩ := SkipIdenticalLoop_spec pFC (list ++ s) list
      ((list ++ s).length + 1) 0 0 none
      (by rw [List.length_append]; omega) hpos (by omega)
    simp only [Nat.zero_add] at hk hres
    have hskip : ∃ q, SkipIdentical pFC (list ++ s) list (some 0) (some 0)
        = some (some FCRET_IDENTICAL, q, none) := by
      refine ⟨(if k < (list ++ s).length then some k else none), ?_⟩
      rcases hres with ⟨_, b0, c0, _⟩ | ⟨_, _, c0, d0, e0⟩
      · have hg1 : list[k]? = some list[k] := List.getElem?_eq_getElem b0
        have hg0 : (list ++ s)[k]? = some list[k] := by
          rw [List.getElem?_append_left b0]; exact hg1
        have ht := (EqualAt_iff pFC (list ++ s) list k k _ _ hg0 hg1).2
          (hself _ (List.getElem_mem b0))
        rw [ht] at c0
        exact absurd c0 (by simp)
      · have hkl : k = list.length := by
          rcases d0 with d | d
          · rw [List.length_append] at d; omega
          · exact d
        unfold SkipIdentical
        rw [e0, if_neg (show ¬ k < list.length by omega)]
    obtain ⟨q, hq⟩ := hskip
    rw [hl, List.cons_append] at hq
    cases q <;> simp [list_head, hq, Finalize]

theorem viewText_first_window (sizeofTCHAR maxView : Nat) (file : List Nat)
    (hdw : maxView < 2 ^ 32) (hbig : maxView < sizeofTCHAR * file.length) :
    viewText sizeofTCHAR maxView file 0 = file.take (maxView / sizeofTCHAR) ∧
    viewIsLast sizeofTCHAR maxView file 0 = false := by
  have hv : viewSize sizeofTCHAR maxView file 0 = maxView := by
    unfold viewSize
    rw [Nat.sub_zero, Nat.min_eq_right (le_of_lt hbig), Nat.mod_eq_of_lt hdw]
  constructor
  · unfold viewText
    rw [hv, Nat.zero_div, List.drop_zero]
  · unfold viewIsLast
    rw [hv]
    simp only [Nat.zero_add, ge_iff_le, decide_eq_false_iff_not, not_le]
    exact hbig

/-- C21 fails: the loop `for (;;)` of `TextCompare` is left by `goto` only, so the
test of the enclosing `do ... while` is never reached and `ParseLines` is called
once per side.  For two files that are both larger than one view and have the same
characters in the first view, whatever follows in either of them, `TextCompare`
returns `FCRET_IDENTICAL` and prints that no difference was met. -/
theorem TextCompare_first_window_only (pFC : FILECOMPARE) (sizeofTCHAR maxView : Nat)
    (file0 file1 : List Nat) (hsz : 0 < sizeofTCHAR) (hmv : sizeofTCHAR ≤ maxView)
    (hdw : maxView < 2 ^ 32)
    (hbig0 : maxView < sizeofTCHAR * file0.length)
    (hbig1 : maxView < sizeofTCHAR * file1.length)
    (hsame : file0.take (maxView / sizeofTCHAR) = file1.take (maxView / sizeofTCHAR)) :
    TextCompare pFC sizeofTCHAR maxView file0 file1
      = some (FCRET_IDENTICAL, [OUT.noDifference]) := by
  have hv0 := viewText_first_window sizeofTCHAR maxView file0 hdw hbig0
  have hv1 := viewText_first_window sizeofTCHAR maxView file1 hdw hbig1
  unfold TextCompare
  rw [ParseLines_eq pFC sizeofTCHAR maxView file0 0 [] hsz (dvd_zero _) (by omega) hmv hdw,
    ParseLines_eq pFC sizeofTCHAR maxView file1 0 [] hsz (dvd_zero _) (by omega) hmv hdw]
  rw [hv0.1, hv0.2, hv1.1, hv1.2, ← hsame]
  have hln := CompareNode_self_lineNodes pFC
    ((windowSegments false (file0.take (maxView / sizeofTCHAR))).map stripCR) 1
  generalize (if endsWithLineEnd (file0.take (maxView / sizeofTCHAR)) = true then
      (file0.take (maxView / sizeofTCHAR)).length - 1
    else (file0.take (maxView / sizeofTCHAR)).length) = k
  by_cases hk0 : 0 + k * 2 < sizeofTCHAR * file0.length
  · rw [if_pos hk0]
    by_cases hk1 : 0 + k * 2 < sizeofTCHAR * file1.length
    · rw [if_pos hk1]
      simp only [List.nil_append]
      rw [if_neg (by decide), if_neg (by decide)]
      exact TextCompareLoop_same pFC _ hln _
    · rw [if_neg hk1]
      simp only [List.nil_append]
      rw [if_neg (by decide), if_neg (by decide)]
      exact TextCompareLoop_prefix_left pFC _ _ hln _
  · rw [if_neg hk0]
    by_cases hk1 : 0 + k * 2 < sizeofTCHAR * file1.length
    · rw [if_pos hk1]
      simp only [List.nil_append]
      rw [if_neg (by decide), if_neg (by decide)]
      exact TextCompareLoop_prefix_right pFC _ _ hln _
    · rw [if_neg hk1]
      simp only [List.nil_append]
      rw [if_neg (by decide), if_neg (by decide)]
      apply TextCompareLoop_same
      intro node hn
      rcases List.mem_append.1 hn with h | h
      · exact hln node h
      · rw [List.mem_singleton] at h
        subst h
        exact CompareNode_self_eof pFC

theorem TextCompare_first_window_only_witness :
    [97, 10, 98, 10, 99, 10] ≠ [97, 10, 98, 10, 100, 10, 101, 10] ∧
    TextCompare { dwFlags := 0, n := 100 } 1 4 [97, 10, 98, 10, 99, 10]
        [97, 10, 98, 10, 100, 10, 101, 10]
      = some (FCRET_IDENTICAL, [OUT.noDifference]) :=
  ⟨by decide,
    TextCompare_first_window_only { dwFlags := 0, n := 100 } 1 4 [97, 10, 98, 10, 99, 10]
      [97, 10, 98, 10, 100, 10, 101, 10] (by decide) (by decide) (by decide) (by decide)
      (by decide) (by decide)⟩

/-! ## Files with different numbers of lines -/

/-- C23 fails when `ParseLines` leaves the end-of-file marker out.  In the wide
build the file `a\n` gives the list of the one line `a` and the file `a\nb\nc\n`
the list of the three lines `a`, `b`, `c`, neither closed by the marker; in the
narrow build the file `\n` gives the list of one empty line without the marker and
the file `\n\n` two empty lines and the marker.  In both cases `SkipIdentical`
reaches the end of the shorter list with no difference met, `Finalize` is entered
with a `NULL` position, and `TextCompare` returns `FCRET_IDENTICAL` for files that
do not have the same number of lines. -/
theorem TextCompare_identical_with_extra_lines (pFC : FILECOMPARE) :
    ParseLines pFC 2 67108864 [97, 10] { hMapping := true, ib := 0, list := [] }
      = some (FCRET_IDENTICAL,
          { hMapping := true, ib := 2, list := [ConvertNode pFC (AllocNode [97] 1)] }) ∧
    ParseLines pFC 2 67108864 [97, 10, 98, 10, 99, 10] { hMapping := true, ib := 0, list := [] }
      = some (FCRET_IDENTICAL,
          { hMapping := true, ib := 10,
            list := [ConvertNode pFC (AllocNode [97] 1), ConvertNode pFC (AllocNode [98] 2),
              ConvertNode pFC (AllocNode [99] 3)] }) ∧
    TextCompare pFC 2 67108864 [97, 10] [97, 10, 98, 10, 99, 10]
      = some (FCRET_IDENTICAL, [OUT.noDifference]) ∧
    ParseLines pFC 1 67108864 [10] { hMapping := true, ib := 0, list := [] }
      = some (FCRET_IDENTICAL,
          { hMapping := true, ib := 0, list := [ConvertNode pFC (AllocNode [] 1)] }) ∧
    ParseLines pFC 1 67108864 [10, 10] { hMapping := true, ib := 0, list := [] }
      = some (FCRET_NO_MORE_DATA,
          { hMapping := true, ib := 2,
            list := [ConvertNode pFC (AllocNode [] 1), ConvertNode pFC (AllocNode [] 2),
              AllocEOFNode] }) ∧
    TextCompare pFC 1 67108864 [10] [10, 10]
      = some (FCRET_IDENTICAL, [OUT.noDifference]) := by
  have p1 : ParseLines pFC 2 67108864 [97, 10] { hMapping := true, ib := 0, list := [] }
      = some (FCRET_IDENTICAL,
          { hMapping := true, ib := 2, list := [ConvertNode pFC (AllocNode [97] 1)] }) := by
    rw [ParseLines_eq pFC 2 67108864 [97, 10] 0 [] (by decide) (by decide) (by decide)
      (by decide) (by decide)]
    have hv : viewText 2 67108864 [97, 10] 0 = [97, 10] := by decide
    have hl : viewIsLast 2 67108864 [97, 10] 0 = true := by decide
    rw [hv, hl]
    have hs : (windowSegments true [97, 10]).map stripCR = [[97]] := by decide
    rw [hs]
    simp [endsWithLineEnd, isLineEnd, CH_LF, lineNodes]
  have p2 : ParseLines pFC 2 67108864 [97, 10, 98, 10, 99, 10]
        { hMapping := true, ib := 0, list := [] }
      = some (FCRET_IDENTICAL,
          { hMapping := true, ib := 10,
            list := [ConvertNode pFC (AllocNode [97] 1), ConvertNode pFC (AllocNode [98] 2),
              ConvertNode pFC (AllocNode [99] 3)] }) := by
    rw [ParseLines_eq pFC 2 67108864 [97, 10, 98, 10, 99, 10] 0 [] (by decide) (by decide)
      (by decide) (by decide) (by decide)]
    have hv : viewText 2 67108864 [97, 10, 98, 10, 99, 10] 0 = [97, 10, 98, 10, 99, 10] := by
      decide
    have hl : viewIsLast 2 67108864 [97, 10, 98, 10, 99, 10] 0 = true := by decide
    rw [hv, hl]
    have hs : (windowSegments true [97, 10, 98, 10, 99, 10]).map stripCR
        = [[97], [98], [99]] := by decide
    rw [hs]
    simp [endsWithLineEnd, isLineEnd, CH_LF, lineNodes]
  have p3 : ParseLines pFC 1 67108864 [10] { hMapping := true, ib := 0, list := [] }
      = some (FCRET_IDENTICAL,
          { hMapping := true, ib := 0, list := [ConvertNode pFC (AllocNode [] 1)] }) := by
    rw [ParseLines_eq pFC 1 67108864 [10] 0 [] (by decide) (by decide) (by decide)
      (by decide) (by decide)]
    have hv : viewText 1 67108864 [10] 0 = [10] := by decide
    have hl : viewIsLast 1 67108864 [10] 0 = true := by decide
    rw [hv, hl]
    have hs : (windowSegments true [10]).map stripCR = [[]] := by decide
    rw [hs]
    simp [endsWithLineEnd, isLineEnd, CH_LF, lineNodes]
  have p4 : ParseLines pFC 1 67108864 [10, 10] { hMapping := true, ib := 0, list := [] }
      = some (FCRET_NO_MORE_DATA,
          { hMapping := true, ib := 2,
            list := [ConvertNode pFC (AllocNode [] 1), ConvertNode pFC (AllocNode [] 2),
              AllocEOFNode] }) := by
    rw [ParseLines_eq pFC 1 67108864 [10, 10] 0 [] (by decide) (by decide) (by decide)
      (by decide) (by decide)]
    have hv : viewText 1 67108864 [10, 10] 0 = [10, 10] := by decide
    have hl : viewIsLast 1 67108864 [10, 10] 0 = true := by decide
    rw [hv, hl]
    have hs : (windowSegments true [10, 10]).map stripCR = [[], []] := by decide
    rw [hs]
    simp [endsWithLineEnd, isLineEnd, CH_LF, lineNodes]
  refine ⟨p1, p2, ?_, p3, p4, ?_⟩
  · unfold TextCompare
    rw [p1, p2]
    simp only [reduceCtorEq, if_false]
    have h := TextCompareLoop_prefix_left pFC [ConvertNode pFC (AllocNode [97] 1)]
      [ConvertNode pFC (AllocNode [98] 2), ConvertNode pFC (AllocNode [99] 3)]
      (fun node hn => by
        rw [List.mem_singleton] at hn
        subst hn
        exact CompareNode_self_converted pFC _ _) 4
    exact h
  · unfold TextCompare
    rw [p3, p4]
    simp only [reduceCtorEq, if_false]
    have h := TextCompareLoop_prefix_left pFC [ConvertNode pFC (AllocNode [] 1)]
      [ConvertNode pFC (AllocNode [] 2), AllocEOFNode]
      (fun node hn => by
        rw [List.mem_singleton] at hn
        subst hn
        exact CompareNode_self_converted pFC _ _) 4
    exact h

/-! ## Termination of the loop of TextCompare -/

theorem TextCompareLoop_succ_aux (pFC : FILECOMPARE) (fuel : Nat)
    (post : Option ((FCRET × List OUT) ⊕ (List NODE × List NODE × List OUT)) →
      Option (FCRET × List OUT))
    (h1 : post none = none)
    (h3 : ∀ a b c, post (some (Sum.inr (a, b, c))) = TextCompareLoop pFC fuel a b true c)
    (a b : Option (List OUT)) (c d : Option (List NODE)) (out : List OUT) :
    (match a, b with
      | some out0, some out1 =>
        match c, d with
        | some rest0, some rest1 =>
          TextCompareLoop pFC fuel rest0 rest1 true (out ++ out0 ++ out1 ++ [OUT.endOfDiff])
        | _, _ => none
      | _, _ => none)
    = post (match a, b with
      | some out0, some out1 =>
        match c, d with
        | some rest0, some rest1 =>
          some (Sum.inr (rest0, rest1, out ++ out0 ++ out1 ++ [OUT.endOfDiff]))
        | _, _ => none
      | _, _ => none) := by
  cases a <;> cases b <;> cases c <;> cases d <;> dsimp only <;>
    first | exact h1.symm | exact (h3 _ _ _).symm

theorem TextCompareLoop_succ_aux2
    (post : Option ((FCRET × List OUT) ⊕ (List NODE × List NODE × List OUT)) →
      Option (FCRET × List OUT))
    (h1 : post none = none) (h2 : ∀ r, post (some (Sum.inl r)) = some r)
    (f : Option (FCRET × List OUT)) (out : List OUT) :
    (match f with
      | none => none
      | some (ret2, out2) => some (ret2, out ++ out2))
    = post (match f with
      | none => none
      | some (ret2, out2) => some (Sum.inl (ret2, out ++ out2))) := by
  cases f with
  | none => exact h1.symm
  | some r => exact (h2 _).symm

/-- The loop of `TextCompare` is the repetition of its turn. -/
theorem TextCompareLoop_succ (pFC : FILECOMPARE) (fuel : Nat) (list0 list1 : List NODE)
    (fDifferent : Bool) (out : List OUT) :
    TextCompareLoop pFC (fuel + 1) list0 list1 fDifferent out
      = match TextCompareStep pFC list0 list1 fDifferent out with
        | none => none
        | some (Sum.inl res) => some res
        | some (Sum.inr (rest0, rest1, out1)) => TextCompareLoop pFC fuel rest0 rest1 true out1 := by
  rw [TextCompareLoop]
  change _ = (fun x : Option ((FCRET × List OUT) ⊕ (List NODE × List NODE × List OUT)) =>
    (match x with
      | none => none
      | some (Sum.inl res) => some res
      | some (Sum.inr (rest0, rest1, out1)) => TextCompareLoop pFC fuel rest0 rest1 true out1 :
      Option (FCRET × List OUT))) (TextCompareStep pFC list0 list1 fDifferent out)
  generalize hpost : (fun x : Option ((FCRET × List OUT) ⊕ (List NODE × List NODE × List OUT)) =>
    (match x with
      | none => none
      | some (Sum.inl res) => some res
      | some (Sum.inr (rest0, rest1, out1)) => TextCompareLoop pFC fuel rest0 rest1 true out1 :
      Option (FCRET × List OUT))) = post
  have h1 : post none = none := by rw [← hpost]
  have h2 : ∀ r, post (some (Sum.inl r)) = some r := by intro r; rw [← hpost]
  have h3 : ∀ a b c, post (some (Sum.inr (a, b, c))) = TextCompareLoop pFC fuel a b true c := by
    intro a b c; rw [← hpost]
  clear hpost
  unfold TextCompareStep
  repeat' split
  all_goals first
    | exact TextCompareLoop_succ_aux pFC fuel post h1 h3 _ _ _ _ out
    | exact TextCompareLoop_succ_aux2 post h1 h2 _ out
    | simp_all

theorem DeleteNodesLoop_head (fuel : Nat) :
    ∀ (list : List NODE) (l : Nat), l < list.length → l < fuel →
      DeleteNodesLoop fuel list (some 0) (some l) = some (list.drop l) := by
  induction fuel with
  | zero => intro list l _ h; omega
  | succ fuel ih =>
    intro list l hl hf
    cases list with
    | nil => simp at hl
    | cons a rest =>
      rw [DeleteNodesLoop]
      cases l with
      | zero => simp
      | succ l =>
        simp only [List.length_cons] at hl
        have h1 : ¬ (some 0 : Option Nat) = some (l + 1) := by simp
        rw [if_neg h1]
        simp only [List.length_cons, Nat.zero_lt_succ, if_true, List.eraseIdx_cons_zero,
          Option.map_some', Nat.add_sub_cancel, List.drop_succ_cons]
        rw [if_pos (by omega)]
        exact ih rest l (by omega) (by omega)

theorem Finalize_not_continue (f : Option (FCRET × List OUT)) (out : List OUT)
    (x : List NODE × List NODE × List OUT) :
    ¬ (match f with
        | none => none
        | some (ret2, out2) => some (Sum.inl (ret2, out ++ out2)) :
        Option ((FCRET × List OUT) ⊕ (List NODE × List NODE × List OUT))) = some (Sum.inr x) := by
  cases f <;> simp

theorem TextCompareStep_continue (pFC : FILECOMPARE) (list0 list1 rest0 rest1 : List NODE)
    (fDifferent : Bool) (out out1 : List OUT)
    (h : TextCompareStep pFC list0 list1 fDifferent out = some (Sum.inr (rest0, rest1, out1))) :
    ∃ save0 save1 q0 q1,
      SkipIdentical pFC list0 list1 (list_head list0) (list_head list1)
        = some (some FCRET_DIFFERENT, some save0, some save1) ∧
      Resync pFC list0 list1 save0 save1 = some (FCRET_IDENTICAL, some q0, some q1) ∧
      (q0, q1) ≠ (save0, save1) ∧
      rest0 = list0.drop (if q0 + 1 < list0.length then q0 + 1 else q0) ∧
      rest1 = list1.drop (if q1 + 1 < list1.length then q1 + 1 else q1) ∧
      rest0.length + rest1.length < list0.length + list1.length := by
  unfold TextCompareStep at h
  split at h
  · split at h
    · simp at h
    · split at h
      · simp at h
      · split at h
        · split at h
          · simp at h
          · split at h
            · simp at h
            · split at h
              · split at h <;> simp at h
              · split at h
                · rename_i x7 x6 hd0 hd1 hh0 hh1 x5 ret hinv x4 x3 s0 s1 hskip x2 ret1 hr1 hr2
                    x1 x0 q0 q1 hres
                  have hne0 : 0 < list0.length := by
                    cases list0 with
                    | nil => simp [list_head] at hh0
                    | cons a l => simp
                  have hne1 : 0 < list1.length := by
                    cases list1 with
                    | nil => simp [list_head] at hh1
                    | cons a l => simp
                  have hz0 : hd0 = 0 := by
                    unfold list_head at hh0
                    split at hh0
                    · simp at hh0
                    · simpa using hh0.symm
                  have hz1 : hd1 = 0 := by
                    unfold list_head at hh1
                    split at hh1
                    · simp at hh1
                    · simpa using hh1.symm
                  subst hz0 hz1
                  obtain ⟨k, _, hsk⟩ := SkipIdenticalLoop_spec pFC list0 list1 (list0.length + 1)
                    0 0 none hne0 hne1 (by omega)
                  simp only [Nat.zero_add] at hsk
                  unfold SkipIdentical at hskip
                  have hmis : ret = some FCRET_DIFFERENT ∧ s0 < list0.length ∧ s1 < list1.length ∧
                      EqualAt pFC list0 list1 s0 s1 = false := by
                    rcases hsk with ⟨a, b, c, d⟩ | ⟨_, a, b, c, d⟩
                    · rw [d] at hskip
                      simp only [Option.some.injEq, Prod.mk.injEq] at hskip
                      obtain ⟨e1, e2, e3⟩ := hskip
                      subst e2 e3
                      exact ⟨e1.symm, a, b, c⟩
                    · rw [d] at hskip
                      simp only [Option.some.injEq, Prod.mk.injEq] at hskip
                      obtain ⟨_, e2, e3⟩ := hskip
                      rcases c with c | c
                      · rw [if_neg (by omega)] at e2
                        exact absurd e2 (by simp)
                      · rw [if_neg (by omega)] at e3
                        exact absurd e3 (by simp)
                  obtain ⟨hret, hs0, hs1, hdiff⟩ := hmis
                  have hland : ret1 = FCRET_IDENTICAL ∧ ∃ j0 j1, q0 = s0 + j0 ∧ q1 = s1 + j1 ∧
                      EqualAt pFC list0 list1 q0 q1 = true := by
                    rcases Resync_cases pFC list0 list1 s0 s1 hs0 hs1 with
                      ⟨j0, j1, _, _, he, _, hr⟩ | ⟨_, hr⟩
                    · rw [hr] at hres
                      simp only [Option.some.injEq, Prod.mk.injEq] at hres
                      obtain ⟨e1, e2, e3⟩ := hres
                      subst e2 e3
                      exact ⟨e1.symm, j0, j1, rfl, rfl, he⟩
                    · rw [hr] at hres
                      exfalso
                      cases ha : ResyncAdvance list0 pFC.n (some s0) with
                      | none => rw [ha] at hres; simp at hres
                      | some new0 =>
                        rw [ha] at hres
                        cases hb : ResyncAdvance list1 pFC.n (some s1) with
                        | none => rw [hb] at hres; simp at hres
                        | some new1 =>
                          rw [hb] at hres
                          simp only [Option.some.injEq, Prod.mk.injEq] at hres
                          exact hr2 hres.1.symm
                  obtain ⟨hid, j0, j1, hq0, hq1, heq⟩ := hland
                  have hq := EqualAt_lt pFC list0 list1 q0 q1 heq
                  have hend0 : (if (list_next list0 q0).isSome then list_next list0 q0 else some q0)
                      = some (if q0 + 1 < list0.length then q0 + 1 else q0) := by
                    unfold list_next
                    by_cases hc : q0 + 1 < list0.length <;> simp [hc]
                  have hend1 : (if (list_next list1 q1).isSome then list_next list1 q1 else some q1)
                      = some (if q1 + 1 < list1.length then q1 + 1 else q1) := by
                    unfold list_next
                    by_cases hc : q1 + 1 < list1.length <;> simp [hc]
                  have hdel0 : DeleteNodes list0 (some 0)
                      (some (if q0 + 1 < list0.length then q0 + 1 else q0))
                      = some (list0.drop (if q0 + 1 < list0.length then q0 + 1 else q0)) := by
                    unfold DeleteNodes
                    apply DeleteNodesLoop_head
                    · split <;> omega
                    · split <;> omega
                  have hdel1 : DeleteNodes list1 (some 0)
                      (some (if q1 + 1 < list1.length then q1 + 1 else q1))
                      = some (list1.drop (if q1 + 1 < list1.length then q1 + 1 else q1)) := by
                    unfold DeleteNodes
                    apply DeleteNodesLoop_head
                    · split <;> omega
                    · split <;> omega
                  dsimp only at h
                  rw [hend0, hend1, hh0, hh1, hdel0, hdel1] at h
                  have hrest : rest0 = list0.drop (if q0 + 1 < list0.length then q0 + 1 else q0) ∧
                      rest1 = list1.drop (if q1 + 1 < list1.length then q1 + 1 else q1) := by
                    generalize ShowDiff pFC 0 list0 (some s0)
                        (some (if q0 + 1 < list0.length then q0 + 1 else q0)) = a at h
                    generalize ShowDiff pFC 1 list1 (some s1)
                        (some (if q1 + 1 < list1.length then q1 + 1 else q1)) = b at h
                    cases a with
                    | none => simp at h
                    | some o0 =>
                      cases b with
                      | none => simp at h
                      | some o1 =>
                        simp only [Option.some.injEq, Sum.inr.injEq, Prod.mk.injEq] at h
                        exact ⟨h.1.symm, h.2.1.symm⟩
                  have hne : (q0, q1) ≠ (s0, s1) := by
                    intro e
                    simp only [Prod.mk.injEq] at e
                    rw [e.1, e.2, hdiff] at heq
                    exact absurd heq (by simp)
                  refine ⟨s0, s1, q0, q1, ?_, ?_, hne, hrest.1, hrest.2, ?_⟩
                  · rw [hh0, hh1]
                    unfold SkipIdentical
                    rw [hskip, hret]
                  · rw [hres, hid]
                  · rw [hrest.1, hrest.2, List.length_drop, List.length_drop]
                    have hj : j0 ≠ 0 ∨ j1 ≠ 0 := by
                      by_contra hc
                      simp only [not_or, not_not] at hc
                      apply hne
                      rw [hq0, hq1, hc.1, hc.2, Nat.add_zero, Nat.add_zero]
                    split <;> split <;> omega
                · simp at h
        · exact absurd h (Finalize_not_continue _ _ _)
  · exact absurd h (Finalize_not_continue _ _ _)

/-- The turns of the loop of `TextCompare` never use up a bound above the number
of entries of the two lists. -/
theorem TextCompareRun_isSome (pFC : FILECOMPARE) (fuel : Nat) :
    ∀ (list0 list1 : List NODE) (fDifferent : Bool) (out : List OUT),
      list0.length + list1.length < fuel →
      ∃ res, TextCompareRun pFC fuel list0 list1 fDifferent out = some res := by
  induction fuel with
  | zero => intro list0 list1 _ _ h; omega
  | succ fuel ih =>
    intro list0 list1 fDifferent out hf
    rw [TextCompareRun]
    cases hstep : TextCompareStep pFC list0 list1 fDifferent out with
    | none => exact ⟨none, rfl⟩
    | some x =>
      cases x with
      | inl r => exact ⟨some r, rfl⟩
      | inr y =>
        obtain ⟨rest0, rest1, out1⟩ := y
        obtain ⟨_, _, _, _, _, _, _, _, _, hlt⟩ :=
          TextCompareStep_continue pFC list0 list1 rest0 rest1 fDifferent out out1 hstep
        exact ih rest0 rest1 true out1 (by omega)

/-- The loop of `TextCompare` gives what its turns give one after the other. -/
theorem TextCompareLoop_eq_run (pFC : FILECOMPARE) (fuel : Nat) :
    ∀ (list0 list1 : List NODE) (fDifferent : Bool) (out : List OUT),
      TextCompareLoop pFC fuel list0 list1 fDifferent out
        = match TextCompareRun pFC fuel list0 list1 fDifferent out with
          | none => none
          | some res => res := by
  induction fuel with
  | zero => intro list0 list1 fDifferent out; rw [TextCompareLoop, TextCompareRun]
  | succ fuel ih =>
    intro list0 list1 fDifferent out
    rw [TextCompareLoop_succ, TextCompareRun]
    cases hstep : TextCompareStep pFC list0 list1 fDifferent out with
    | none => rfl
    | some x =>
      cases x with
      | inl r => rfl
      | inr y =>
        obtain ⟨rest0, rest1, out1⟩ := y
        exact ih rest0 rest1 true out1

/-- C24: the cycle of `SkipIdentical`, `Resync`, `ShowDiff` and `DeleteNodes` in
`TextCompare` terminates, for all lists and every window.  A turn of the loop that
does not leave it follows a `SkipIdentical` that stopped on a pair of lines
reported different and a `Resync` that succeeded from that pair and landed on
another pair; `DeleteNodes` then takes the entries up to the one after the landing
entry (up to the landing entry when it is the last one) out of each list, and the
two lists together have fewer entries than before.  So the loop is left, or reads
through `NULL`, after at most as many turns as the two lists have entries, plus
one: run with that bound, the turns do not use it up, and the loop of
`TextCompare` with that bound gives what they give. -/
theorem TextCompare_cycle_terminates (pFC : FILECOMPARE) (list0 list1 : List NODE)
    (fDifferent : Bool) (out : List OUT) :
    (∀ rest0 rest1 out1,
      TextCompareStep pFC list0 list1 fDifferent out = some (Sum.inr (rest0, rest1, out1)) →
      ∃ save0 save1 q0 q1,
        SkipIdentical pFC list0 list1 (list_head list0) (list_head list1)
          = some (some FCRET_DIFFERENT, some save0, some save1) ∧
        Resync pFC list0 list1 save0 save1 = some (FCRET_IDENTICAL, some q0, some q1) ∧
        (q0, q1) ≠ (save0, save1) ∧
        rest0 = list0.drop (if q0 + 1 < list0.length then q0 + 1 else q0) ∧
        rest1 = list1.drop (if q1 + 1 < list1.length then q1 + 1 else q1) ∧
        rest0.length + rest1.length < list0.length + list1.length) ∧
    (∃ res,
      TextCompareRun pFC (list0.length + list1.length + 1) list0 list1 fDifferent out = some res ∧
      TextCompareLoop pFC (list0.length + list1.length + 1) list0 list1 fDifferent out = res) := by
  refine ⟨fun rest0 rest1 out1 h =>
    TextCompareStep_continue pFC list0 list1 rest0 rest1 fDifferent out out1 h, ?_⟩
  obtain ⟨res, hres⟩ := TextCompareRun_isSome pFC (list0.length + list1.length + 1)
    list0 list1 fDifferent out (by omega)
  refine ⟨res, hres, ?_⟩
  rw [TextCompareLoop_eq_run, hres]

theorem TextCompare_cycle_terminates_witness :
    TextCompareStep { dwFlags := 0, n := 2 }
        (lineList { dwFlags := 0, n := 2 } 1 [[97], [98], [99]])
        (lineList { dwFlags := 0, n := 2 } 1 [[97], [88], [99]]) false []
      = some (Sum.inr ([AllocEOFNode], [AllocEOFNode],
          [OUT.caption 0, OUT.line none [97], OUT.line none [98], OUT.line none [99],
           OUT.caption 1, OUT.line none [97], OUT.line none [88], OUT.line none [99],
           OUT.endOfDiff])) ∧
    ([AllocEOFNode] : List NODE).length + ([AllocEOFNode] : List NODE).length
      < (lineList { dwFlags := 0, n := 2 } 1 [[97], [98], [99]]).length
        + (lineList { dwFlags := 0, n := 2 } 1 [[97], [88], [99]]).length := by
  have hstep : TextCompareStep { dwFlags := 0, n := 2 }
        (lineList { dwFlags := 0, n := 2 } 1 [[97], [98], [99]])
        (lineList { dwFlags := 0, n := 2 } 1 [[97], [88], [99]]) false []
      = some (Sum.inr ([AllocEOFNode], [AllocEOFNode],
          [OUT.caption 0, OUT.line none [97], OUT.line none [98], OUT.line none [99],
           OUT.caption 1, OUT.line none [97], OUT.line none [88], OUT.line none [99],
           OUT.endOfDiff])) := by decide
  obtain ⟨_, _, _, _, _, _, _, _, _, hlt⟩ :=
    (TextCompare_cycle_terminates { dwFlags := 0, n := 2 }
      (lineList { dwFlags := 0, n := 2 } 1 [[97], [98], [99]])
      (lineList { dwFlags := 0, n := 2 } 1 [[97], [88], [99]]) false []).1 _ _ _ hstep
  exact ⟨hstep, hlt⟩

end FC
